import Mathlib

/-!
# lightcurve-db: adaptive HEALPix partitioning and bulk import

A shallow embedding of the importer sources
(`minimal_healpix_package/quick_import.cpp`, `cpp/quick_import.cpp`) and of the query
engine (`cpp/query_test1.cpp`), and the properties proved about them.

Conventions of the embedding
* `double` values are exact rationals (`Rat`); `PI` is the decimal literal of the
  sources, which is itself a rational number.
* `long` is a 64-bit two's-complement integer: values are `Int`, and the shift and
  the addition that build a composite id wrap through `wrapLong`.
* The `int` counters of the population snapshot are unbounded integers, the
  success/error counters and `size_t` loop indices are natural numbers (a load
  holds fewer than `2^31` records); `batch_size` is a natural number, 0 included.
* The HEALPix library, the C math library and the storage engine are external:
  `Healpix_Base` and `Libm` carry the library calls as functions, every storage
  statement of the importers gets its outcome from an explicit `StorageOutcome`, and
  the query engine's `SELECT` is the function `taos_query`.
* `std::map` is an association list kept in key order; `std::queue` and
  `std::vector` are lists.
-/

namespace LightcurveDb

/-! ## Numeric primitives -/

/-- The constant `PI = 3.14159265358979323846` of the sources. -/
def PI : Rat := 314159265358979323846 / 100000000000000000000

/-- Degrees to radians: `deg * PI / 180.0`. -/
def deg2rad (deg : Rat) : Rat := deg * PI / 180

/-- Rounding toward zero, as C's `fmod` uses for the quotient. -/
def truncToZero (q : Rat) : Int := if 0 ≤ q then Int.floor q else Int.ceil q

/-- C's `fmod(x, y)`: `x - y * trunc(x / y)`; the result has the sign of `x`. -/
def fmod (x y : Rat) : Rat := x - y * (truncToZero (x / y) : Rat)

/-- Reduction of an integer to the 64-bit two's-complement range of `long`. -/
def wrapLong (x : Int) : Int := (x + 2 ^ 63) % 2 ^ 64 - 2 ^ 63

/-- The expression `(base_id << 32) + fine_id` on `long` operands. -/
def compositeId (base_id fine_id : Int) : Int :=
  wrapLong (wrapLong (base_id * 2 ^ 32) + fine_id)

/-! ## `std::map` as an association list in key order -/

/-- Lookup `m.find(k)`: the value of the first entry with key `k`. -/
def mapFind {K V : Type} [DecidableEq K] : List (K × V) → K → Option V
  | [], _ => none
  | e :: rest, k => if e.1 = k then some e.2 else mapFind rest k

/-- Insertion of a fresh key at its place in key order. -/
def mapInsert {K V : Type} (lt : K → K → Bool) (k : K) (v : V) :
    List (K × V) → List (K × V)
  | [] => [(k, v)]
  | e :: rest => if lt k e.1 then (k, v) :: e :: rest else e :: mapInsert lt k v rest

/-- Overwrite of the value stored at an existing key. -/
def mapAssign {K V : Type} [DecidableEq K] (k : K) (v : V) :
    List (K × V) → List (K × V)
  | [] => []
  | e :: rest => if e.1 = k then (e.1, v) :: rest else e :: mapAssign k v rest

/-- The statement `f(m[k])`: `operator[]` value-initialises a missing entry with
`dflt`, then the entry is modified in place by `f`. -/
def mapModify {K V : Type} [DecidableEq K] (lt : K → K → Bool) (dflt : V) (f : V → V)
    (m : List (K × V)) (k : K) : List (K × V) :=
  match mapFind m k with
  | some v => mapAssign k (f v) m
  | none => mapInsert lt k (f dflt) m

/-- Order of `long` keys. -/
def longLt (a b : Int) : Bool := decide (a < b)

/-- Order of `std::pair<long, int>` keys: lexicographic. -/
def pairLt (a b : Int × Int) : Bool :=
  decide (a.1 < b.1) || (decide (a.1 = b.1) && decide (a.2 < b.2))

/-! ## Data model -/

/-- A catalog row; `healpix_id` is filled in by `loadAndProcessData`. -/
structure AstronomicalRecord where
  timestamp : String
  source_id : Int
  ra : Rat
  dec : Rat
  mag : Rat
  jd_tcb : Rat
  healpix_id : Int
deriving DecidableEq

/-- A sky direction of the HEALPix library: colatitude and longitude in radians. -/
structure pointing where
  theta : Rat
  phi : Rat
deriving DecidableEq

/-- The calls the sources make on a `Healpix_Base` object of the external HEALPix
library, taken as given functions. -/
structure Healpix_Base where
  ang2pix : pointing → Int
  Npix : Int
  query_disc : pointing → Rat → List Int

/-- The importer's configuration and its two tessellations. -/
structure TDengineHealpixImporter where
  count_threshold : Int
  batch_size : Nat
  healpix_base : Healpix_Base
  healpix_fine : Healpix_Base

/-- The direction built from a position wherever the sources consume one:
`ra = fmod(ra, 360); if (ra < 0) ra += 360; dec = max(-90, min(90, dec));
pointing pt(deg2rad(90 - dec), deg2rad(ra))`. -/
def cleanPointing (ra dec : Rat) : pointing :=
  let ra := fmod ra 360
  let ra := if ra < 0 then ra + 360 else ra
  let dec := max (-90) (min 90 dec)
  { theta := deg2rad (90 - dec), phi := deg2rad ra }

/-- The count read from the snapshot: `it != end ? it->second : 0`. -/
def snapshotCount (base_counts : List (Int × Int)) (base_id : Int) : Int :=
  match mapFind base_counts base_id with
  | some c => c
  | none => 0

/-- `TDengineHealpixImporter::calculateAdaptiveHealpixId`. -/
def calculateAdaptiveHealpixId (imp : TDengineHealpixImporter) (ra dec : Rat)
    (_source_id : Int) (base_counts : List (Int × Int)) : Int :=
  let ra := fmod ra 360
  let ra := if ra < 0 then ra + 360 else ra
  let dec := max (-90) (min 90 dec)
  let pt : pointing := { theta := deg2rad (90 - dec), phi := deg2rad ra }
  let base_id := imp.healpix_base.ang2pix pt
  let count := snapshotCount base_counts base_id
  if count > imp.count_threshold then
    let fine_id := imp.healpix_fine.ang2pix pt
    compositeId base_id fine_id
  else
    base_id

/-- The population pass of `loadAndProcessData`: one counter per base cell,
incremented once for every record (`base_counts[base_id]++`). -/
def countBaseCells (imp : TDengineHealpixImporter) (records : List AstronomicalRecord) :
    List (Int × Int) :=
  records.foldl (fun base_counts record =>
    let clean_ra := fmod record.ra 360
    let clean_ra := if clean_ra < 0 then clean_ra + 360 else clean_ra
    let clean_dec := max (-90) (min 90 record.dec)
    let pt : pointing := { theta := deg2rad (90 - clean_dec), phi := deg2rad clean_ra }
    let base_id := imp.healpix_base.ang2pix pt
    mapModify longLt 0 (fun c => c + 1) base_counts base_id) []

/-- `TDengineHealpixImporter::loadAndProcessData` on the parsed rows: the population
pass, then the assignment pass against that frozen snapshot. -/
def loadAndProcessData (imp : TDengineHealpixImporter) (records : List AstronomicalRecord) :
    List AstronomicalRecord :=
  let base_counts := countBaseCells imp records
  records.map (fun record =>
    { record with
      healpix_id :=
        calculateAdaptiveHealpixId imp record.ra record.dec record.source_id base_counts })

/-- One unit of work: the records of one `(healpix_id, source_id)` shard. -/
structure ImportTask where
  healpix_id : Int
  source_id : Int
  records : List AstronomicalRecord
deriving DecidableEq

/-- The grouping step of `importData`:
`groups[{record.healpix_id, record.source_id}].push_back(&record)`. -/
def groupRecords (records : List AstronomicalRecord) :
    List ((Int × Int) × List AstronomicalRecord) :=
  records.foldl (fun groups record =>
    mapModify pairLt [] (fun g => g ++ [record]) groups
      (record.healpix_id, record.source_id)) []

/-- The task queue of `importData`: one `ImportTask` per group, in key order. -/
def buildTaskQueue (records : List AstronomicalRecord) : List ImportTask :=
  (groupRecords records).map (fun group =>
    { healpix_id := group.1.1, source_id := group.1.2, records := group.2 })

/-! ## Storage statements and counters -/

/-- The statements the importers send to the storage engine. -/
inductive Statement where
  | createTable (healpix_id source_id : Int)
  | insertRows (healpix_id source_id : Int) (rows : List AstronomicalRecord)
deriving DecidableEq

/-- What the storage engine answers to the statements of one task:
`create_ok` for its `CREATE TABLE`, `write_ok i` for the `INSERT` of the batch that
starts at index `i`. -/
structure StorageOutcome where
  create_ok : Bool
  write_ok : Nat → Bool

/-- The counters `total_success_`, `total_error_`, `processed_groups_`. -/
structure ThreadSafeStats where
  total_success : Nat
  total_error : Nat
  processed_groups : Nat
deriving DecidableEq

/-- `ThreadSafeStats::addSuccess`. -/
def ThreadSafeStats.addSuccess (stats : ThreadSafeStats) (count : Nat) : ThreadSafeStats :=
  { stats with total_success := stats.total_success + count }

/-- `ThreadSafeStats::addError`. -/
def ThreadSafeStats.addError (stats : ThreadSafeStats) (count : Nat) : ThreadSafeStats :=
  { stats with total_error := stats.total_error + count }

/-- `ThreadSafeStats::incrementGroup`. -/
def ThreadSafeStats.incrementGroup (stats : ThreadSafeStats) : ThreadSafeStats :=
  { stats with processed_groups := stats.processed_groups + 1 }

/-! ## Connection pool -/

/-- `TDengineConnectionPool`: the queue of available handles and the requested size.
A handle is the index of the constructor iteration that opened it. -/
structure TDengineConnectionPool where
  connections_ : List Nat
  pool_size_ : Nat
deriving DecidableEq

/-- The constructor: `pool_size` connection attempts; a handle is queued only when
both `taos_connect` and the `USE` statement succeed. -/
def TDengineConnectionPool.construct (pool_size : Nat) (connect_ok use_ok : Nat → Bool) :
    TDengineConnectionPool :=
  { connections_ :=
      (List.range pool_size).foldl (fun q i =>
        if connect_ok i then (if use_ok i then q ++ [i] else q) else q) []
    pool_size_ := pool_size }

/-- `getConnection`: with a non-empty queue, pops and returns the front handle;
`none` stands for a caller that waits on the condition variable. -/
def TDengineConnectionPool.getConnection (pool : TDengineConnectionPool) :
    Option (Nat × TDengineConnectionPool) :=
  match pool.connections_ with
  | [] => none
  | conn :: rest => some (conn, { pool with connections_ := rest })

/-- `returnConnection`: pushes the handle at the back of the queue. -/
def TDengineConnectionPool.returnConnection (pool : TDengineConnectionPool) (conn : Nat) :
    TDengineConnectionPool :=
  { pool with connections_ := pool.connections_ ++ [conn] }

/-- The pool together with the handles currently held by callers. -/
structure PoolSystem where
  pool : TDengineConnectionPool
  held : List Nat

/-- The state right after construction: nothing is held. -/
def PoolSystem.initial (pool_size : Nat) (connect_ok use_ok : Nat → Bool) : PoolSystem :=
  { pool := TDengineConnectionPool.construct pool_size connect_ok use_ok, held := [] }

/-- One step of the pool: a caller acquires the front handle (only possible when
the queue is non-empty), or a caller returns a handle it holds. -/
inductive PoolSystem.Step : PoolSystem → PoolSystem → Prop where
  | acquire (s : PoolSystem) (conn : Nat) (pool1 : TDengineConnectionPool) :
      s.pool.getConnection = some (conn, pool1) →
      PoolSystem.Step s { pool := pool1, held := conn :: s.held }
  | release (s : PoolSystem) (conn : Nat) :
      conn ∈ s.held →
      PoolSystem.Step s { pool := s.pool.returnConnection conn, held := s.held.erase conn }

/-- The states the pool can be in after any sequence of steps from `s0`. -/
def PoolSystem.Reachable (s0 s : PoolSystem) : Prop :=
  Relation.ReflTransGen PoolSystem.Step s0 s

/-! ## Worker pool (`minimal_healpix_package/quick_import.cpp`) -/

/-- What a worker reads and writes: the pool, the counters, and, as a record of
its calls to `taos_query`, the statements issued so far with the outcome of each. -/
structure ImportState where
  conn_pool : TDengineConnectionPool
  stats : ThreadSafeStats
  issued : List (Statement × Bool)

/-- The batch loop `for (size_t i = 0; i < records.size(); i += batch_size)`,
entered at index `i`. The first argument bounds the number of iterations; `none`
means the bound was reached with records left, which is what the loop does forever
when `batch_size` is 0. -/
def insertLoop (batch_size : Nat) (task : ImportTask) (out : StorageOutcome) :
    Nat → Nat → ThreadSafeStats × List (Statement × Bool) →
      Option (ThreadSafeStats × List (Statement × Bool))
  | 0, i, st => if i < task.records.length then none else some st
  | fuel + 1, i, st =>
    if i < task.records.length then
      let end_idx := min (i + batch_size) task.records.length
      let rows := (task.records.drop i).take (end_idx - i)
      let ok := out.write_ok i
      let stats := if ok then st.1.addSuccess (end_idx - i) else st.1.addError (end_idx - i)
      insertLoop batch_size task out fuel (i + batch_size)
        (stats, st.2 ++ [(Statement.insertRows task.healpix_id task.source_id rows, ok)])
    else some st

/-- `TDengineHealpixImporter::processImportTask` (exception-free paths). `none`
when the call does not return: the pool has no handle to give, or the batch loop
does not end. -/
def processImportTask (imp : TDengineHealpixImporter) (task : ImportTask)
    (out : StorageOutcome) (s : ImportState) : Option ImportState :=
  match s.conn_pool.getConnection with
  | none => none
  | some (task_conn, pool1) =>
    let issued1 :=
      s.issued ++ [(Statement.createTable task.healpix_id task.source_id, out.create_ok)]
    if out.create_ok = false then
      some { conn_pool := pool1.returnConnection task_conn
             stats := s.stats.addError task.records.length
             issued := issued1 }
    else
      match insertLoop imp.batch_size task out task.records.length 0 (s.stats, issued1) with
      | none => none
      | some (stats2, issued2) =>
        some { conn_pool := pool1.returnConnection task_conn
               stats := stats2
               issued := issued2 }

/-- `TDengineHealpixImporter::workerThread` draining the queue: pop a task, process
it, count the group. Each queued task comes with the answers the storage engine
gives to its statements. The queue is mutex-protected and the counters are atomic,
so a run of the worker pool is a sequence of such iterations, one per task. -/
def workerThread (imp : TDengineHealpixImporter) :
    List (ImportTask × StorageOutcome) → ImportState → Option ImportState
  | [], s => some s
  | (task, out) :: task_queue, s =>
    match processImportTask imp task out s with
    | none => none
    | some s1 => workerThread imp task_queue { s1 with stats := s1.stats.incrementGroup }

/-- The state `importData` starts the workers in: fresh counters, nothing issued. -/
def ImportState.fresh (conn_pool : TDengineConnectionPool) : ImportState :=
  { conn_pool := conn_pool
    stats := { total_success := 0, total_error := 0, processed_groups := 0 }
    issued := [] }

/-- `TDengineHealpixImporter::importData` of the worker-pool importer: group, queue
one task per group, run the workers; `storage` gives the engine's answers for the
shard of each key. -/
def importData (imp : TDengineHealpixImporter) (conn_pool : TDengineConnectionPool)
    (storage : Int → Int → StorageOutcome) (records : List AstronomicalRecord) :
    Option ImportState :=
  workerThread imp
    ((buildTaskQueue records).map (fun task => (task, storage task.healpix_id task.source_id)))
    (ImportState.fresh conn_pool)

/-! ## Single-connection importer (`cpp/quick_import.cpp`) -/

/-- The body of the loop `for (const auto& group : groups)` of the single-connection
`importData`: count the group, create the shard, and on failure `continue`;
otherwise run the batch loop. -/
def importGroupSingle (batch_size : Nat) (storage : Int → Int → StorageOutcome)
    (group : (Int × Int) × List AstronomicalRecord)
    (st : ThreadSafeStats × List (Statement × Bool)) :
    Option (ThreadSafeStats × List (Statement × Bool)) :=
  let counters := st.1.incrementGroup
  let healpix_id := group.1.1
  let source_id := group.1.2
  let group_records := group.2
  let out := storage healpix_id source_id
  let issued1 := st.2 ++ [(Statement.createTable healpix_id source_id, out.create_ok)]
  if out.create_ok = false then
    some (counters, issued1)
  else
    insertLoop batch_size
      { healpix_id := healpix_id, source_id := source_id, records := group_records }
      out group_records.length 0 (counters, issued1)

/-- The loop over all groups of the single-connection `importData`. -/
def importGroupsSingle (batch_size : Nat) (storage : Int → Int → StorageOutcome) :
    List ((Int × Int) × List AstronomicalRecord) →
      ThreadSafeStats × List (Statement × Bool) →
      Option (ThreadSafeStats × List (Statement × Bool))
  | [], st => some st
  | group :: groups, st =>
    match importGroupSingle batch_size storage group st with
    | none => none
    | some st1 => importGroupsSingle batch_size storage groups st1

/-- `TDengineHealpixImporter::importData` of the single-connection importer; the
counters `total_success`, `total_error`, `processed_groups` start at 0. -/
def importDataSingle (imp : TDengineHealpixImporter) (storage : Int → Int → StorageOutcome)
    (records : List AstronomicalRecord) :
    Option (ThreadSafeStats × List (Statement × Bool)) :=
  importGroupsSingle imp.batch_size storage (groupRecords records)
    ({ total_success := 0, total_error := 0, processed_groups := 0 }, [])

/-- The base cell of a record: `healpix_base->ang2pix` at its normalised position. -/
def baseCell (imp : TDengineHealpixImporter) (record : AstronomicalRecord) : Int :=
  imp.healpix_base.ang2pix (cleanPointing record.ra record.dec)

/-- The fine cell of a record: `healpix_fine->ang2pix` at its normalised position. -/
def fineCell (imp : TDengineHealpixImporter) (record : AstronomicalRecord) : Int :=
  imp.healpix_fine.ang2pix (cleanPointing record.ra record.dec)

/-- The number of input records whose normalised position falls in base cell `b`. -/
def cellPopulation (imp : TDengineHealpixImporter) (records : List AstronomicalRecord)
    (b : Int) : Nat :=
  records.countP (fun r => decide (baseCell imp r = b))

/-- The shard key of a record. -/
def AstronomicalRecord.key (record : AstronomicalRecord) : Int × Int :=
  (record.healpix_id, record.source_id)

/-- The shard key of a task. -/
def ImportTask.key (task : ImportTask) : Int × Int :=
  (task.healpix_id, task.source_id)

/-- The number of batches of `n` records: `ceil(n / batch_size)`. -/
def batchCount (batch_size n : Nat) : Nat := (n + batch_size - 1) / batch_size

/-- The rows of the `k`-th batch: the slice that starts at index `k * batch_size`. -/
def batchRows (batch_size : Nat) (records : List AstronomicalRecord) (k : Nat) :
    List AstronomicalRecord :=
  (records.drop (k * batch_size)).take batch_size

/-- The effect of the `k`-th batch of a task on the counters and on the issued
statements. -/
def batchStep (batch_size : Nat) (task : ImportTask) (out : StorageOutcome)
    (st : ThreadSafeStats × List (Statement × Bool)) (k : Nat) :
    ThreadSafeStats × List (Statement × Bool) :=
  ((if out.write_ok (k * batch_size)
      then st.1.addSuccess (batchRows batch_size task.records k).length
      else st.1.addError (batchRows batch_size task.records k).length),
    st.2 ++ [(Statement.insertRows task.healpix_id task.source_id
      (batchRows batch_size task.records k), out.write_ok (k * batch_size))])

/-- The records of a task written by batches that succeed; 0 when the shard could
not be created. -/
def taskSuccess (batch_size : Nat) (task : ImportTask) (out : StorageOutcome) : Nat :=
  if out.create_ok then
    (((List.range (batchCount batch_size task.records.length)).filter
      (fun k => out.write_ok (k * batch_size))).map
        (fun k => (batchRows batch_size task.records k).length)).sum
  else 0

/-- The records of a task counted as errors: those of its failed batches, or all of
them when the shard could not be created. -/
def taskError (batch_size : Nat) (task : ImportTask) (out : StorageOutcome) : Nat :=
  if out.create_ok then
    (((List.range (batchCount batch_size task.records.length)).filter
      (fun k => !out.write_ok (k * batch_size))).map
        (fun k => (batchRows batch_size task.records k).length)).sum
  else task.records.length

/-- The statements one task sends, with their outcomes: the `CREATE TABLE`, then,
when it succeeded, one `INSERT` per batch. -/
def taskStatements (batch_size : Nat) (task : ImportTask) (out : StorageOutcome) :
    List (Statement × Bool) :=
  (Statement.createTable task.healpix_id task.source_id, out.create_ok) ::
    (if out.create_ok then
      (List.range (batchCount batch_size task.records.length)).map (fun k =>
        (Statement.insertRows task.healpix_id task.source_id
          (batchRows batch_size task.records k), out.write_ok (k * batch_size)))
    else [])

/-! ## Position normalisation -/

/-- The normalisation coded in the importer (`calculateAdaptiveHealpixId` and the
population pass): `ra = fmod(ra, 360.0); if (ra < 0) ra += 360.0;
dec = std::max(-90.0, std::min(90.0, dec))`. -/
def normalizeImport (ra dec : Rat) : Rat × Rat :=
  let ra := fmod ra 360
  let ra := if ra < 0 then ra + 360 else ra
  let dec := max (-90) (min 90 dec)
  (ra, dec)

/-- The normalisation coded in the query engine (first lines of
`nearestWithHealpix` and of `coneWithHealpix`). -/
def normalizeQuery (ra dec : Rat) : Rat × Rat :=
  let ra := fmod ra 360
  let ra := if ra < 0 then ra + 360 else ra
  let dec := max (-90) (min 90 dec)
  (ra, dec)

/-- The mathematical remainder `x mod y`, in `[0, y)` for `y > 0`. -/
def floorMod (x y : Rat) : Rat := x - y * (Int.floor (x / y) : Rat)

/-- The function `clamp(x, lo, hi)`. -/
def clamp (x lo hi : Rat) : Rat := if x < lo then lo else if hi < x then hi else x

/-- The specification's formula, `ra = ((ra mod 360) + 360) mod 360` and
`dec = clamp(dec, -90, 90)`, with `mod` the mathematical remainder. -/
def specNormalize (ra dec : Rat) : Rat × Rat :=
  (floorMod (floorMod ra 360 + 360) 360, clamp dec (-90) 90)

/-- The specification's formula with `mod` read as the truncating remainder of
C's `fmod`. -/
def specNormalizeTrunc (ra dec : Rat) : Rat × Rat :=
  (fmod (fmod ra 360 + 360) 360, clamp dec (-90) 90)

/-! ## Query engine (`cpp/query_test1.cpp`) -/

/-- The functions of the C math library that `SkyCoord::separation` calls, taken as
given functions on the values of `double`. -/
structure Libm where
  sin : Rat → Rat
  cos : Rat → Rat
  acos : Rat → Rat

/-- The contract of `acos` that the query engine relies on: on `[-1, 1]` it returns
an angle in `[0, pi]`, here bounded by 4. -/
def Libm.AcosInRange (m : Libm) : Prop :=
  ∀ x : Rat, -1 ≤ x → x ≤ 1 → 0 ≤ m.acos x ∧ m.acos x ≤ 4

/-- `SkyCoord`: a position in degrees. -/
structure SkyCoord where
  ra : Rat
  dec : Rat
deriving DecidableEq

/-- `SkyCoord::separation`: the great-circle separation in degrees by the spherical
law of cosines, the cosine clamped to `[-1, 1]` before `acos`. -/
def SkyCoord.separation (m : Libm) (self other : SkyCoord) : Rat :=
  let ra1 := self.ra * PI / 180
  let dec1 := self.dec * PI / 180
  let ra2 := other.ra * PI / 180
  let dec2 := other.dec * PI / 180
  let dra := ra2 - ra1
  let a := m.sin dec1 * m.sin dec2 + m.cos dec1 * m.cos dec2 * m.cos dra
  let a := max (-1) (min 1 a)
  m.acos a * 180 / PI

/-- The value `std::numeric_limits<double>::max()`. -/
def DBL_MAX : Rat := 2 ^ 1024 - 2 ^ 971

/-- What the query engine reads and calls: its resolution `nside` (at least 1, as
`Healpix_Base` requires), its tessellation, the math library, and the storage
engine. `taos_query ids` is the answer to
`SELECT ra, dec FROM sensor_data WHERE healpix_id IN (ids)`: `none` when
`taos_errno` is non-zero, otherwise the rows, each column possibly null. -/
structure TDengineQueryTester where
  nside : Int
  healpix_map : Healpix_Base
  libm : Libm
  taos_query : List Int → Option (List (Option Rat × Option Rat))

/-- The list `healpix_ids` that `nearestWithHealpix` builds: the centre cell, then
for each offset `(d_theta, d_phi)` other than `(0, 0)`, in loop order, the cell of
the shifted direction when the direction and the cell are in range. -/
def nearestHealpixIds (t : TDengineQueryTester) (ra dec : Rat) : List Int :=
  let ra := fmod ra 360
  let ra := if ra < 0 then ra + 360 else ra
  let dec := max (-90) (min 90 dec)
  let pt : pointing := { theta := deg2rad (90 - dec), phi := deg2rad ra }
  let center_id := t.healpix_map.ang2pix pt
  ([-1, 0, 1] : List Int).foldl (fun healpix_ids d_theta =>
    ([-1, 0, 1] : List Int).foldl (fun healpix_ids d_phi =>
      if d_theta = (0 : Int) ∧ d_phi = (0 : Int) then healpix_ids
      else
        let theta := pt.theta + d_theta * PI / (2 * t.nside)
        let phi := pt.phi + d_phi * 2 * PI / (4 * t.nside)
        if theta ≥ 0 ∧ theta ≤ PI ∧ phi ≥ 0 ∧ phi < 2 * PI then
          let neighbor_id := t.healpix_map.ang2pix { theta := theta, phi := phi }
          if neighbor_id ≥ 0 ∧ neighbor_id < t.healpix_map.Npix then
            healpix_ids ++ [neighbor_id]
          else healpix_ids
        else healpix_ids) healpix_ids) [center_id]

/-- The row loop of `nearestWithHealpix`: `min_distance` and `found_any` after the
rows, rows with a null column skipped. -/
def nearestScan (m : Libm) (target : SkyCoord) (rows : List (Option Rat × Option Rat)) :
    Rat × Bool :=
  rows.foldl (fun acc row =>
    match row with
    | (some query_ra, some query_dec) =>
      (min acc.1 (target.separation m { ra := query_ra, dec := query_dec }), true)
    | _ => acc) (DBL_MAX, false)

/-- `TDengineQueryTester::nearestWithHealpix`. -/
def nearestWithHealpix (t : TDengineQueryTester) (ra dec : Rat) : Rat :=
  let healpix_ids := nearestHealpixIds t ra dec
  let ra := fmod ra 360
  let ra := if ra < 0 then ra + 360 else ra
  let dec := max (-90) (min 90 dec)
  match t.taos_query healpix_ids with
  | none => -1
  | some rows =>
    let target : SkyCoord := { ra := ra, dec := dec }
    let scan := nearestScan t.libm target rows
    if scan.2 then scan.1 else -1

/-- The list `healpix_ids` that `coneWithHealpix` builds: the cells `query_disc`
returns, or the centre cell when it returns none. -/
def coneHealpixIds (t : TDengineQueryTester) (ra dec radius : Rat) : List Int :=
  let ra := fmod ra 360
  let ra := if ra < 0 then ra + 360 else ra
  let dec := max (-90) (min 90 dec)
  let pt : pointing := { theta := deg2rad (90 - dec), phi := deg2rad ra }
  let radius_rad := deg2rad radius
  let healpix_ids := t.healpix_map.query_disc pt radius_rad
  if healpix_ids = [] then
    let center_id := t.healpix_map.ang2pix pt
    healpix_ids ++ [center_id]
  else healpix_ids

/-- The row loop of `coneWithHealpix`: `count` after the rows, rows with a null
column skipped. -/
def coneScan (m : Libm) (target : SkyCoord) (radius : Rat)
    (rows : List (Option Rat × Option Rat)) : Int :=
  rows.foldl (fun count row =>
    match row with
    | (some query_ra, some query_dec) =>
      if target.separation m { ra := query_ra, dec := query_dec } < radius then count + 1
      else count
    | _ => count) 0

/-- `TDengineQueryTester::coneWithHealpix`. -/
def coneWithHealpix (t : TDengineQueryTester) (ra dec radius : Rat) : Int :=
  let healpix_ids := coneHealpixIds t ra dec radius
  let ra := fmod ra 360
  let ra := if ra < 0 then ra + 360 else ra
  let dec := max (-90) (min 90 dec)
  match t.taos_query healpix_ids with
  | none => 0
  | some rows =>
    let target : SkyCoord := { ra := ra, dec := dec }
    coneScan t.libm target radius rows

/-- The rows of a result that the loops use: both columns non-null. -/
def usableRows (rows : List (Option Rat × Option Rat)) : List SkyCoord :=
  rows.filterMap (fun row =>
    match row with
    | (some query_ra, some query_dec) => some { ra := query_ra, dec := query_dec }
    | _ => none)

/-- The offsets `(d_theta, d_phi)` other than `(0, 0)`, in the order the two nested
loops of `nearestWithHealpix` visit them. -/
def neighbourOffsets : List (Int × Int) :=
  [(-1, -1), (-1, 0), (-1, 1), (0, -1), (0, 1), (1, -1), (1, 0), (1, 1)]

/-- The cell that one offset contributes to `healpix_ids`, if any: the body of the
nested loops of `nearestWithHealpix`. -/
def neighbourCell (t : TDengineQueryTester) (pt : pointing) (d_theta d_phi : Int) :
    Option Int :=
  if d_theta = (0 : Int) ∧ d_phi = (0 : Int) then none
  else
    let theta := pt.theta + d_theta * PI / (2 * t.nside)
    let phi := pt.phi + d_phi * 2 * PI / (4 * t.nside)
    if theta ≥ 0 ∧ theta ≤ PI ∧ phi ≥ 0 ∧ phi < 2 * PI then
      let neighbor_id := t.healpix_map.ang2pix { theta := theta, phi := phi }
      if neighbor_id ≥ 0 ∧ neighbor_id < t.healpix_map.Npix then some neighbor_id
      else none
    else none

/-! ## Mapping table, shard names, statement cache -/

/-- The mapping step of `loadAndProcessData`: a source gets an entry the first time
one of its records is met, `if (find(source_id) == end) map[source_id] = healpix_id`. -/
def sourceHealpixMap (records : List AstronomicalRecord) : List (Int × Int) :=
  records.foldl (fun source_healpix_map record =>
    match mapFind source_healpix_map record.source_id with
    | none =>
      mapModify longLt 0 (fun _ => record.healpix_id) source_healpix_map record.source_id
    | some _ => source_healpix_map) []

/-- The decimal digit `d` as a character. -/
def digitChar : Nat → Char
  | 0 => '0'
  | 1 => '1'
  | 2 => '2'
  | 3 => '3'
  | 4 => '4'
  | 5 => '5'
  | 6 => '6'
  | 7 => '7'
  | 8 => '8'
  | _ => '9'

/-- The digit a character stands for; 10 for a character that is no digit. -/
def charDigit (c : Char) : Nat :=
  if c = '0' then 0 else if c = '1' then 1 else if c = '2' then 2 else if c = '3' then 3
  else if c = '4' then 4 else if c = '5' then 5 else if c = '6' then 6
  else if c = '7' then 7 else if c = '8' then 8 else if c = '9' then 9 else 10

/-- The decimal digits of a natural number, least significant first; `[0]` for 0. -/
def decimalDigits (n : Nat) : List Nat := if n = 0 then [0] else Nat.digits 10 n

/-- `std::to_string` on an integer: the decimal digits, most significant first,
after a minus sign for a negative value. A `std::string` is a list of characters. -/
def to_string (z : Int) : List Char :=
  if z < 0 then '-' :: (decimalDigits z.natAbs).reverse.map digitChar
  else (decimalDigits z.toNat).reverse.map digitChar

/-- The shard name
`table_name + "_" + std::to_string(healpix_id) + "_" + std::to_string(source_id)`. -/
def table_name_full (table_name : List Char) (healpix_id source_id : Int) : List Char :=
  table_name ++ ['_'] ++ to_string healpix_id ++ ['_'] ++ to_string source_id

/-- The key `(task.healpix_id << 32) | task.source_id` of the optimized importer, as
the `uint64_t` it is stored in: the low 64 bits of the shifted id, or-ed with the
64-bit two's-complement pattern of the source id. -/
def tableKey (healpix_id source_id : Int) : Nat :=
  Int.toNat ((healpix_id * 2 ^ 32) % 2 ^ 64) ||| Int.toNat (source_id % 2 ^ 64)

/-- `OptimizedTDengineHealpixImporter::getOrCreatePreparedStatement`. A prepared
statement is identified by the shard `(healpix_id, source_id)` whose table it was
prepared to insert into; the cache `prepared_statements` maps keys to statements. -/
def getOrCreatePreparedStatement (prepared_statements : List (Nat × (Int × Int)))
    (table_key : Nat) (healpix_id source_id : Int) :
    (Int × Int) × List (Nat × (Int × Int)) :=
  match mapFind prepared_statements table_key with
  | some stmt => (stmt, prepared_statements)
  | none =>
    ((healpix_id, source_id),
      prepared_statements ++ [(table_key, (healpix_id, source_id))])

/-- The first lines of `processImportTaskOptimized`: the statement the task's rows
are bound to, and the cache afterwards. -/
def statementForTask (prepared_statements : List (Nat × (Int × Int))) (task : ImportTask) :
    (Int × Int) × List (Nat × (Int × Int)) :=
  let table_key := tableKey task.healpix_id task.source_id
  getOrCreatePreparedStatement prepared_statements table_key task.healpix_id task.source_id

/-- Successive calls of `getConnection` with no `returnConnection` in between: the
handles obtained and the pool left, `none` when one of the calls has to wait. -/
def TDengineConnectionPool.getConnections :
    Nat → TDengineConnectionPool → Option (List Nat × TDengineConnectionPool)
  | 0, pool => some ([], pool)
  | n + 1, pool =>
    match pool.getConnection with
    | none => none
    | some (conn, pool1) =>
      match TDengineConnectionPool.getConnections n pool1 with
      | none => none
      | some (conns, pool2) => some (conn :: conns, pool2)

/-! ## Query engine in `double` arithmetic -/

/-- The arithmetic of `double`: an operation whose exact result is `q` delivers
`rnd q`. The values of `double` variables are kept as the rationals they stand for. -/
structure DoubleArithmetic where
  rnd : Rat → Rat

/-- The finite values of a `double` (IEEE 754 binary64): `m * 2 ^ e` with
`|m| < 2 ^ 53` and `-1074 ≤ e ≤ 971`. -/
def isDouble (x : Rat) : Prop :=
  ∃ m e : Int, |m| < 2 ^ 53 ∧ -1074 ≤ e ∧ e ≤ 971 ∧ x = (m : Rat) * (2 : Rat) ^ e

/-- What IEEE 754 rounding guarantees, whatever the rounding mode: a larger exact
result never rounds to a smaller value, and an exact result that is a `double`
is delivered unchanged. -/
def DoubleArithmetic.Faithful (fp : DoubleArithmetic) : Prop :=
  (∀ x y : Rat, x ≤ y → fp.rnd x ≤ fp.rnd y) ∧ (∀ x : Rat, isDouble x → fp.rnd x = x)

/-- `deg2rad` on `double`: `deg * PI / 180.0`, the product rounded, then the
quotient; `PI` is the `double` that the literal `3.14159265358979323846` denotes. -/
def deg2radDouble (fp : DoubleArithmetic) (deg : Rat) : Rat :=
  fp.rnd (fp.rnd (deg * fp.rnd PI) / 180)

/-- The direction `nearestWithHealpix` builds, on `double`:
`ra = fmod(ra, 360.0); if (ra < 0) ra += 360.0;
dec = std::max(-90.0, std::min(90.0, dec));
pointing pt(deg2rad(90.0 - dec), deg2rad(ra))`. `fmod`, `max` and `min` are exact. -/
def cleanPointingDouble (fp : DoubleArithmetic) (ra dec : Rat) : pointing :=
  let ra := fmod ra 360
  let ra := if ra < 0 then fp.rnd (ra + 360) else ra
  let dec := max (-90) (min 90 dec)
  { theta := deg2radDouble fp (fp.rnd (90 - dec)), phi := deg2radDouble fp ra }

/-- The body of the nested loops of `nearestWithHealpix`, on `double`: the id that
the offset `(d_theta, d_phi)` pushes to `healpix_ids`, if any.
`theta = pt.theta + d_theta * M_PI / (2.0 * nside)`,
`phi = pt.phi + d_phi * 2.0 * M_PI / (4.0 * nside)`, every operation rounded. -/
def neighbourCellDouble (fp : DoubleArithmetic) (t : TDengineQueryTester) (pt : pointing)
    (d_theta d_phi : Int) : Option Int :=
  if d_theta = (0 : Int) ∧ d_phi = (0 : Int) then none
  else
    let theta := fp.rnd (pt.theta
      + fp.rnd (fp.rnd ((d_theta : Rat) * fp.rnd PI) / fp.rnd (2 * (t.nside : Rat))))
    let phi := fp.rnd (pt.phi
      + fp.rnd (fp.rnd (fp.rnd ((d_phi : Rat) * 2) * fp.rnd PI) / fp.rnd (4 * (t.nside : Rat))))
    if theta ≥ 0 ∧ theta ≤ fp.rnd PI ∧ phi ≥ 0 ∧ phi < fp.rnd (2 * fp.rnd PI) then
      let neighbor_id := t.healpix_map.ang2pix { theta := theta, phi := phi }
      if neighbor_id ≥ 0 ∧ neighbor_id < t.healpix_map.Npix then some neighbor_id
      else none
    else none

/-- The list `healpix_ids` that `nearestWithHealpix` builds, on `double`: the centre
cell, then, for `d_theta` and `d_phi` running from -1 to 1, what the loop body
pushes. -/
def nearestHealpixIdsDouble (fp : DoubleArithmetic) (t : TDengineQueryTester)
    (ra dec : Rat) : List Int :=
  let pt := cleanPointingDouble fp ra dec
  let center_id := t.healpix_map.ang2pix pt
  ([-1, 0, 1] : List Int).foldl (fun healpix_ids d_theta =>
    ([-1, 0, 1] : List Int).foldl (fun healpix_ids d_phi =>
      match neighbourCellDouble fp t pt d_theta d_phi with
      | some neighbor_id => healpix_ids ++ [neighbor_id]
      | none => healpix_ids) healpix_ids) [center_id]

/-- The number of binary digits of `n`, by halving; the first argument bounds the
number of halvings. -/
def bitLengthAux : Nat → Nat → Nat
  | 0, _ => 0
  | fuel + 1, n => if n = 0 then 0 else bitLengthAux fuel (n / 2) + 1

/-- The number of binary digits of `n`. -/
def bitLength (n : Nat) : Nat := bitLengthAux n n

/-- The exponent of the leading binary digit of a positive rational:
`2 ^ floorLog2 x ≤ x < 2 ^ (floorLog2 x + 1)`. -/
def floorLog2 (x : Rat) : Int :=
  let k : Int := (bitLength x.num.natAbs : Int) - (bitLength x.den : Int)
  if (2 : Rat) ^ k ≤ x then k else k - 1

/-- Rounding to the nearest integer, a tie going to the even one. -/
def roundHalfEven (x : Rat) : Int :=
  let f := Int.floor x
  if x - f < 1 / 2 then f
  else if 1 / 2 < x - f then f + 1
  else if f % 2 = 0 then f else f + 1

/-- Rounding of a positive rational to 53 significant binary digits, to nearest,
ties to even. -/
def roundPositive (x : Rat) : Rat :=
  let e := floorLog2 x - 52
  (roundHalfEven (x / (2 : Rat) ^ e) : Rat) * (2 : Rat) ^ e

/-- Rounding to the nearest value with 53 significant binary digits, ties to even:
the default rounding of binary64, for results that neither overflow nor fall in
the subnormal range. -/
def roundDouble (q : Rat) : Rat :=
  if q = 0 then 0 else if q < 0 then - roundPositive (-q) else roundPositive q

/-! ## Sample inputs -/

/-- A sample tessellation: the cell is the whole number of radians of longitude
times `n`. -/
def sampleHealpix (n : Int) : Healpix_Base :=
  { ang2pix := fun pt => Int.floor (pt.phi * n)
    Npix := 12 * n * n
    query_disc := fun _ _ => [] }

/-- A sample importer configuration: threshold 1, batches of 2. -/
def sampleImporter : TDengineHealpixImporter :=
  { count_threshold := 1, batch_size := 2, healpix_base := sampleHealpix 1,
    healpix_fine := sampleHealpix 4 }

/-- A sample catalog row, already assigned to shard `(3, 7)`. -/
def sampleRecord : AstronomicalRecord :=
  { timestamp := "2020-01-01 00:00:00", source_id := 7, ra := 10, dec := 20, mag := 15,
    jd_tcb := 2458849, healpix_id := 3 }

/-- A second sample catalog row, already assigned to shard `(4, 8)`. -/
def sampleRecord2 : AstronomicalRecord :=
  { timestamp := "2020-01-01 00:00:01", source_id := 8, ra := 200, dec := -5, mag := 16,
    jd_tcb := 2458849, healpix_id := 4 }

/-- A sample task of three rows for shard `(3, 7)`. -/
def sampleTask : ImportTask :=
  { healpix_id := 3, source_id := 7, records := [sampleRecord, sampleRecord, sampleRecord] }

/-- A storage engine that accepts every statement. -/
def acceptingOutcome : StorageOutcome :=
  { create_ok := true, write_ok := fun _ => true }

/-- A storage engine that refuses the `CREATE TABLE`. -/
def refusingOutcome : StorageOutcome :=
  { create_ok := false, write_ok := fun _ => true }

/-- A storage engine that creates the shard and refuses the batch starting at 0. -/
def firstBatchFailsOutcome : StorageOutcome :=
  { create_ok := true, write_ok := fun i => decide (i ≠ 0) }

/-- A storage engine that refuses to create the shards of partition 3 only. -/
def partitionThreeRefused : Int → Int → StorageOutcome :=
  fun healpix_id _ => { create_ok := decide (healpix_id ≠ 3), write_ok := fun _ => true }

/-- A sample state: a pool of two handles, fresh counters. -/
def sampleState : ImportState :=
  ImportState.fresh { connections_ := [0, 1], pool_size_ := 2 }

/-- A sample math library: low-order rational approximations, exact where libm is
exact: `sin 0 = 0`, `cos 0 = 1`, `acos 1 = 0`. -/
def sampleLibm : Libm :=
  { sin := fun x => x - x ^ 3 / 6
    cos := fun x => 1 - x ^ 2 / 2
    acos := fun x => PI / 2 * (1 - x) }

/-- A sample query engine at resolution 1 whose storage answers with `result`
whatever the cells asked for. -/
def sampleTester (result : Option (List (Option Rat × Option Rat))) : TDengineQueryTester :=
  { nside := 1, healpix_map := sampleHealpix 1, libm := sampleLibm,
    taos_query := fun _ => result }

/-- A sample importer that refines every populated cell: threshold 0. -/
def refiningImporter : TDengineHealpixImporter :=
  { count_threshold := 0, batch_size := 2, healpix_base := sampleHealpix 1,
    healpix_fine := sampleHealpix 4 }

/-- A sample catalog row at right ascension 100 degrees. -/
def sampleRecord3 : AstronomicalRecord :=
  { timestamp := "2020-01-01 00:00:02", source_id := 9, ra := 100, dec := 0, mag := 14,
    jd_tcb := 2458849, healpix_id := 0 }

/-- The task that grouping builds for shard `(3, 7)` from the input
`[sampleRecord, sampleRecord2, sampleRecord]`. -/
def sampleTaskOfTwo : ImportTask :=
  { healpix_id := 3, source_id := 7, records := [sampleRecord, sampleRecord] }


/-- A sample importer whose base cells are thirds of a radian of longitude and whose
fine cells are thirty-seconds of a radian: threshold 1, batches of 2. -/
def wideImporter : TDengineHealpixImporter :=
  { count_threshold := 1, batch_size := 2, healpix_base := sampleHealpix 3,
    healpix_fine := sampleHealpix 32 }

/-- A sample catalog of one source seen three times: twice at right ascension 29
degrees, once at 310 degrees. -/
def sampleCatalog : List AstronomicalRecord :=
  [{ timestamp := "2020-01-01 00:00:00", source_id := 7, ra := 29, dec := 0, mag := 15,
     jd_tcb := 2458849, healpix_id := 0 },
   { timestamp := "2020-01-01 00:00:01", source_id := 7, ra := 29, dec := 0, mag := 15,
     jd_tcb := 2458849, healpix_id := 0 },
   { timestamp := "2020-01-01 00:00:02", source_id := 7, ra := 310, dec := 0, mag := 15,
     jd_tcb := 2458849, healpix_id := 0 }]

/-- The catalog `sampleCatalog` after the assignment pass of `wideImporter`. -/
def sampleCatalogLoaded : List AstronomicalRecord :=
  [{ timestamp := "2020-01-01 00:00:00", source_id := 7, ra := 29, dec := 0, mag := 15,
     jd_tcb := 2458849, healpix_id := 4294967312 },
   { timestamp := "2020-01-01 00:00:01", source_id := 7, ra := 29, dec := 0, mag := 15,
     jd_tcb := 2458849, healpix_id := 4294967312 },
   { timestamp := "2020-01-01 00:00:02", source_id := 7, ra := 310, dec := 0, mag := 15,
     jd_tcb := 2458849, healpix_id := 16 }]
/-- The first row of `sampleCatalogLoaded`: in base cell 1, refined. -/
def sampleDenseRow : AstronomicalRecord :=
  { timestamp := "2020-01-01 00:00:00", source_id := 7, ra := 29, dec := 0, mag := 15,
    jd_tcb := 2458849, healpix_id := 4294967312 }

/-- The last row of `sampleCatalogLoaded`: alone in base cell 16, not refined. -/
def sampleSparseRow : AstronomicalRecord :=
  { timestamp := "2020-01-01 00:00:02", source_id := 7, ra := 310, dec := 0, mag := 15,
    jd_tcb := 2458849, healpix_id := 16 }

/-- A sample `double` arithmetic: round to nearest, ties to even, 53 digits. -/
def binary64 : DoubleArithmetic := { rnd := roundDouble }

/-- Exact arithmetic seen as a `double` arithmetic that never rounds. -/
def exactArithmetic : DoubleArithmetic := { rnd := fun q => q }

/-- A sample query engine at resolution 32 whose storage query fails. -/
def sampleTester32 : TDengineQueryTester :=
  { nside := 32, healpix_map := sampleHealpix 32, libm := sampleLibm,
    taos_query := fun _ => none }

/-! ## Auxiliary lemmas -/

theorem calculateAdaptiveHealpixId_eq (imp : TDengineHealpixImporter)
    (ra dec : Rat) (source_id : Int) (base_counts : List (Int × Int)) :
    calculateAdaptiveHealpixId imp ra dec source_id base_counts
      = (if imp.count_threshold
            < snapshotCount base_counts (imp.healpix_base.ang2pix (cleanPointing ra dec))
          then compositeId (imp.healpix_base.ang2pix (cleanPointing ra dec))
                 (imp.healpix_fine.ang2pix (cleanPointing ra dec))
          else imp.healpix_base.ang2pix (cleanPointing ra dec)) := rfl

theorem compositeId_of_small (b f : Int) (hb0 : 0 ≤ b) (hb : b < 2 ^ 31) (hf0 : 0 ≤ f)
    (hf : f < 2 ^ 32) : compositeId b f = b * 2 ^ 32 + f := by
  unfold compositeId wrapLong
  omega

theorem mapFind_mapAssign {K V : Type} [DecidableEq K] (k k' : K) (v : V)
    (m : List (K × V)) :
    mapFind (mapAssign k v m) k' =
      if k' = k then (mapFind m k).map (fun _ => v) else mapFind m k' := by
  induction m with
  | nil => simp [mapAssign, mapFind]
  | cons e rest ih =>
    by_cases h : e.1 = k
    · by_cases h' : k' = k
      · simp [mapAssign, mapFind, h, h']
      · have : ¬ k = k' := fun x => h' x.symm
        simp [mapAssign, mapFind, h, h', this]
    · by_cases h' : k' = k
      · subst h'
        simp [mapAssign, mapFind, h, ih]
      · by_cases h2 : e.1 = k'
        · simp [mapAssign, mapFind, h, h', h2]
        · simp [mapAssign, mapFind, h, h', h2, ih]

theorem mapFind_mapInsert {K V : Type} [DecidableEq K] (lt : K → K → Bool) (k k' : K) (v : V)
    (m : List (K × V)) (hk : mapFind m k = none) :
    mapFind (mapInsert lt k v m) k' = if k' = k then some v else mapFind m k' := by
  induction m with
  | nil =>
    by_cases h' : k' = k
    · simp [mapInsert, mapFind, h']
    · have : ¬ k = k' := fun x => h' x.symm
      simp [mapInsert, mapFind, h', this]
  | cons e rest ih =>
    have he : ¬ e.1 = k := by
      intro he
      simp [mapFind, he] at hk
    have hrest : mapFind rest k = none := by
      simpa [mapFind, he] using hk
    by_cases hlt : lt k e.1 = true
    · by_cases h' : k' = k
      · simp [mapInsert, mapFind, hlt, h']
      · have : ¬ k = k' := fun x => h' x.symm
        simp [mapInsert, mapFind, hlt, h', this]
    · have hins : mapInsert lt k v (e :: rest) = e :: mapInsert lt k v rest := by
        simp [mapInsert, hlt]
      rw [hins]
      simp only [mapFind]
      by_cases h2 : e.1 = k'
      · have h3 : ¬ k' = k := by
          rw [← h2]
          exact he
        simp [h2, h3]
      · simp [h2, ih hrest]

theorem mapFind_mapModify {K V : Type} [DecidableEq K] (lt : K → K → Bool) (dflt : V)
    (f : V → V) (m : List (K × V)) (k k' : K) :
    mapFind (mapModify lt dflt f m k) k' =
      if k' = k then some (f ((mapFind m k).getD dflt)) else mapFind m k' := by
  unfold mapModify
  cases hk : mapFind m k with
  | none => simp [mapFind_mapInsert lt k k' (f dflt) m hk]
  | some v =>
    simp only [mapFind_mapAssign, hk, Option.map_some', Option.getD_some]

theorem snapshotCount_countBaseCells_aux (imp : TDengineHealpixImporter)
    (records : List AstronomicalRecord) (m : List (Int × Int)) (b : Int) :
    snapshotCount (records.foldl (fun base_counts record =>
        mapModify longLt 0 (fun c => c + 1) base_counts
          (imp.healpix_base.ang2pix (cleanPointing record.ra record.dec))) m) b
      = snapshotCount m b
        + (records.countP (fun r =>
            decide (imp.healpix_base.ang2pix (cleanPointing r.ra r.dec) = b)) : Nat) := by
  induction records generalizing m with
  | nil => simp
  | cons r rest ih =>
    rw [List.foldl_cons, ih]
    by_cases hb : imp.healpix_base.ang2pix (cleanPointing r.ra r.dec) = b
    · subst hb
      simp only [snapshotCount, mapFind_mapModify, if_true, List.countP_cons, decide_True]
      cases mapFind m (imp.healpix_base.ang2pix (cleanPointing r.ra r.dec)) with
      | none => simp; omega
      | some c => simp; omega
    · have hb' : ¬ b = imp.healpix_base.ang2pix (cleanPointing r.ra r.dec) := fun x => hb x.symm
      simp [snapshotCount, mapFind_mapModify, hb, hb', List.countP_cons]

theorem snapshotCount_countBaseCells (imp : TDengineHealpixImporter)
    (records : List AstronomicalRecord) (b : Int) :
    snapshotCount (countBaseCells imp records) b
      = (records.countP (fun r =>
            decide (imp.healpix_base.ang2pix (cleanPointing r.ra r.dec) = b)) : Nat) := by
  have h := snapshotCount_countBaseCells_aux imp records [] b
  simpa [snapshotCount, mapFind] using h

theorem mapFind_eq_none_iff {K V : Type} [DecidableEq K] (m : List (K × V)) (k : K) :
    mapFind m k = none ↔ k ∉ m.map Prod.fst := by
  induction m with
  | nil => simp [mapFind]
  | cons e rest ih =>
    by_cases h : e.1 = k
    · simp [mapFind, h]
    · have h' : ¬ k = e.1 := fun x => h x.symm
      simp only [mapFind, h, if_false, ih, List.map_cons, List.mem_cons, h', false_or]

theorem mem_of_mapFind {K V : Type} [DecidableEq K] (m : List (K × V)) (k : K) (v : V)
    (h : mapFind m k = some v) : (k, v) ∈ m := by
  induction m with
  | nil => simp [mapFind] at h
  | cons e rest ih =>
    by_cases he : e.1 = k
    · simp only [mapFind, he, if_true, Option.some.injEq] at h
      have : e = (k, v) := Prod.ext he h
      simp [this]
    · simp only [mapFind, he, if_false] at h
      exact List.mem_cons_of_mem _ (ih h)

theorem mapFind_of_mem {K V : Type} [DecidableEq K] (m : List (K × V)) (k : K) (v : V)
    (hnd : (m.map Prod.fst).Nodup) (h : (k, v) ∈ m) : mapFind m k = some v := by
  induction m with
  | nil => simp at h
  | cons e rest ih =>
    rw [List.map_cons, List.nodup_cons] at hnd
    rcases List.mem_cons.mp h with h1 | h1
    · subst h1
      simp [mapFind]
    · have hk : k ∈ rest.map Prod.fst := List.mem_map.mpr ⟨(k, v), h1, rfl⟩
      have he : ¬ e.1 = k := by
        intro he
        rw [he] at hnd
        exact hnd.1 hk
      simp only [mapFind, he, if_false]
      exact ih hnd.2 h1

theorem keys_mapAssign {K V : Type} [DecidableEq K] (k : K) (v : V) (m : List (K × V)) :
    (mapAssign k v m).map Prod.fst = m.map Prod.fst := by
  induction m with
  | nil => rfl
  | cons e rest ih =>
    by_cases h : e.1 = k
    · simp [mapAssign, h]
    · simp [mapAssign, h, ih]

theorem keys_mapInsert_perm {K V : Type} (lt : K → K → Bool) (k : K) (v : V)
    (m : List (K × V)) :
    List.Perm ((mapInsert lt k v m).map Prod.fst) (k :: m.map Prod.fst) := by
  induction m with
  | nil => simp [mapInsert]
  | cons e rest ih =>
    by_cases h : lt k e.1 = true
    · simp [mapInsert, h]
    · simp only [mapInsert, h, if_false, List.map_cons, Bool.false_eq_true]
      exact (List.Perm.cons e.1 ih).trans (List.Perm.swap k e.1 _)

theorem nodup_keys_mapModify {K V : Type} [DecidableEq K] (lt : K → K → Bool) (dflt : V)
    (f : V → V) (m : List (K × V)) (k : K) (hnd : (m.map Prod.fst).Nodup) :
    ((mapModify lt dflt f m k).map Prod.fst).Nodup := by
  unfold mapModify
  cases hk : mapFind m k with
  | none =>
    simp only
    rw [(keys_mapInsert_perm lt k (f dflt) m).nodup_iff, List.nodup_cons]
    exact ⟨(mapFind_eq_none_iff m k).mp hk, hnd⟩
  | some v =>
    simp only [keys_mapAssign]
    exact hnd

theorem nodup_keys_groupRecords_aux (records : List AstronomicalRecord)
    (m : List ((Int × Int) × List AstronomicalRecord)) (hnd : (m.map Prod.fst).Nodup) :
    ((records.foldl (fun groups record =>
      mapModify pairLt [] (fun g => g ++ [record]) groups
        (record.healpix_id, record.source_id)) m).map Prod.fst).Nodup := by
  induction records generalizing m with
  | nil => exact hnd
  | cons r rest ih =>
    rw [List.foldl_cons]
    exact ih _ (nodup_keys_mapModify _ _ _ _ _ hnd)

theorem nodup_keys_groupRecords (records : List AstronomicalRecord) :
    ((groupRecords records).map Prod.fst).Nodup :=
  nodup_keys_groupRecords_aux records [] List.nodup_nil

theorem mapFind_groupRecords_aux (records : List AstronomicalRecord)
    (m : List ((Int × Int) × List AstronomicalRecord)) (k : Int × Int) :
    mapFind (records.foldl (fun groups record =>
      mapModify pairLt [] (fun g => g ++ [record]) groups
        (record.healpix_id, record.source_id)) m) k
      = if records.filter (fun r => decide ((r.healpix_id, r.source_id) = k)) = []
        then mapFind m k
        else some ((mapFind m k).getD []
          ++ records.filter (fun r => decide ((r.healpix_id, r.source_id) = k))) := by
  induction records generalizing m with
  | nil => simp
  | cons r rest ih =>
    rw [List.foldl_cons, ih]
    by_cases hk : (r.healpix_id, r.source_id) = k
    · subst hk
      simp only [mapFind_mapModify, if_true, List.filter_cons, decide_True,
        Option.getD_some, List.append_assoc, List.singleton_append]
      by_cases hf : rest.filter (fun r' =>
          decide ((r'.healpix_id, r'.source_id) = (r.healpix_id, r.source_id))) = []
      · simp [hf]
      · simp [hf]
    · have hk' : ¬ k = (r.healpix_id, r.source_id) := fun x => hk x.symm
      simp only [mapFind_mapModify, hk', if_false, List.filter_cons, hk, decide_False]
      simp

theorem mapFind_groupRecords (records : List AstronomicalRecord) (k : Int × Int) :
    mapFind (groupRecords records) k
      = if records.filter (fun r => decide ((r.healpix_id, r.source_id) = k)) = []
        then none
        else some (records.filter (fun r => decide ((r.healpix_id, r.source_id) = k))) := by
  have h := mapFind_groupRecords_aux records [] k
  simpa [mapFind, groupRecords] using h

theorem sum_lengths_mapAssign {K V : Type} [DecidableEq K] (k : K) (v : List V) (x : V)
    (m : List (K × List V)) (h : mapFind m k = some v) :
    ((mapAssign k (v ++ [x]) m).map (fun e => e.2.length)).sum
      = (m.map (fun e => e.2.length)).sum + 1 := by
  induction m with
  | nil => simp [mapFind] at h
  | cons e rest ih =>
    by_cases he : e.1 = k
    · simp only [mapFind, he, if_true, Option.some.injEq] at h
      simp [mapAssign, he, h]
      omega
    · simp only [mapFind, he, if_false] at h
      simp [mapAssign, he, ih h]
      omega

theorem sum_lengths_mapInsert {K V : Type} (lt : K → K → Bool) (k : K) (v : List V)
    (m : List (K × List V)) :
    ((mapInsert lt k v m).map (fun e => e.2.length)).sum
      = (m.map (fun e => e.2.length)).sum + v.length := by
  induction m with
  | nil => simp [mapInsert]
  | cons e rest ih =>
    by_cases h : lt k e.1 = true
    · simp [mapInsert, h]
      omega
    · simp [mapInsert, h, ih]
      omega

theorem sum_lengths_groupRecords_aux (records : List AstronomicalRecord)
    (m : List ((Int × Int) × List AstronomicalRecord)) :
    ((records.foldl (fun groups record =>
      mapModify pairLt [] (fun g => g ++ [record]) groups
        (record.healpix_id, record.source_id)) m).map (fun e => e.2.length)).sum
      = (m.map (fun e => e.2.length)).sum + records.length := by
  induction records generalizing m with
  | nil => simp
  | cons r rest ih =>
    rw [List.foldl_cons, ih]
    have hstep : ((mapModify pairLt [] (fun g => g ++ [r]) m
        (r.healpix_id, r.source_id)).map (fun e => e.2.length)).sum
        = (m.map (fun e => e.2.length)).sum + 1 := by
      unfold mapModify
      cases hk : mapFind m (r.healpix_id, r.source_id) with
      | none => simp [sum_lengths_mapInsert]
      | some v => simp [sum_lengths_mapAssign _ _ _ _ hk]
    rw [hstep, List.length_cons]
    omega

theorem sum_lengths_groupRecords (records : List AstronomicalRecord) :
    ((groupRecords records).map (fun e => e.2.length)).sum = records.length := by
  have h := sum_lengths_groupRecords_aux records []
  simpa [groupRecords] using h

theorem lt_batchCount_iff (bs n j : Nat) (hbs : 1 ≤ bs) :
    j < batchCount bs n ↔ j * bs < n := by
  unfold batchCount
  rw [Nat.lt_iff_add_one_le, Nat.le_div_iff_mul_le (by omega), Nat.succ_mul]
  omega

theorem batchCount_le (bs n : Nat) (hbs : 1 ≤ bs) : batchCount bs n ≤ n := by
  by_contra h
  have h1 : n < batchCount bs n := by omega
  have h2 := (lt_batchCount_iff bs n n hbs).mp h1
  have h3 : n * 1 ≤ n * bs := Nat.mul_le_mul_left n hbs
  omega

theorem length_batchRows (bs : Nat) (records : List AstronomicalRecord) (k : Nat) :
    (batchRows bs records k).length = min bs (records.length - k * bs) := by
  simp [batchRows, List.length_take, List.length_drop]

theorem loop_rows_eq (bs i : Nat) (records : List AstronomicalRecord) :
    (records.drop i).take (min (i + bs) records.length - i) = (records.drop i).take bs := by
  by_cases h : i + bs ≤ records.length
  · have : min (i + bs) records.length - i = bs := by omega
    rw [this]
  · have h1 : min (i + bs) records.length - i = records.length - i := by omega
    rw [h1]
    have hlen : (records.drop i).length = records.length - i := List.length_drop i records
    rw [List.take_of_length_le (by omega), List.take_of_length_le (by omega)]

theorem insertLoop_eq_foldl (bs : Nat) (task : ImportTask) (out : StorageOutcome)
    (hbs : 1 ≤ bs) (d : Nat) :
    ∀ (j fuel : Nat) (st : ThreadSafeStats × List (Statement × Bool)),
      j + d = batchCount bs task.records.length → d ≤ fuel →
      insertLoop bs task out fuel (j * bs) st
        = some ((List.range' j d).foldl (batchStep bs task out) st) := by
  induction d with
  | zero =>
    intro j fuel st hj _
    have hge : ¬ j * bs < task.records.length := by
      rw [← lt_batchCount_iff bs _ j hbs]
      omega
    cases fuel with
    | zero => simp [insertLoop, hge]
    | succ f => simp [insertLoop, hge]
  | succ d ih =>
    intro j fuel st hj hfuel
    have hlt : j * bs < task.records.length := by
      rw [← lt_batchCount_iff bs _ j hbs]
      omega
    cases fuel with
    | zero => omega
    | succ f =>
      have hnext : j * bs + bs = (j + 1) * bs := by rw [Nat.succ_mul]
      have hsize : min (j * bs + bs) task.records.length - j * bs
          = (batchRows bs task.records j).length := by
        rw [length_batchRows]
        omega
      have hrows : (task.records.drop (j * bs)).take
          (min (j * bs + bs) task.records.length - j * bs) = batchRows bs task.records j :=
        loop_rows_eq bs (j * bs) task.records
      have hunfold : insertLoop bs task out (f + 1) (j * bs) st
          = insertLoop bs task out f (j * bs + bs) (batchStep bs task out st j) := by
        simp only [insertLoop, hlt, if_true]
        rw [hrows, hsize]
        rfl
      rw [hunfold, hnext, List.range'_succ, List.foldl_cons]
      exact ih (j + 1) f (batchStep bs task out st j) (by omega) (by omega)

theorem foldl_batchStep_issued (bs : Nat) (task : ImportTask) (out : StorageOutcome)
    (ks : List Nat) (st : ThreadSafeStats × List (Statement × Bool)) :
    (ks.foldl (batchStep bs task out) st).2
      = st.2 ++ ks.map (fun k =>
          (Statement.insertRows task.healpix_id task.source_id
            (batchRows bs task.records k), out.write_ok (k * bs))) := by
  induction ks generalizing st with
  | nil => simp
  | cons k ks ih =>
    rw [List.foldl_cons, ih]
    simp [batchStep]

theorem foldl_batchStep_success (bs : Nat) (task : ImportTask) (out : StorageOutcome)
    (ks : List Nat) (st : ThreadSafeStats × List (Statement × Bool)) :
    (ks.foldl (batchStep bs task out) st).1.total_success
      = st.1.total_success
        + ((ks.filter (fun k => out.write_ok (k * bs))).map
            (fun k => (batchRows bs task.records k).length)).sum := by
  induction ks generalizing st with
  | nil => simp
  | cons k ks ih =>
    rw [List.foldl_cons, ih]
    cases hok : out.write_ok (k * bs) with
    | true =>
      simp [batchStep, hok, ThreadSafeStats.addSuccess, List.filter_cons]
      omega
    | false =>
      simp [batchStep, hok, ThreadSafeStats.addError, List.filter_cons]

theorem foldl_batchStep_error (bs : Nat) (task : ImportTask) (out : StorageOutcome)
    (ks : List Nat) (st : ThreadSafeStats × List (Statement × Bool)) :
    (ks.foldl (batchStep bs task out) st).1.total_error
      = st.1.total_error
        + ((ks.filter (fun k => !out.write_ok (k * bs))).map
            (fun k => (batchRows bs task.records k).length)).sum := by
  induction ks generalizing st with
  | nil => simp
  | cons k ks ih =>
    rw [List.foldl_cons, ih]
    cases hok : out.write_ok (k * bs) with
    | true =>
      simp [batchStep, hok, ThreadSafeStats.addSuccess, List.filter_cons]
    | false =>
      simp [batchStep, hok, ThreadSafeStats.addError, List.filter_cons]
      omega

theorem foldl_batchStep_groups (bs : Nat) (task : ImportTask) (out : StorageOutcome)
    (ks : List Nat) (st : ThreadSafeStats × List (Statement × Bool)) :
    (ks.foldl (batchStep bs task out) st).1.processed_groups = st.1.processed_groups := by
  induction ks generalizing st with
  | nil => simp
  | cons k ks ih =>
    rw [List.foldl_cons, ih]
    cases hok : out.write_ok (k * bs) <;>
      simp [batchStep, hok, ThreadSafeStats.addSuccess, ThreadSafeStats.addError]

theorem sum_filter_add_sum_filter_not (p : Nat → Bool) (g : Nat → Nat) (ks : List Nat) :
    ((ks.filter p).map g).sum + ((ks.filter (fun k => !p k)).map g).sum = (ks.map g).sum := by
  induction ks with
  | nil => simp
  | cons k ks ih =>
    cases hp : p k with
    | true =>
      simp [List.filter_cons, hp]
      omega
    | false =>
      simp [List.filter_cons, hp]
      omega

theorem sum_length_batchRows_aux (bs : Nat) (records : List AstronomicalRecord)
    (hbs : 1 ≤ bs) (d : Nat) :
    ∀ j, j + d = batchCount bs records.length →
      ((List.range' j d).map (fun k => (batchRows bs records k).length)).sum
        = records.length - j * bs := by
  induction d with
  | zero =>
    intro j hj
    have hge : ¬ j * bs < records.length := by
      rw [← lt_batchCount_iff bs _ j hbs]
      omega
    simp
    omega
  | succ d ih =>
    intro j hj
    have hlt : j * bs < records.length := by
      rw [← lt_batchCount_iff bs _ j hbs]
      omega
    rw [List.range'_succ, List.map_cons, List.sum_cons, ih (j + 1) (by omega),
      length_batchRows, Nat.succ_mul]
    omega

theorem sum_length_batchRows (bs : Nat) (records : List AstronomicalRecord) (hbs : 1 ≤ bs) :
    ((List.range (batchCount bs records.length)).map
      (fun k => (batchRows bs records k).length)).sum = records.length := by
  rw [List.range_eq_range']
  have h := sum_length_batchRows_aux bs records hbs (batchCount bs records.length) 0 (by omega)
  simpa using h

theorem taskSuccess_add_taskError (bs : Nat) (task : ImportTask) (out : StorageOutcome)
    (hbs : 1 ≤ bs) : taskSuccess bs task out + taskError bs task out = task.records.length := by
  unfold taskSuccess taskError
  cases hc : out.create_ok with
  | false => simp
  | true =>
    simp only [if_true]
    rw [sum_filter_add_sum_filter_not (fun k => out.write_ok (k * bs))]
    exact sum_length_batchRows bs task.records hbs

theorem ThreadSafeStats.eq_of_fields (a b : ThreadSafeStats)
    (h1 : a.total_success = b.total_success) (h2 : a.total_error = b.total_error)
    (h3 : a.processed_groups = b.processed_groups) : a = b := by
  cases a
  cases b
  simp only [ThreadSafeStats.mk.injEq]
  exact ⟨h1, h2, h3⟩

theorem processImportTask_effect (imp : TDengineHealpixImporter) (task : ImportTask)
    (out : StorageOutcome) (s : ImportState) (conn : Nat) (rest : List Nat)
    (hbs : 1 ≤ imp.batch_size) (hpool : s.conn_pool.connections_ = conn :: rest) :
    processImportTask imp task out s = some
      { conn_pool := { s.conn_pool with connections_ := rest ++ [conn] }
        stats :=
          { total_success := s.stats.total_success + taskSuccess imp.batch_size task out
            total_error := s.stats.total_error + taskError imp.batch_size task out
            processed_groups := s.stats.processed_groups }
        issued := s.issued ++ taskStatements imp.batch_size task out } := by
  have hget : s.conn_pool.getConnection
      = some (conn, { s.conn_pool with connections_ := rest }) := by
    simp [TDengineConnectionPool.getConnection, hpool]
  unfold processImportTask
  rw [hget]
  cases hc : out.create_ok with
  | false =>
    simp [taskSuccess, taskError, taskStatements, hc, ThreadSafeStats.addError,
      TDengineConnectionPool.returnConnection]
  | true =>
    have hloop := insertLoop_eq_foldl imp.batch_size task out hbs
      (batchCount imp.batch_size task.records.length) 0 task.records.length
      (s.stats, s.issued ++ [(Statement.createTable task.healpix_id task.source_id, true)])
      (by omega) (batchCount_le _ _ hbs)
    rw [Nat.zero_mul, ← List.range_eq_range'] at hloop
    simp only [hloop, Bool.true_eq_false, if_false]
    congr 1
    have hs := foldl_batchStep_success imp.batch_size task out
      (List.range (batchCount imp.batch_size task.records.length))
      (s.stats, s.issued ++ [(Statement.createTable task.healpix_id task.source_id, true)])
    have he := foldl_batchStep_error imp.batch_size task out
      (List.range (batchCount imp.batch_size task.records.length))
      (s.stats, s.issued ++ [(Statement.createTable task.healpix_id task.source_id, true)])
    have hg := foldl_batchStep_groups imp.batch_size task out
      (List.range (batchCount imp.batch_size task.records.length))
      (s.stats, s.issued ++ [(Statement.createTable task.healpix_id task.source_id, true)])
    have hi := foldl_batchStep_issued imp.batch_size task out
      (List.range (batchCount imp.batch_size task.records.length))
      (s.stats, s.issued ++ [(Statement.createTable task.healpix_id task.source_id, true)])
    simp only [ImportState.mk.injEq]
    refine ⟨by simp [TDengineConnectionPool.returnConnection], ?_, ?_⟩
    · apply ThreadSafeStats.eq_of_fields
      · simpa [taskSuccess, hc] using hs
      · simpa [taskError, hc] using he
      · simpa using hg
    · rw [hi]
      simp [taskStatements, hc]

theorem workerThread_effect (imp : TDengineHealpixImporter) (hbs : 1 ≤ imp.batch_size)
    (task_queue : List (ImportTask × StorageOutcome)) :
    ∀ s : ImportState, s.conn_pool.connections_ ≠ [] →
      ∃ s1, workerThread imp task_queue s = some s1
        ∧ s1.conn_pool.connections_ ≠ []
        ∧ s1.stats.total_success = s.stats.total_success
            + (task_queue.map (fun p => taskSuccess imp.batch_size p.1 p.2)).sum
        ∧ s1.stats.total_error = s.stats.total_error
            + (task_queue.map (fun p => taskError imp.batch_size p.1 p.2)).sum
        ∧ s1.issued = s.issued
            ++ (task_queue.map (fun p => taskStatements imp.batch_size p.1 p.2)).flatten := by
  induction task_queue with
  | nil =>
    intro s hs
    exact ⟨s, rfl, hs, by simp, by simp, by simp⟩
  | cons p q ih =>
    intro s hs
    obtain ⟨task, out⟩ := p
    obtain ⟨conn, rest, hpool⟩ := List.exists_cons_of_ne_nil hs
    have hstep := processImportTask_effect imp task out s conn rest hbs hpool
    obtain ⟨s1, hrun, hne, hsucc, herr, hiss⟩ := ih
      { conn_pool := { s.conn_pool with connections_ := rest ++ [conn] }
        stats :=
          ({ total_success := s.stats.total_success + taskSuccess imp.batch_size task out
             total_error := s.stats.total_error + taskError imp.batch_size task out
             processed_groups := s.stats.processed_groups } : ThreadSafeStats).incrementGroup
        issued := s.issued ++ taskStatements imp.batch_size task out } (by simp)
    refine ⟨s1, ?_, hne, ?_, ?_, ?_⟩
    · simp only [workerThread, hstep]
      exact hrun
    · rw [hsucc]
      simp [ThreadSafeStats.incrementGroup]
      omega
    · rw [herr]
      simp [ThreadSafeStats.incrementGroup]
      omega
    · rw [hiss]
      simp

theorem taskError_eq_zero_of_ok (bs : Nat) (task : ImportTask) (out : StorageOutcome)
    (hc : out.create_ok = true) (hw : ∀ i, out.write_ok i = true) :
    taskError bs task out = 0 := by
  simp [taskError, hc, hw]

theorem length_construct_le_aux (connect_ok use_ok : Nat → Bool) (l : List Nat)
    (q : List Nat) :
    (l.foldl (fun q i =>
        if connect_ok i then (if use_ok i then q ++ [i] else q) else q) q).length
      ≤ q.length + l.length := by
  induction l generalizing q with
  | nil => simp
  | cons i l ih =>
    rw [List.foldl_cons]
    refine (ih _).trans ?_
    cases connect_ok i with
    | false => simp
    | true =>
      cases use_ok i with
      | false => simp
      | true =>
        simp
        omega

theorem length_construct_le (pool_size : Nat) (connect_ok use_ok : Nat → Bool) :
    (TDengineConnectionPool.construct pool_size connect_ok use_ok).connections_.length
      ≤ pool_size := by
  have h := length_construct_le_aux connect_ok use_ok (List.range pool_size) []
  simpa [TDengineConnectionPool.construct] using h

theorem poolStep_perm {s t : PoolSystem} (h : PoolSystem.Step s t) :
    List.Perm (t.held ++ t.pool.connections_) (s.held ++ s.pool.connections_) := by
  cases h with
  | acquire conn pool1 hget =>
    unfold TDengineConnectionPool.getConnection at hget
    cases hc : s.pool.connections_ with
    | nil => simp [hc] at hget
    | cons c rest =>
      simp only [hc, Option.some.injEq, Prod.mk.injEq] at hget
      obtain ⟨h1, h2⟩ := hget
      subst h1
      subst h2
      simp only [List.cons_append]
      exact List.perm_middle.symm
  | release conn hmem =>
    simp only [TDengineConnectionPool.returnConnection]
    have h1 : List.Perm (s.held.erase conn ++ (s.pool.connections_ ++ [conn]))
        (conn :: s.held.erase conn ++ s.pool.connections_) := by
      rw [← List.append_assoc]
      exact List.perm_append_singleton conn _ |>.trans (by simp)
    exact h1.trans (List.Perm.append_right _ (List.perm_cons_erase hmem).symm)

theorem poolReachable_perm {s0 s : PoolSystem} (h : PoolSystem.Reachable s0 s) :
    List.Perm (s.held ++ s.pool.connections_) (s0.held ++ s0.pool.connections_) := by
  induction h with
  | refl => exact List.Perm.refl _
  | tail _ hstep ih => exact (poolStep_perm hstep).trans ih


theorem mapFind_eq_lookup (m : List (Int × Int)) (k : Int) :
    mapFind m k = m.lookup k := by
  induction m with
  | nil => rfl
  | cons e rest ih =>
    obtain ⟨a, b⟩ := e
    by_cases h : a = k
    · subst h
      simp [mapFind, List.lookup]
    · have h2 : (k == a) = false := by
        rw [beq_eq_false_iff_ne]
        exact fun hk => h hk.symm
      simp only [mapFind, h, if_false, List.lookup, h2]
      exact ih

theorem snapshotCount_eq_lookup (base_counts : List (Int × Int)) (base_id : Int) :
    snapshotCount base_counts base_id = (base_counts.lookup base_id).getD 0 := by
  unfold snapshotCount
  rw [mapFind_eq_lookup]
  cases base_counts.lookup base_id <;> rfl

theorem compositeId_eq_wrapped (base_id fine_id : Int) :
    compositeId base_id fine_id
      = (base_id * 2 ^ 32 + fine_id + 2 ^ 63) % 2 ^ 64 - 2 ^ 63 := by
  unfold compositeId wrapLong
  omega

theorem wrapped_of_small (base_id fine_id : Int) (hb0 : 0 ≤ base_id) (hb : base_id < 2 ^ 31)
    (hf0 : 0 ≤ fine_id) (hf : fine_id < 2 ^ 32) :
    (base_id * 2 ^ 32 + fine_id + 2 ^ 63) % 2 ^ 64 - 2 ^ 63 = base_id * 2 ^ 32 + fine_id := by
  omega

theorem load_sampleCatalog :
    loadAndProcessData wideImporter sampleCatalog = sampleCatalogLoaded := by
  norm_num [loadAndProcessData, calculateAdaptiveHealpixId, countBaseCells, snapshotCount,
    mapModify, mapFind, mapInsert, mapAssign, wideImporter, sampleCatalog,
    sampleCatalogLoaded, sampleHealpix, fmod, truncToZero, deg2rad, PI, longLt]
  decide

theorem healpix_id_of_mem_load (imp : TDengineHealpixImporter)
    (records : List AstronomicalRecord) (r : AstronomicalRecord)
    (hr : r ∈ loadAndProcessData imp records) :
    r.healpix_id
      = if imp.count_threshold
            < (records.countP (fun q =>
                decide (imp.healpix_base.ang2pix (cleanPointing q.ra q.dec)
                  = imp.healpix_base.ang2pix (cleanPointing r.ra r.dec)) ) : Nat)
        then (imp.healpix_base.ang2pix (cleanPointing r.ra r.dec) * 2 ^ 32
                + imp.healpix_fine.ang2pix (cleanPointing r.ra r.dec) + 2 ^ 63) % 2 ^ 64
              - 2 ^ 63
        else imp.healpix_base.ang2pix (cleanPointing r.ra r.dec) := by
  unfold loadAndProcessData at hr
  obtain ⟨r0, _, rfl⟩ := List.mem_map.mp hr
  show calculateAdaptiveHealpixId imp r0.ra r0.dec r0.source_id (countBaseCells imp records) = _
  rw [calculateAdaptiveHealpixId_eq, snapshotCount_countBaseCells, compositeId_eq_wrapped]

theorem loadAndProcessData_keeps_fields (imp : TDengineHealpixImporter)
    (records : List AstronomicalRecord) :
    (loadAndProcessData imp records).map
        (fun q => (q.timestamp, q.source_id, q.ra, q.dec, q.mag, q.jd_tcb))
      = records.map (fun q => (q.timestamp, q.source_id, q.ra, q.dec, q.mag, q.jd_tcb)) := by
  unfold loadAndProcessData
  rw [List.map_map]
  rfl

/-! ## The claims -/

/-- C1: for every position, snapshot and threshold, with `base_id` and `fine_id` the
cells of the normalised position and `count` the value the snapshot stores for
`base_id` (0 when it stores none), `calculateAdaptiveHealpixId` returns
`(base_id << 32) + fine_id`, in 64-bit arithmetic, when `count` is strictly greater
than `count_threshold`, and the plain `base_id` otherwise; a count equal to the
threshold yields the plain base id. For ids in range the composite value is
`base_id * 2^32 + fine_id`, and, where that differs from `base_id`, it is returned
exactly when `count > count_threshold`. -/
theorem calculateAdaptiveHealpixId_strict_threshold (imp : TDengineHealpixImporter)
    (ra dec : Rat) (source_id : Int) (base_counts : List (Int × Int))
    (pt : pointing) (base_id fine_id count : Int)
    (hpt : pt = { theta := (90 - max (-90) (min 90 dec)) * PI / 180,
                  phi := (if fmod ra 360 < 0 then fmod ra 360 + 360 else fmod ra 360)
                    * PI / 180 })
    (hbase : base_id = imp.healpix_base.ang2pix pt)
    (hfine : fine_id = imp.healpix_fine.ang2pix pt)
    (hcount : count = (base_counts.lookup base_id).getD 0) :
    (imp.count_threshold < count →
        calculateAdaptiveHealpixId imp ra dec source_id base_counts
          = (base_id * 2 ^ 32 + fine_id + 2 ^ 63) % 2 ^ 64 - 2 ^ 63)
      ∧ (imp.count_threshold < count → 0 ≤ base_id → base_id < 2 ^ 31 →
          0 ≤ fine_id → fine_id < 2 ^ 32 →
          calculateAdaptiveHealpixId imp ra dec source_id base_counts
            = base_id * 2 ^ 32 + fine_id)
      ∧ (count ≤ imp.count_threshold →
          calculateAdaptiveHealpixId imp ra dec source_id base_counts = base_id)
      ∧ (count = imp.count_threshold →
          calculateAdaptiveHealpixId imp ra dec source_id base_counts = base_id)
      ∧ (0 ≤ base_id → base_id < 2 ^ 31 → 0 ≤ fine_id → fine_id < 2 ^ 32 →
          base_id * 2 ^ 32 + fine_id ≠ base_id →
          (calculateAdaptiveHealpixId imp ra dec source_id base_counts
              = base_id * 2 ^ 32 + fine_id
            ↔ imp.count_threshold < count)) := by
  have hpt2 : pt = cleanPointing ra dec := by
    rw [hpt]
    rfl
  have hval : calculateAdaptiveHealpixId imp ra dec source_id base_counts
      = if imp.count_threshold < count
        then (base_id * 2 ^ 32 + fine_id + 2 ^ 63) % 2 ^ 64 - 2 ^ 63
        else base_id := by
    rw [calculateAdaptiveHealpixId_eq, snapshotCount_eq_lookup, compositeId_eq_wrapped,
      ← hpt2, ← hbase, ← hfine, ← hcount]
  have hgt : imp.count_threshold < count →
      calculateAdaptiveHealpixId imp ra dec source_id base_counts
        = (base_id * 2 ^ 32 + fine_id + 2 ^ 63) % 2 ^ 64 - 2 ^ 63 := by
    intro h
    rw [hval, if_pos h]
  have hle : count ≤ imp.count_threshold →
      calculateAdaptiveHealpixId imp ra dec source_id base_counts = base_id := by
    intro h
    rw [hval, if_neg (not_lt.mpr h)]
  refine ⟨hgt, ?_, hle, fun h => hle (le_of_eq h), ?_⟩
  · intro h hb0 hb hf0 hf
    rw [hgt h, wrapped_of_small base_id fine_id hb0 hb hf0 hf]
  · intro hb0 hb hf0 hf hne
    constructor
    · intro heq
      by_contra hnot
      rw [hle (not_lt.mp hnot)] at heq
      exact hne heq.symm
    · intro h
      rw [hgt h, wrapped_of_small base_id fine_id hb0 hb hf0 hf]

/-- C1 at a position of base cell 1 and fine cell 16, with threshold 1: a snapshot
count of 2 gives the composite id `(1 << 32) + 16`, a snapshot count of 1, equal to
the threshold, gives the plain base id 1. -/
theorem calculateAdaptiveHealpixId_strict_threshold_witness :
    calculateAdaptiveHealpixId wideImporter 29 0 7 [(1, 2)] = 1 * 2 ^ 32 + 16
      ∧ calculateAdaptiveHealpixId wideImporter 29 0 7 [(1, 1)] = 1 :=
  ⟨(calculateAdaptiveHealpixId_strict_threshold wideImporter 29 0 7 [(1, 2)]
      { theta := (90 - max (-90) (min 90 0)) * PI / 180,
        phi := (if fmod 29 360 < 0 then fmod 29 360 + 360 else fmod 29 360) * PI / 180 }
      1 16 2 rfl
      (by norm_num [wideImporter, sampleHealpix, fmod, truncToZero, PI])
      (by norm_num [wideImporter, sampleHealpix, fmod, truncToZero, PI])
      (by decide)).2.1 (by decide) (by decide) (by decide) (by decide) (by decide),
    (calculateAdaptiveHealpixId_strict_threshold wideImporter 29 0 7 [(1, 1)]
      { theta := (90 - max (-90) (min 90 0)) * PI / 180,
        phi := (if fmod 29 360 < 0 then fmod 29 360 + 360 else fmod 29 360) * PI / 180 }
      1 16 1 rfl
      (by norm_num [wideImporter, sampleHealpix, fmod, truncToZero, PI])
      (by norm_num [wideImporter, sampleHealpix, fmod, truncToZero, PI])
      (by decide)).2.2.2.1 (by decide)⟩

/-- C2, as stated, fails: with `nside_base = 64` the composite id of base cell 0
and fine cell 5 is 5, the plain id of base cell 5. -/
theorem compositeId_collides_with_plain :
    ¬ (∀ nside_base b f p : Int, 0 ≤ b → b < 12 * nside_base ^ 2 → 0 ≤ f → f < 2 ^ 32 →
        0 ≤ p → p < 12 * nside_base ^ 2 → compositeId b f ≠ p) := by
  intro h
  exact h 64 0 5 5 (by decide) (by decide) (by decide) (by decide) (by decide) (by decide)
    (by decide)

/-- C2, amended: when `12 * nside_base ^ 2 ≤ 2 ^ 32`, the composite id of a base
cell `b ≥ 1` differs from every plain base cell id; the composite id of base cell 0
is the fine cell id itself. -/
theorem compositeId_ne_plain_of_base_pos (nside_base b f p : Int)
    (hn : 12 * nside_base ^ 2 ≤ 2 ^ 32)
    (hb1 : 1 ≤ b) (hb : b < 12 * nside_base ^ 2) (hf0 : 0 ≤ f) (hf : f < 2 ^ 32)
    (hp0 : 0 ≤ p) (hp : p < 12 * nside_base ^ 2) :
    compositeId b f ≠ p ∧ compositeId 0 f = f := by
  generalize 12 * nside_base ^ 2 = N at hn hb hp
  unfold compositeId wrapLong
  omega

/-- C2 amended, at `nside_base = 64`, base cell 7, fine cell 9, plain id 7. -/
theorem compositeId_ne_plain_of_base_pos_witness :
    compositeId 7 9 ≠ 7 ∧ compositeId 0 9 = 9 :=
  compositeId_ne_plain_of_base_pos 64 7 9 7 (by decide) (by decide) (by decide) (by decide)
    (by decide) (by decide) (by decide)

/-- C3: the composite encoding `(base << 32) + fine` on 64-bit signed integers is
injective on `base` in `[0, 2^31)` and `fine` in `[0, 2^32)`. -/
theorem compositeId_injective (base1 base2 fine1 fine2 : Int)
    (hb1 : 0 ≤ base1 ∧ base1 < 2 ^ 31) (hb2 : 0 ≤ base2 ∧ base2 < 2 ^ 31)
    (hf1 : 0 ≤ fine1 ∧ fine1 < 2 ^ 32) (hf2 : 0 ≤ fine2 ∧ fine2 < 2 ^ 32)
    (h : compositeId base1 fine1 = compositeId base2 fine2) :
    base1 = base2 ∧ fine1 = fine2 := by
  rw [compositeId_of_small base1 fine1 hb1.1 hb1.2 hf1.1 hf1.2,
    compositeId_of_small base2 fine2 hb2.1 hb2.2 hf2.1 hf2.2] at h
  omega

/-- C3 at base cell 49151 and fine cell 786431, the last cells of `nside` 64 and
256. -/
theorem compositeId_injective_witness :
    (49151 : Int) = 49151 ∧ (786431 : Int) = 786431 :=
  compositeId_injective 49151 49151 786431 786431 (by decide) (by decide) (by decide)
    (by decide) rfl

/-- C4: over a whole load, for a loaded record with `base_id` and `fine_id` the cells
of its normalised position and `population` the number of input records whose
normalised position falls in `base_id`: the record receives
`(base_id << 32) + fine_id`, in 64-bit arithmetic, when `population` is strictly
greater than the threshold, and exactly `base_id` otherwise. For ids in range the
composite value is `base_id * 2^32 + fine_id`, and, where that differs from
`base_id`, the record has it if and only if `population > count_threshold`. When the
threshold is at least the number of records the record has its plain base cell id.
The load changes no other field of the records. -/
theorem loadAndProcessData_refines_dense_cells (imp : TDengineHealpixImporter)
    (records : List AstronomicalRecord) (r : AstronomicalRecord)
    (base_id fine_id : Int) (population : Nat)
    (hr : r ∈ loadAndProcessData imp records)
    (hbase : base_id = imp.healpix_base.ang2pix
      { theta := (90 - max (-90) (min 90 r.dec)) * PI / 180,
        phi := (if fmod r.ra 360 < 0 then fmod r.ra 360 + 360 else fmod r.ra 360)
          * PI / 180 })
    (hfine : fine_id = imp.healpix_fine.ang2pix
      { theta := (90 - max (-90) (min 90 r.dec)) * PI / 180,
        phi := (if fmod r.ra 360 < 0 then fmod r.ra 360 + 360 else fmod r.ra 360)
          * PI / 180 })
    (hpop : population = records.countP (fun q =>
      decide (imp.healpix_base.ang2pix
        { theta := (90 - max (-90) (min 90 q.dec)) * PI / 180,
          phi := (if fmod q.ra 360 < 0 then fmod q.ra 360 + 360 else fmod q.ra 360)
            * PI / 180 } = base_id))) :
    (imp.count_threshold < (population : Int) →
        r.healpix_id = (base_id * 2 ^ 32 + fine_id + 2 ^ 63) % 2 ^ 64 - 2 ^ 63)
      ∧ (imp.count_threshold < (population : Int) → 0 ≤ base_id → base_id < 2 ^ 31 →
          0 ≤ fine_id → fine_id < 2 ^ 32 → r.healpix_id = base_id * 2 ^ 32 + fine_id)
      ∧ ((population : Int) ≤ imp.count_threshold → r.healpix_id = base_id)
      ∧ (0 ≤ base_id → base_id < 2 ^ 31 → 0 ≤ fine_id → fine_id < 2 ^ 32 →
          base_id * 2 ^ 32 + fine_id ≠ base_id →
          (r.healpix_id = base_id * 2 ^ 32 + fine_id
            ↔ imp.count_threshold < (population : Int)))
      ∧ ((records.length : Int) ≤ imp.count_threshold → r.healpix_id = base_id)
      ∧ (loadAndProcessData imp records).map
            (fun q => (q.timestamp, q.source_id, q.ra, q.dec, q.mag, q.jd_tcb))
          = records.map (fun q => (q.timestamp, q.source_id, q.ra, q.dec, q.mag, q.jd_tcb)) := by
  have hb : base_id = imp.healpix_base.ang2pix (cleanPointing r.ra r.dec) := hbase
  have hf : fine_id = imp.healpix_fine.ang2pix (cleanPointing r.ra r.dec) := hfine
  have hp : population = records.countP (fun q =>
      decide (imp.healpix_base.ang2pix (cleanPointing q.ra q.dec) = base_id)) := hpop
  have hval : r.healpix_id
      = if imp.count_threshold < (population : Int)
        then (base_id * 2 ^ 32 + fine_id + 2 ^ 63) % 2 ^ 64 - 2 ^ 63
        else base_id := by
    rw [healpix_id_of_mem_load imp records r hr, ← hb, ← hf, ← hp]
  have hgt : imp.count_threshold < (population : Int) →
      r.healpix_id = (base_id * 2 ^ 32 + fine_id + 2 ^ 63) % 2 ^ 64 - 2 ^ 63 := by
    intro h
    rw [hval, if_pos h]
  have hle : (population : Int) ≤ imp.count_threshold → r.healpix_id = base_id := by
    intro h
    rw [hval, if_neg (not_lt.mpr h)]
  refine ⟨hgt, ?_, hle, ?_, ?_, loadAndProcessData_keeps_fields imp records⟩
  · intro h hb0 hb1 hf0 hf1
    rw [hgt h, wrapped_of_small base_id fine_id hb0 hb1 hf0 hf1]
  · intro hb0 hb1 hf0 hf1 hne
    constructor
    · intro heq
      by_contra hnot
      rw [hle (not_lt.mp hnot)] at heq
      exact hne heq.symm
    · intro h
      rw [hgt h, wrapped_of_small base_id fine_id hb0 hb1 hf0 hf1]
  · intro hthr
    apply hle
    have hcount : population ≤ records.length := by
      rw [hpop]
      exact List.countP_le_length _
    have : (population : Int) ≤ (records.length : Int) := by exact_mod_cast hcount
    omega

/-- C4 on `sampleCatalog` with threshold 1: the first record lies in base cell 1 with
two of the three records, so it is refined to `(1 << 32) + 16`; the third record is
alone in base cell 16 and keeps the plain id 16. -/
theorem loadAndProcessData_refines_dense_cells_witness :
    (sampleDenseRow ∈ loadAndProcessData wideImporter sampleCatalog
        ∧ sampleDenseRow.healpix_id = 1 * 2 ^ 32 + 16)
      ∧ (sampleSparseRow ∈ loadAndProcessData wideImporter sampleCatalog
        ∧ sampleSparseRow.healpix_id = 16) :=
  have hdense : sampleDenseRow ∈ loadAndProcessData wideImporter sampleCatalog := by
    rw [load_sampleCatalog]
    exact List.mem_cons_self _ _
  have hsparse : sampleSparseRow ∈ loadAndProcessData wideImporter sampleCatalog := by
    rw [load_sampleCatalog]
    exact List.mem_cons_of_mem _ (List.mem_cons_of_mem _ (List.mem_cons_self _ _))
  ⟨⟨hdense,
    (loadAndProcessData_refines_dense_cells wideImporter sampleCatalog sampleDenseRow 1 16 2
      hdense
      (by norm_num [sampleDenseRow, wideImporter, sampleHealpix, fmod, truncToZero, PI])
      (by norm_num [sampleDenseRow, wideImporter, sampleHealpix, fmod, truncToZero, PI])
      (by
        norm_num [sampleCatalog, wideImporter, sampleHealpix, fmod, truncToZero, PI,
          List.countP_cons])).2.1
      (by decide) (by decide) (by decide) (by decide) (by decide)⟩,
   ⟨hsparse,
    (loadAndProcessData_refines_dense_cells wideImporter sampleCatalog sampleSparseRow
      16 173 1 hsparse
      (by norm_num [sampleSparseRow, wideImporter, sampleHealpix, fmod, truncToZero, PI])
      (by norm_num [sampleSparseRow, wideImporter, sampleHealpix, fmod, truncToZero, PI])
      (by
        norm_num [sampleCatalog, wideImporter, sampleHealpix, fmod, truncToZero, PI,
          List.countP_cons])).2.2.1 (by decide)⟩⟩

/-- C5: the grouping step partitions the input. Every task holds exactly the input
records that carry its `(healpix_id, source_id)` key, in input order, and is
non-empty; no two tasks share a key; every input record is in the task of its own
key and in no other task; the task sizes sum to the number of input records. -/
theorem buildTaskQueue_partitions_input (records : List AstronomicalRecord) :
    (∀ t ∈ buildTaskQueue records,
        t.records = records.filter (fun r => decide (r.key = t.key)) ∧ t.records ≠ [])
      ∧ ((buildTaskQueue records).map ImportTask.key).Nodup
      ∧ (∀ r ∈ records, ∃ t ∈ buildTaskQueue records,
          t.key = r.key ∧ r ∈ t.records
            ∧ ∀ t' ∈ buildTaskQueue records, r ∈ t'.records → t' = t)
      ∧ ((buildTaskQueue records).map (fun t => t.records.length)).sum = records.length := by
  have hA : ∀ t ∈ buildTaskQueue records,
      t.records = records.filter (fun r => decide (r.key = t.key)) ∧ t.records ≠ [] := by
    intro t ht
    obtain ⟨e, he, rfl⟩ := List.mem_map.mp ht
    have hfind := mapFind_of_mem (groupRecords records) e.1 e.2
      (nodup_keys_groupRecords records) he
    rw [mapFind_groupRecords] at hfind
    by_cases hf : records.filter (fun r => decide ((r.healpix_id, r.source_id) = e.1)) = []
    · simp [hf] at hfind
    · simp only [hf, if_false, Option.some.injEq] at hfind
      constructor
      · exact hfind.symm
      · show e.2 ≠ []
        rw [← hfind]
        exact hf
  refine ⟨hA, ?_, ?_, ?_⟩
  · have : (buildTaskQueue records).map ImportTask.key = (groupRecords records).map Prod.fst := by
      simp [buildTaskQueue, ImportTask.key, Function.comp_def]
    rw [this]
    exact nodup_keys_groupRecords records
  · intro r hr
    have hmem : r ∈ records.filter (fun r' => decide ((r'.healpix_id, r'.source_id) = r.key)) := by
      simp [List.mem_filter, hr, AstronomicalRecord.key]
    have hne : records.filter (fun r' => decide ((r'.healpix_id, r'.source_id) = r.key)) ≠ [] :=
      List.ne_nil_of_mem hmem
    have hfind := mapFind_groupRecords records r.key
    simp only [hne, if_false] at hfind
    have he := mem_of_mapFind _ _ _ hfind
    refine ⟨{ healpix_id := r.healpix_id, source_id := r.source_id,
              records := records.filter
                (fun r' => decide ((r'.healpix_id, r'.source_id) = r.key)) }, ?_, rfl, hmem, ?_⟩
    · exact List.mem_map.mpr ⟨_, he, rfl⟩
    · intro t' ht' hrt'
      have h1 := (hA t' ht').1
      rw [h1] at hrt'
      have hkey : r.key = t'.key := by
        simpa using (List.mem_filter.mp hrt').2
      cases t' with
      | mk hid sid recs =>
        simp only [ImportTask.key, AstronomicalRecord.key, Prod.mk.injEq] at hkey
        simp only at h1
        simp only [ImportTask.mk.injEq]
        refine ⟨hkey.1.symm, hkey.2.symm, ?_⟩
        rw [h1]
        simp [ImportTask.key, AstronomicalRecord.key, hkey.1, hkey.2]
  · have : (buildTaskQueue records).map (fun t => t.records.length)
        = (groupRecords records).map (fun e => e.2.length) := by
      simp [buildTaskQueue, Function.comp_def]
    rw [this]
    exact sum_lengths_groupRecords records

/-- C6: for every list of tasks and every `batch_size ≥ 1`, when every shard
creation and every batch write succeeds, the run ends with
`total_success + total_error` equal to the total number of records of the tasks,
and `total_error = 0`. -/
theorem workerThread_all_ok_counts_every_record (imp : TDengineHealpixImporter)
    (task_queue : List (ImportTask × StorageOutcome)) (conn_pool : TDengineConnectionPool)
    (hbs : 1 ≤ imp.batch_size) (hpool : conn_pool.connections_ ≠ [])
    (hok : ∀ p ∈ task_queue, p.2.create_ok = true ∧ ∀ i, p.2.write_ok i = true) :
    ∃ s1, workerThread imp task_queue (ImportState.fresh conn_pool) = some s1
      ∧ s1.stats.total_success + s1.stats.total_error
          = (task_queue.map (fun p => p.1.records.length)).sum
      ∧ s1.stats.total_error = 0 := by
  obtain ⟨s1, hrun, _, hsucc, herr, _⟩ :=
    workerThread_effect imp hbs task_queue (ImportState.fresh conn_pool) hpool
  have herr0 : (task_queue.map (fun p => taskError imp.batch_size p.1 p.2)).sum = 0 := by
    apply List.sum_eq_zero
    intro x hx
    obtain ⟨p, hp, rfl⟩ := List.mem_map.mp hx
    exact taskError_eq_zero_of_ok _ _ _ (hok p hp).1 (hok p hp).2
  have hsum : (task_queue.map (fun p => taskSuccess imp.batch_size p.1 p.2)).sum
      = (task_queue.map (fun p => p.1.records.length)).sum := by
    congr 1
    apply List.map_congr_left
    intro p hp
    have h1 := taskSuccess_add_taskError imp.batch_size p.1 p.2 hbs
    have h2 := taskError_eq_zero_of_ok imp.batch_size p.1 p.2 (hok p hp).1 (hok p hp).2
    omega
  refine ⟨s1, hrun, ?_, ?_⟩
  · rw [hsucc, herr, herr0, hsum]
    simp [ImportState.fresh]
  · rw [herr, herr0]
    simp [ImportState.fresh]


/-- C6 at a queue of one three-row task, batches of 2, a pool of two handles. -/
theorem workerThread_all_ok_counts_every_record_witness :
    ∃ s1, workerThread sampleImporter [(sampleTask, acceptingOutcome)]
          (ImportState.fresh { connections_ := [0, 1], pool_size_ := 2 }) = some s1
      ∧ s1.stats.total_success + s1.stats.total_error
          = ([(sampleTask, acceptingOutcome)].map (fun p => p.1.records.length)).sum
      ∧ s1.stats.total_error = 0 :=
  workerThread_all_ok_counts_every_record sampleImporter [(sampleTask, acceptingOutcome)]
    { connections_ := [0, 1], pool_size_ := 2 } (by decide) (by decide)
    (by
      intro p hp
      rw [List.mem_singleton] at hp
      subst hp
      exact ⟨rfl, fun _ => rfl⟩)

/-- C7: when creating the shard of a task fails, `processImportTask` adds exactly
`task.records.size()` to the error counter, adds nothing to the success counter
and issues no statement besides the failed `CREATE TABLE`; and a run whose queue
holds that task ends with the success count of the run without it, with its error
count plus `task.records.size()`, and with the same statements issued for the other
tasks. -/
theorem processImportTask_create_failure_counts_task (imp : TDengineHealpixImporter)
    (task : ImportTask) (out : StorageOutcome) (s : ImportState)
    (pre post : List (ImportTask × StorageOutcome))
    (hpool : s.conn_pool.connections_ ≠ []) (hfail : out.create_ok = false) :
    (∃ s1, processImportTask imp task out s = some s1
        ∧ s1.stats.total_error = s.stats.total_error + task.records.length
        ∧ s1.stats.total_success = s.stats.total_success
        ∧ s1.issued
            = s.issued ++ [(Statement.createTable task.healpix_id task.source_id, false)])
      ∧ (1 ≤ imp.batch_size →
          ∃ s0 s2, workerThread imp (pre ++ post) s = some s0
            ∧ workerThread imp (pre ++ (task, out) :: post) s = some s2
            ∧ s2.stats.total_success = s0.stats.total_success
            ∧ s2.stats.total_error = s0.stats.total_error + task.records.length
            ∧ ∃ l1 l2, s0.issued = l1 ++ l2
                ∧ s2.issued = l1
                    ++ (Statement.createTable task.healpix_id task.source_id, false) :: l2) := by
  constructor
  · obtain ⟨conn, rest, hp⟩ := List.exists_cons_of_ne_nil hpool
    have hget : s.conn_pool.getConnection
        = some (conn, { s.conn_pool with connections_ := rest }) := by
      simp [TDengineConnectionPool.getConnection, hp]
    have hstep : processImportTask imp task out s = some
        { conn_pool := TDengineConnectionPool.returnConnection
            { s.conn_pool with connections_ := rest } conn
          stats := s.stats.addError task.records.length
          issued := s.issued
            ++ [(Statement.createTable task.healpix_id task.source_id, false)] } := by
      unfold processImportTask
      rw [hget]
      simp only [hfail, if_true]
    refine ⟨_, hstep, ?_, ?_, ?_⟩
    · simp [ThreadSafeStats.addError]
    · simp [ThreadSafeStats.addError]
    · simp
  · intro hbs
    obtain ⟨s0, hrun0, _, hsucc0, herr0, hiss0⟩ :=
      workerThread_effect imp hbs (pre ++ post) s hpool
    obtain ⟨s2, hrun2, _, hsucc2, herr2, hiss2⟩ :=
      workerThread_effect imp hbs (pre ++ (task, out) :: post) s hpool
    have hts : taskSuccess imp.batch_size task out = 0 := by simp [taskSuccess, hfail]
    have hte : taskError imp.batch_size task out = task.records.length := by
      simp [taskError, hfail]
    have htl : taskStatements imp.batch_size task out
        = [(Statement.createTable task.healpix_id task.source_id, false)] := by
      simp [taskStatements, hfail]
    refine ⟨s0, s2, hrun0, hrun2, ?_, ?_, ?_⟩
    · rw [hsucc2, hsucc0]
      simp [hts]
    · rw [herr2, herr0]
      simp [hte]
      omega
    · refine ⟨s.issued ++ (pre.map (fun p => taskStatements imp.batch_size p.1 p.2)).flatten,
        (post.map (fun p => taskStatements imp.batch_size p.1 p.2)).flatten, ?_, ?_⟩
      · rw [hiss0]
        simp
      · rw [hiss2]
        simp [htl]


/-- C7 at a three-row task whose shard cannot be created, queued before a task that
succeeds. -/
theorem processImportTask_create_failure_counts_task_witness :
    (∃ s1, processImportTask sampleImporter sampleTask refusingOutcome sampleState = some s1
        ∧ s1.stats.total_error = sampleState.stats.total_error + sampleTask.records.length
        ∧ s1.stats.total_success = sampleState.stats.total_success
        ∧ s1.issued = sampleState.issued
            ++ [(Statement.createTable sampleTask.healpix_id sampleTask.source_id, false)])
      ∧ (1 ≤ sampleImporter.batch_size →
          ∃ s0 s2, workerThread sampleImporter ([] ++ [(sampleTask, acceptingOutcome)])
                sampleState = some s0
            ∧ workerThread sampleImporter
                ([] ++ (sampleTask, refusingOutcome) :: [(sampleTask, acceptingOutcome)])
                sampleState = some s2
            ∧ s2.stats.total_success = s0.stats.total_success
            ∧ s2.stats.total_error = s0.stats.total_error + sampleTask.records.length
            ∧ ∃ l1 l2, s0.issued = l1 ++ l2
                ∧ s2.issued = l1
                    ++ (Statement.createTable sampleTask.healpix_id sampleTask.source_id,
                        false) :: l2) :=
  processImportTask_create_failure_counts_task sampleImporter sampleTask refusingOutcome
    sampleState [] [(sampleTask, acceptingOutcome)] (by decide) rfl

/-- C8 fails on the code: with two records in two shards and a storage engine that
refuses to create the shard of partition 3, the single-connection `importData`
ends with `total_success = 1` and `total_error = 0`, so the counters sum to 1 while
`records.size()` is 2; the refused shard issued no write and counted no error. -/
theorem importDataSingle_create_failure_uncounted :
    importDataSingle sampleImporter partitionThreeRefused [sampleRecord, sampleRecord2]
        = some ({ total_success := 1, total_error := 0, processed_groups := 2 },
            [(Statement.createTable 3 7, false), (Statement.createTable 4 8, true),
             (Statement.insertRows 4 8 [sampleRecord2], true)])
      ∧ [sampleRecord, sampleRecord2].length = 2 := by
  constructor
  · rfl
  · rfl

/-- C9: after a successful shard creation, for every pattern of batch-write
outcomes, `processImportTask` issues one `INSERT` per batch, in order, whatever the
outcomes of the earlier ones; the success counter grows by the sizes of the batches
that succeeded, the error counter by the sizes of the batches that failed, and the
two amounts sum to `task.records.size()`. -/
theorem processImportTask_batch_accounting (imp : TDengineHealpixImporter)
    (task : ImportTask) (out : StorageOutcome) (s : ImportState)
    (hbs : 1 ≤ imp.batch_size) (hpool : s.conn_pool.connections_ ≠ [])
    (hcreate : out.create_ok = true) :
    ∃ s1, processImportTask imp task out s = some s1
      ∧ s1.issued = s.issued
          ++ (Statement.createTable task.healpix_id task.source_id, true)
            :: (List.range (batchCount imp.batch_size task.records.length)).map (fun k =>
                (Statement.insertRows task.healpix_id task.source_id
                  (batchRows imp.batch_size task.records k),
                 out.write_ok (k * imp.batch_size)))
      ∧ s1.stats.total_success = s.stats.total_success
          + (((List.range (batchCount imp.batch_size task.records.length)).filter
              (fun k => out.write_ok (k * imp.batch_size))).map
                (fun k => (batchRows imp.batch_size task.records k).length)).sum
      ∧ s1.stats.total_error = s.stats.total_error
          + (((List.range (batchCount imp.batch_size task.records.length)).filter
              (fun k => !out.write_ok (k * imp.batch_size))).map
                (fun k => (batchRows imp.batch_size task.records k).length)).sum
      ∧ s1.stats.total_success + s1.stats.total_error
          = s.stats.total_success + s.stats.total_error + task.records.length := by
  obtain ⟨conn, rest, hp⟩ := List.exists_cons_of_ne_nil hpool
  have heff := processImportTask_effect imp task out s conn rest hbs hp
  have hadd := taskSuccess_add_taskError imp.batch_size task out hbs
  refine ⟨_, heff, ?_, ?_, ?_, ?_⟩
  · simp [taskStatements, hcreate]
  · simp [taskSuccess, hcreate]
  · simp [taskError, hcreate]
  · simp only
    omega

/-- C9 at a three-row task in batches of 2 whose first batch is refused. -/
theorem processImportTask_batch_accounting_witness :
    ∃ s1, processImportTask sampleImporter sampleTask firstBatchFailsOutcome sampleState
        = some s1
      ∧ s1.issued = sampleState.issued
          ++ (Statement.createTable sampleTask.healpix_id sampleTask.source_id, true)
            :: (List.range (batchCount sampleImporter.batch_size
                  sampleTask.records.length)).map (fun k =>
                (Statement.insertRows sampleTask.healpix_id sampleTask.source_id
                  (batchRows sampleImporter.batch_size sampleTask.records k),
                 firstBatchFailsOutcome.write_ok (k * sampleImporter.batch_size)))
      ∧ s1.stats.total_success = sampleState.stats.total_success
          + (((List.range (batchCount sampleImporter.batch_size
                sampleTask.records.length)).filter
              (fun k => firstBatchFailsOutcome.write_ok (k * sampleImporter.batch_size))).map
                (fun k => (batchRows sampleImporter.batch_size
                  sampleTask.records k).length)).sum
      ∧ s1.stats.total_error = sampleState.stats.total_error
          + (((List.range (batchCount sampleImporter.batch_size
                sampleTask.records.length)).filter
              (fun k => !firstBatchFailsOutcome.write_ok (k * sampleImporter.batch_size))).map
                (fun k => (batchRows sampleImporter.batch_size
                  sampleTask.records k).length)).sum
      ∧ s1.stats.total_success + s1.stats.total_error
          = sampleState.stats.total_success + sampleState.stats.total_error
            + sampleTask.records.length :=
  processImportTask_batch_accounting sampleImporter sampleTask firstBatchFailsOutcome
    sampleState (by decide) (by decide) rfl

/-- C10: in every state the pool reaches from its construction by `getConnection`
and `returnConnection` steps, the number of held handles is at most `pool_size`, and
held plus available handles equals the number of handles created at construction. -/
theorem pool_outstanding_handles_bounded (pool_size : Nat) (connect_ok use_ok : Nat → Bool)
    (s : PoolSystem)
    (h : PoolSystem.Reachable (PoolSystem.initial pool_size connect_ok use_ok) s) :
    s.held.length ≤ pool_size
      ∧ s.held.length + s.pool.connections_.length
          = (TDengineConnectionPool.construct pool_size connect_ok use_ok).connections_.length := by
  have hperm := (poolReachable_perm h).length_eq
  simp only [PoolSystem.initial, List.length_append, List.length_nil, Nat.zero_add] at hperm
  have hle := length_construct_le pool_size connect_ok use_ok
  exact ⟨by omega, hperm⟩

/-- C10 at a pool of two handles after one `getConnection`. -/
theorem pool_outstanding_handles_bounded_witness :
    ([0] : List Nat).length ≤ 2
      ∧ ([0] : List Nat).length + ([1] : List Nat).length
          = (TDengineConnectionPool.construct 2 (fun _ => true)
              (fun _ => true)).connections_.length :=
  pool_outstanding_handles_bounded 2 (fun _ => true) (fun _ => true)
    { pool := { connections_ := [1], pool_size_ := 2 }, held := [0] }
    (Relation.ReflTransGen.single
      (PoolSystem.Step.acquire (PoolSystem.initial 2 (fun _ => true) (fun _ => true)) 0
        { connections_ := [1], pool_size_ := 2 } rfl))


/-! ## Auxiliary lemmas: normalisation -/

theorem fmod_of_nonneg (x : Rat) (hx : 0 ≤ x) :
    fmod x 360 = x - 360 * (Int.floor (x / 360) : Rat) := by
  have hq : (0 : Rat) ≤ x / 360 := div_nonneg hx (by norm_num)
  simp [fmod, truncToZero, hq]

theorem fmod_of_neg (x : Rat) (hx : x < 0) :
    fmod x 360 = x - 360 * (Int.ceil (x / 360) : Rat) := by
  have hq : ¬ (0 : Rat) ≤ x / 360 := by
    rw [not_le]
    exact div_neg_of_neg_of_pos hx (by norm_num)
  simp [fmod, truncToZero, hq]

theorem fmod_range_of_nonneg (x : Rat) (hx : 0 ≤ x) :
    0 ≤ fmod x 360 ∧ fmod x 360 < 360 := by
  rw [fmod_of_nonneg x hx]
  have h1 := Int.floor_le (x / 360)
  have h2 := Int.lt_floor_add_one (x / 360)
  have h3 : x = 360 * (x / 360) := by ring
  constructor <;> linarith

theorem fmod_range_of_neg (x : Rat) (hx : x < 0) :
    -360 < fmod x 360 ∧ fmod x 360 ≤ 0 := by
  rw [fmod_of_neg x hx]
  have h1 := Int.le_ceil (x / 360)
  have h2 := Int.ceil_lt_add_one (x / 360)
  have h3 : x = 360 * (x / 360) := by ring
  constructor <;> linarith

theorem fmod_of_lt (x : Rat) (h0 : 0 ≤ x) (h1 : x < 360) : fmod x 360 = x := by
  rw [fmod_of_nonneg x h0]
  have hfl : Int.floor (x / 360) = 0 := by
    rw [Int.floor_eq_iff]
    constructor
    · simpa using div_nonneg h0 (by norm_num : (0 : Rat) ≤ 360)
    · rw [div_lt_iff₀ (by norm_num)]
      simpa using h1
  rw [hfl]
  simp

theorem fmod_of_second_turn (x : Rat) (h0 : 360 ≤ x) (h1 : x < 720) :
    fmod x 360 = x - 360 := by
  rw [fmod_of_nonneg x (by linarith)]
  have hfl : Int.floor (x / 360) = 1 := by
    rw [Int.floor_eq_iff]
    constructor
    · rw [le_div_iff₀ (by norm_num)]
      simpa using h0
    · rw [div_lt_iff₀ (by norm_num)]
      norm_num
      linarith
  rw [hfl]
  simp

theorem floorMod_range (x : Rat) : 0 ≤ floorMod x 360 ∧ floorMod x 360 < 360 := by
  unfold floorMod
  have h1 := Int.floor_le (x / 360)
  have h2 := Int.lt_floor_add_one (x / 360)
  have h3 : x = 360 * (x / 360) := by ring
  constructor <;> linarith

theorem floorMod_of_lt (x : Rat) (h0 : 0 ≤ x) (h1 : x < 360) : floorMod x 360 = x := by
  have h := fmod_of_nonneg x h0
  rw [fmod_of_lt x h0 h1] at h
  unfold floorMod
  exact h.symm

theorem floorMod_of_second_turn (x : Rat) (h0 : 360 ≤ x) (h1 : x < 720) :
    floorMod x 360 = x - 360 := by
  have h := fmod_of_nonneg x (by linarith)
  rw [fmod_of_second_turn x h0 h1] at h
  unfold floorMod
  exact h.symm

/-- The right ascension the code computes, as one expression. -/
theorem normalizeImport_fst (ra dec : Rat) :
    (normalizeImport ra dec).1 = if fmod ra 360 < 0 then fmod ra 360 + 360 else fmod ra 360 :=
  rfl

theorem normalizeImport_snd (ra dec : Rat) :
    (normalizeImport ra dec).2 = max (-90) (min 90 dec) := rfl

theorem normalizeImport_fst_range (ra dec : Rat) :
    0 ≤ (normalizeImport ra dec).1 ∧ (normalizeImport ra dec).1 < 360 := by
  rw [normalizeImport_fst]
  by_cases hx : 0 ≤ ra
  · have h := fmod_range_of_nonneg ra hx
    have hn : ¬ fmod ra 360 < 0 := not_lt.mpr h.1
    rw [if_neg hn]
    exact h
  · have h := fmod_range_of_neg ra (not_le.mp hx)
    by_cases hz : fmod ra 360 < 0
    · rw [if_pos hz]
      constructor <;> linarith
    · rw [if_neg hz]
      constructor <;> linarith

theorem normalizeImport_snd_range (ra dec : Rat) :
    -90 ≤ (normalizeImport ra dec).2 ∧ (normalizeImport ra dec).2 ≤ 90 := by
  rw [normalizeImport_snd]
  constructor
  · exact le_max_left _ _
  · exact max_le (by norm_num) (min_le_left _ _)

theorem normalizeImport_of_normal (ra dec : Rat) (h0 : 0 ≤ ra) (h1 : ra < 360)
    (h2 : -90 ≤ dec) (h3 : dec ≤ 90) : normalizeImport ra dec = (ra, dec) := by
  apply Prod.ext
  · rw [normalizeImport_fst, fmod_of_lt ra h0 h1, if_neg (not_lt.mpr h0)]
  · rw [normalizeImport_snd, min_eq_right h3, max_eq_right h2]

theorem normalizeImport_idempotent (ra dec : Rat) :
    normalizeImport (normalizeImport ra dec).1 (normalizeImport ra dec).2
      = normalizeImport ra dec :=
  normalizeImport_of_normal _ _ (normalizeImport_fst_range ra dec).1
    (normalizeImport_fst_range ra dec).2 (normalizeImport_snd_range ra dec).1
    (normalizeImport_snd_range ra dec).2

theorem normalizeQuery_eq_normalizeImport (ra dec : Rat) :
    normalizeQuery ra dec = normalizeImport ra dec := rfl

theorem clamp_eq_max_min (dec : Rat) : clamp dec (-90) 90 = max (-90) (min 90 dec) := by
  unfold clamp
  by_cases h1 : dec < -90
  · rw [if_pos h1, min_eq_right (by linarith), max_eq_left (by linarith)]
  · by_cases h2 : 90 < dec
    · rw [if_neg h1, if_pos h2, min_eq_left (by linarith), max_eq_right (by norm_num)]
    · rw [if_neg h1, if_neg h2, min_eq_right (by linarith), max_eq_right (by linarith)]

theorem normalizeImport_fst_eq_floorMod (ra dec : Rat) :
    (normalizeImport ra dec).1 = floorMod ra 360 := by
  rw [normalizeImport_fst]
  by_cases hx : 0 ≤ ra
  · have h := fmod_range_of_nonneg ra hx
    rw [if_neg (not_lt.mpr h.1), fmod_of_nonneg ra hx]
    rfl
  · have hneg := not_le.mp hx
    have h := fmod_range_of_neg ra hneg
    have hc := fmod_of_neg ra hneg
    by_cases hz : fmod ra 360 < 0
    · rw [if_pos hz]
      have hfl : Int.floor (ra / 360) = Int.ceil (ra / 360) - 1 := by
        rw [Int.floor_eq_iff]
        have h1 := Int.le_ceil (ra / 360)
        have h2 := Int.ceil_lt_add_one (ra / 360)
        have h3 : ra = 360 * (ra / 360) := by ring
        rw [hc] at hz
        push_cast
        constructor <;> linarith
      unfold floorMod
      rw [hfl, hc]
      push_cast
      ring
    · rw [if_neg hz]
      have hzero : fmod ra 360 = 0 := le_antisymm h.2 (not_lt.mp hz)
      have hfl : Int.floor (ra / 360) = Int.ceil (ra / 360) := by
        rw [Int.floor_eq_iff]
        have h3 : ra = 360 * (ra / 360) := by ring
        rw [hc] at hzero
        constructor <;> linarith
      unfold floorMod
      rw [hfl, ← hc]

theorem normalizeImport_eq_specNormalize (ra dec : Rat) :
    normalizeImport ra dec = specNormalize ra dec := by
  apply Prod.ext
  · show (normalizeImport ra dec).1 = floorMod (floorMod ra 360 + 360) 360
    have h := floorMod_range ra
    rw [floorMod_of_second_turn _ (by linarith) (by linarith), normalizeImport_fst_eq_floorMod]
    ring
  · show (normalizeImport ra dec).2 = clamp dec (-90) 90
    rw [clamp_eq_max_min]
    rfl

theorem normalizeImport_eq_specNormalizeTrunc (ra dec : Rat) :
    normalizeImport ra dec = specNormalizeTrunc ra dec := by
  apply Prod.ext
  · show (normalizeImport ra dec).1 = fmod (fmod ra 360 + 360) 360
    rw [normalizeImport_fst]
    by_cases hx : 0 ≤ ra
    · have h := fmod_range_of_nonneg ra hx
      rw [if_neg (not_lt.mpr h.1),
        fmod_of_second_turn (fmod ra 360 + 360) (by linarith) (by linarith)]
      ring
    · have h := fmod_range_of_neg ra (not_le.mp hx)
      by_cases hz : fmod ra 360 < 0
      · rw [if_pos hz, fmod_of_lt (fmod ra 360 + 360) (by linarith) (by linarith)]
      · rw [if_neg hz]
        have hzero : fmod ra 360 = 0 := le_antisymm h.2 (not_lt.mp hz)
        rw [hzero]
        norm_num [fmod, truncToZero]
  · show (normalizeImport ra dec).2 = clamp dec (-90) 90
    rw [clamp_eq_max_min]
    rfl

theorem cleanPointing_eq_normalizeImport (ra dec : Rat) :
    cleanPointing ra dec
      = { theta := deg2rad (90 - (normalizeImport ra dec).2),
          phi := deg2rad (normalizeImport ra dec).1 } := rfl

/-! ## Auxiliary lemmas: query engine -/

theorem filterMap_cons_toList {α β : Type} (g : α → Option β) (a : α) (l : List α) :
    (a :: l).filterMap g = (g a).toList ++ l.filterMap g := by
  cases h : g a <;> simp [List.filterMap_cons, h]

theorem nearest_loop_body (t : TDengineQueryTester) (pt : pointing) (d_theta d_phi : Int)
    (healpix_ids : List Int) :
    (if d_theta = (0 : Int) ∧ d_phi = (0 : Int) then healpix_ids
      else
        if pt.theta + d_theta * PI / (2 * t.nside) ≥ 0
            ∧ pt.theta + d_theta * PI / (2 * t.nside) ≤ PI
            ∧ pt.phi + d_phi * 2 * PI / (4 * t.nside) ≥ 0
            ∧ pt.phi + d_phi * 2 * PI / (4 * t.nside) < 2 * PI then
          if t.healpix_map.ang2pix
                { theta := pt.theta + d_theta * PI / (2 * t.nside),
                  phi := pt.phi + d_phi * 2 * PI / (4 * t.nside) } ≥ 0
              ∧ t.healpix_map.ang2pix
                { theta := pt.theta + d_theta * PI / (2 * t.nside),
                  phi := pt.phi + d_phi * 2 * PI / (4 * t.nside) } < t.healpix_map.Npix then
            healpix_ids ++ [t.healpix_map.ang2pix
                { theta := pt.theta + d_theta * PI / (2 * t.nside),
                  phi := pt.phi + d_phi * 2 * PI / (4 * t.nside) }]
          else healpix_ids
        else healpix_ids)
      = healpix_ids ++ (neighbourCell t pt d_theta d_phi).toList := by
  unfold neighbourCell
  by_cases h0 : d_theta = (0 : Int) ∧ d_phi = (0 : Int)
  · simp only [if_pos h0, Option.toList, List.append_nil]
  · simp only [if_neg h0]
    by_cases h1 : pt.theta + d_theta * PI / (2 * t.nside) ≥ 0
        ∧ pt.theta + d_theta * PI / (2 * t.nside) ≤ PI
        ∧ pt.phi + d_phi * 2 * PI / (4 * t.nside) ≥ 0
        ∧ pt.phi + d_phi * 2 * PI / (4 * t.nside) < 2 * PI
    · simp only [if_pos h1]
      by_cases h2 : t.healpix_map.ang2pix
                { theta := pt.theta + d_theta * PI / (2 * t.nside),
                  phi := pt.phi + d_phi * 2 * PI / (4 * t.nside) } ≥ 0
              ∧ t.healpix_map.ang2pix
                { theta := pt.theta + d_theta * PI / (2 * t.nside),
                  phi := pt.phi + d_phi * 2 * PI / (4 * t.nside) } < t.healpix_map.Npix
      · simp only [if_pos h2, Option.toList]
      · simp only [if_neg h2, Option.toList, List.append_nil]
    · simp only [if_neg h1, Option.toList, List.append_nil]

theorem nearest_fold_eq (t : TDengineQueryTester) (pt : pointing) (center_id : Int) :
    ([-1, 0, 1] : List Int).foldl (fun healpix_ids d_theta =>
      ([-1, 0, 1] : List Int).foldl (fun healpix_ids d_phi =>
        if d_theta = (0 : Int) ∧ d_phi = (0 : Int) then healpix_ids
        else
          if pt.theta + d_theta * PI / (2 * t.nside) ≥ 0
              ∧ pt.theta + d_theta * PI / (2 * t.nside) ≤ PI
              ∧ pt.phi + d_phi * 2 * PI / (4 * t.nside) ≥ 0
              ∧ pt.phi + d_phi * 2 * PI / (4 * t.nside) < 2 * PI then
            if t.healpix_map.ang2pix
                  { theta := pt.theta + d_theta * PI / (2 * t.nside),
                    phi := pt.phi + d_phi * 2 * PI / (4 * t.nside) } ≥ 0
                ∧ t.healpix_map.ang2pix
                  { theta := pt.theta + d_theta * PI / (2 * t.nside),
                    phi := pt.phi + d_phi * 2 * PI / (4 * t.nside) } < t.healpix_map.Npix then
              healpix_ids ++ [t.healpix_map.ang2pix
                  { theta := pt.theta + d_theta * PI / (2 * t.nside),
                    phi := pt.phi + d_phi * 2 * PI / (4 * t.nside) }]
            else healpix_ids
          else healpix_ids) healpix_ids) [center_id]
      = center_id :: neighbourOffsets.filterMap (fun d => neighbourCell t pt d.1 d.2) := by
  have h00 : neighbourCell t pt 0 0 = none := by
    simp [neighbourCell]
  simp only [nearest_loop_body]
  simp only [List.foldl, neighbourOffsets, filterMap_cons_toList,
    List.filterMap_nil, h00, Option.toList, List.append_nil, List.append_assoc,
    List.singleton_append]
  rfl

theorem nearestHealpixIds_eq (t : TDengineQueryTester) (ra dec : Rat) :
    nearestHealpixIds t ra dec
      = t.healpix_map.ang2pix (cleanPointing ra dec)
          :: neighbourOffsets.filterMap (fun d =>
              neighbourCell t (cleanPointing ra dec) d.1 d.2) :=
  nearest_fold_eq t (cleanPointing ra dec) (t.healpix_map.ang2pix (cleanPointing ra dec))

theorem mem_nearestHealpixIds (t : TDengineQueryTester) (ra dec : Rat) (x : Int)
    (hx : x ∈ nearestHealpixIds t ra dec) :
    x = t.healpix_map.ang2pix (cleanPointing ra dec) ∨ (0 ≤ x ∧ x < t.healpix_map.Npix) := by
  rw [nearestHealpixIds_eq, List.mem_cons] at hx
  rcases hx with h | h
  · exact Or.inl h
  · right
    obtain ⟨d, _, hd⟩ := List.mem_filterMap.mp h
    unfold neighbourCell at hd
    by_cases h0 : d.1 = (0 : Int) ∧ d.2 = (0 : Int)
    · simp only [if_pos h0] at hd
      exact absurd hd (by simp)
    · simp only [if_neg h0] at hd
      by_cases h1 : (cleanPointing ra dec).theta + d.1 * PI / (2 * t.nside) ≥ 0
          ∧ (cleanPointing ra dec).theta + d.1 * PI / (2 * t.nside) ≤ PI
          ∧ (cleanPointing ra dec).phi + d.2 * 2 * PI / (4 * t.nside) ≥ 0
          ∧ (cleanPointing ra dec).phi + d.2 * 2 * PI / (4 * t.nside) < 2 * PI
      · simp only [if_pos h1] at hd
        by_cases h2 : t.healpix_map.ang2pix
              { theta := (cleanPointing ra dec).theta + d.1 * PI / (2 * t.nside),
                phi := (cleanPointing ra dec).phi + d.2 * 2 * PI / (4 * t.nside) } ≥ 0
            ∧ t.healpix_map.ang2pix
              { theta := (cleanPointing ra dec).theta + d.1 * PI / (2 * t.nside),
                phi := (cleanPointing ra dec).phi + d.2 * 2 * PI / (4 * t.nside) }
                < t.healpix_map.Npix
        · simp only [if_pos h2, Option.some.injEq] at hd
          rw [← hd]
          exact ⟨h2.1, h2.2⟩
        · simp only [if_neg h2] at hd
          exact absurd hd (by simp)
      · simp only [if_neg h1] at hd
        exact absurd hd (by simp)

theorem coneWithHealpix_eq (t : TDengineQueryTester) (ra dec radius : Rat) :
    coneWithHealpix t ra dec radius
      = match t.taos_query (coneHealpixIds t ra dec radius) with
        | none => 0
        | some rows =>
          coneScan t.libm
            { ra := (normalizeQuery ra dec).1, dec := (normalizeQuery ra dec).2 } radius rows :=
  rfl

theorem nearestWithHealpix_eq (t : TDengineQueryTester) (ra dec : Rat) :
    nearestWithHealpix t ra dec
      = match t.taos_query (nearestHealpixIds t ra dec) with
        | none => -1
        | some rows =>
          if (nearestScan t.libm
              { ra := (normalizeQuery ra dec).1, dec := (normalizeQuery ra dec).2 } rows).2
          then (nearestScan t.libm
              { ra := (normalizeQuery ra dec).1, dec := (normalizeQuery ra dec).2 } rows).1
          else -1 :=
  rfl

theorem coneScan_aux (m : Libm) (target : SkyCoord) (radius : Rat)
    (rows : List (Option Rat × Option Rat)) (count : Int) :
    rows.foldl (fun count row =>
        match row with
        | (some query_ra, some query_dec) =>
          if target.separation m { ra := query_ra, dec := query_dec } < radius then count + 1
          else count
        | _ => count) count
      = count + ((usableRows rows).countP
          (fun q => decide (target.separation m q < radius)) : Nat) := by
  induction rows generalizing count with
  | nil => simp [usableRows]
  | cons row rows ih =>
    rw [List.foldl_cons, ih]
    obtain ⟨a, b⟩ := row
    cases a with
    | none => simp [usableRows]
    | some query_ra =>
      cases b with
      | none => simp [usableRows]
      | some query_dec =>
        by_cases hlt : target.separation m { ra := query_ra, dec := query_dec } < radius
        · simp [usableRows, hlt, List.countP_cons]
          omega
        · simp [usableRows, hlt, List.countP_cons]

theorem coneScan_eq_countP (m : Libm) (target : SkyCoord) (radius : Rat)
    (rows : List (Option Rat × Option Rat)) :
    coneScan m target radius rows
      = ((usableRows rows).countP (fun q => decide (target.separation m q < radius)) : Nat) := by
  have h := coneScan_aux m target radius rows 0
  simpa [coneScan] using h

theorem nearestScan_aux (m : Libm) (target : SkyCoord)
    (rows : List (Option Rat × Option Rat)) (acc : Rat × Bool) :
    rows.foldl (fun acc row =>
        match row with
        | (some query_ra, some query_dec) =>
          (min acc.1 (target.separation m { ra := query_ra, dec := query_dec }), true)
        | _ => acc) acc
      = ((usableRows rows).foldl (fun d q => min d (target.separation m q)) acc.1,
          acc.2 || !(usableRows rows).isEmpty) := by
  induction rows generalizing acc with
  | nil => simp [usableRows]
  | cons row rows ih =>
    rw [List.foldl_cons, ih]
    obtain ⟨a, b⟩ := row
    cases a with
    | none => simp [usableRows]
    | some query_ra =>
      cases b with
      | none => simp [usableRows]
      | some query_dec => simp [usableRows]

theorem nearestScan_eq (m : Libm) (target : SkyCoord)
    (rows : List (Option Rat × Option Rat)) :
    nearestScan m target rows
      = ((usableRows rows).foldl (fun d q => min d (target.separation m q)) DBL_MAX,
          !(usableRows rows).isEmpty) := by
  have h := nearestScan_aux m target rows (DBL_MAX, false)
  simpa [nearestScan] using h

theorem foldl_min_le_init (f : SkyCoord → Rat) (qs : List SkyCoord) (d : Rat) :
    qs.foldl (fun d q => min d (f q)) d ≤ d := by
  induction qs generalizing d with
  | nil => exact le_refl _
  | cons q qs ih =>
    rw [List.foldl_cons]
    exact (ih _).trans (min_le_left _ _)

theorem foldl_min_le_mem (f : SkyCoord → Rat) (qs : List SkyCoord) (d : Rat) :
    ∀ q ∈ qs, qs.foldl (fun d q => min d (f q)) d ≤ f q := by
  induction qs generalizing d with
  | nil => simp
  | cons q0 qs ih =>
    intro q hq
    rw [List.foldl_cons]
    rcases List.mem_cons.mp hq with h | h
    · subst h
      exact (foldl_min_le_init f qs _).trans (min_le_right _ _)
    · exact ih _ q h

theorem foldl_min_eq_init_or_mem (f : SkyCoord → Rat) (qs : List SkyCoord) (d : Rat) :
    qs.foldl (fun d q => min d (f q)) d = d
      ∨ ∃ q ∈ qs, qs.foldl (fun d q => min d (f q)) d = f q := by
  induction qs generalizing d with
  | nil => exact Or.inl rfl
  | cons q0 qs ih =>
    rw [List.foldl_cons]
    rcases ih (min d (f q0)) with h | ⟨q, hq, h⟩
    · rcases min_choice d (f q0) with hm | hm
      · left
        rw [h, hm]
      · right
        exact ⟨q0, List.mem_cons_self _ _, by rw [h, hm]⟩
    · right
      exact ⟨q, List.mem_cons_of_mem _ hq, h⟩

theorem PI_pos : 0 < PI := by
  norm_num [PI]

theorem acos_clamped_range (m : Libm) (hm : m.AcosInRange) (a : Rat) :
    0 ≤ m.acos (max (-1) (min 1 a)) ∧ m.acos (max (-1) (min 1 a)) ≤ 4 :=
  hm _ (le_max_left _ _) (max_le (by norm_num) (min_le_left _ _))

theorem separation_nonneg (m : Libm) (hm : m.AcosInRange) (p q : SkyCoord) :
    0 ≤ p.separation m q := by
  unfold SkyCoord.separation
  exact div_nonneg (mul_nonneg (acos_clamped_range m hm _).1 (by norm_num)) PI_pos.le

theorem separation_le_DBL_MAX (m : Libm) (hm : m.AcosInRange) (p q : SkyCoord) :
    p.separation m q ≤ DBL_MAX := by
  unfold SkyCoord.separation
  have h := (acos_clamped_range m hm
    (m.sin (p.dec * PI / 180) * m.sin (q.dec * PI / 180)
      + m.cos (p.dec * PI / 180) * m.cos (q.dec * PI / 180)
        * m.cos (q.ra * PI / 180 - p.ra * PI / 180))).2
  have hbig : (720 : Rat) ≤ DBL_MAX * PI := by
    norm_num [DBL_MAX, PI]
  simp only
  rw [div_le_iff₀ PI_pos]
  linarith

theorem nearestScan_min (m : Libm) (hm : m.AcosInRange) (target : SkyCoord)
    (rows : List (Option Rat × Option Rat)) (hne : usableRows rows ≠ []) :
    (∃ q ∈ usableRows rows, (nearestScan m target rows).1 = target.separation m q)
      ∧ ∀ q ∈ usableRows rows, (nearestScan m target rows).1 ≤ target.separation m q := by
  rw [nearestScan_eq]
  refine ⟨?_, foldl_min_le_mem _ _ _⟩
  rcases foldl_min_eq_init_or_mem (fun q => target.separation m q) (usableRows rows) DBL_MAX
    with h | h
  · obtain ⟨q, hq⟩ := List.exists_mem_of_ne_nil _ hne
    refine ⟨q, hq, ?_⟩
    have h1 := foldl_min_le_mem (fun q => target.separation m q) (usableRows rows) DBL_MAX q hq
    have h2 := separation_le_DBL_MAX m hm target q
    simp only at h1 h
    rw [h] at h1 ⊢
    exact le_antisymm h1 h2
  · exact h

theorem sampleLibm_acosInRange : sampleLibm.AcosInRange := by
  intro x h1 h2
  have hpi : 0 < PI := PI_pos
  have hpi4 : PI ≤ 4 := by norm_num [PI]
  show 0 ≤ PI / 2 * (1 - x) ∧ PI / 2 * (1 - x) ≤ 4
  constructor
  · exact mul_nonneg (by linarith) (by linarith)
  · nlinarith

theorem coneWithHealpix_of_error (t : TDengineQueryTester) (ra dec radius : Rat)
    (herr : t.taos_query (coneHealpixIds t ra dec radius) = none) :
    coneWithHealpix t ra dec radius = 0 := by
  rw [coneWithHealpix_eq, herr]

theorem coneWithHealpix_of_rows (t : TDengineQueryTester) (ra dec radius : Rat)
    (rows : List (Option Rat × Option Rat))
    (hq : t.taos_query (coneHealpixIds t ra dec radius) = some rows) :
    coneWithHealpix t ra dec radius
      = ((usableRows rows).countP (fun q =>
          decide (SkyCoord.separation t.libm
            { ra := (normalizeQuery ra dec).1, dec := (normalizeQuery ra dec).2 } q
              < radius)) : Nat) := by
  rw [coneWithHealpix_eq, hq]
  exact coneScan_eq_countP _ _ _ _

theorem coneWithHealpix_of_radius_nonpos (t : TDengineQueryTester) (ra dec radius : Rat)
    (rows : List (Option Rat × Option Rat)) (hacos : t.libm.AcosInRange)
    (hq : t.taos_query (coneHealpixIds t ra dec radius) = some rows) (hr : radius ≤ 0) :
    coneWithHealpix t ra dec radius = 0 := by
  rw [coneWithHealpix_of_rows t ra dec radius rows hq]
  have h0 : (usableRows rows).countP (fun q =>
      decide (SkyCoord.separation t.libm
        { ra := (normalizeQuery ra dec).1, dec := (normalizeQuery ra dec).2 } q < radius)) = 0 := by
    rw [List.countP_eq_zero]
    intro q _
    have hs := separation_nonneg t.libm hacos
      { ra := (normalizeQuery ra dec).1, dec := (normalizeQuery ra dec).2 } q
    simp only [decide_eq_true_eq, not_lt]
    linarith
  rw [h0]
  rfl

theorem nearestWithHealpix_of_error (t : TDengineQueryTester) (ra dec : Rat)
    (herr : t.taos_query (nearestHealpixIds t ra dec) = none) :
    nearestWithHealpix t ra dec = -1 := by
  rw [nearestWithHealpix_eq, herr]

theorem nearestWithHealpix_of_no_usable (t : TDengineQueryTester) (ra dec : Rat)
    (rows : List (Option Rat × Option Rat))
    (hq : t.taos_query (nearestHealpixIds t ra dec) = some rows)
    (hnone : usableRows rows = []) :
    nearestWithHealpix t ra dec = -1 := by
  rw [nearestWithHealpix_eq, hq]
  simp [nearestScan_eq, hnone]

theorem nearestWithHealpix_of_usable (t : TDengineQueryTester) (ra dec : Rat)
    (rows : List (Option Rat × Option Rat))
    (hq : t.taos_query (nearestHealpixIds t ra dec) = some rows)
    (hsome : usableRows rows ≠ []) :
    nearestWithHealpix t ra dec
      = (nearestScan t.libm
          { ra := (normalizeQuery ra dec).1, dec := (normalizeQuery ra dec).2 } rows).1 := by
  rw [nearestWithHealpix_eq, hq]
  have hb : (nearestScan t.libm
      { ra := (normalizeQuery ra dec).1, dec := (normalizeQuery ra dec).2 } rows).2 = true := by
    rw [nearestScan_eq]
    simpa using hsome
  simp only [hb, if_true]

theorem nearestWithHealpix_nonneg_of_usable (t : TDengineQueryTester) (ra dec : Rat)
    (rows : List (Option Rat × Option Rat)) (hacos : t.libm.AcosInRange)
    (hq : t.taos_query (nearestHealpixIds t ra dec) = some rows)
    (hsome : usableRows rows ≠ []) :
    0 ≤ nearestWithHealpix t ra dec := by
  rw [nearestWithHealpix_of_usable t ra dec rows hq hsome]
  obtain ⟨q, _, hqeq⟩ := (nearestScan_min t.libm hacos
    { ra := (normalizeQuery ra dec).1, dec := (normalizeQuery ra dec).2 } rows hsome).1
  rw [hqeq]
  exact separation_nonneg t.libm hacos _ q

theorem mem_loadAndProcessData (imp : TDengineHealpixImporter)
    (records : List AstronomicalRecord) (r : AstronomicalRecord)
    (hr : r ∈ loadAndProcessData imp records) :
    r.healpix_id
      = if imp.count_threshold < (cellPopulation imp records (baseCell imp r) : Int)
        then compositeId (baseCell imp r) (fineCell imp r)
        else baseCell imp r := by
  unfold loadAndProcessData at hr
  obtain ⟨r0, _, rfl⟩ := List.mem_map.mp hr
  show calculateAdaptiveHealpixId imp r0.ra r0.dec r0.source_id (countBaseCells imp records) = _
  rw [calculateAdaptiveHealpixId_eq, snapshotCount_countBaseCells]
  rfl

theorem coneWithHealpix_ne_error_value_iff (t_err t_ok : TDengineQueryTester)
    (ra dec radius ra1 dec1 radius1 : Rat) (rows : List (Option Rat × Option Rat))
    (herr : t_err.taos_query (coneHealpixIds t_err ra dec radius) = none)
    (hok : t_ok.taos_query (coneHealpixIds t_ok ra1 dec1 radius1) = some rows) :
    coneWithHealpix t_ok ra1 dec1 radius1 ≠ coneWithHealpix t_err ra dec radius
      ↔ ∃ q ∈ usableRows rows,
          SkyCoord.separation t_ok.libm
            { ra := (normalizeQuery ra1 dec1).1, dec := (normalizeQuery ra1 dec1).2 } q
              < radius1 := by
  rw [coneWithHealpix_of_error t_err ra dec radius herr,
    coneWithHealpix_of_rows t_ok ra1 dec1 radius1 rows hok]
  rw [Ne, Int.natCast_eq_zero, List.countP_eq_zero]
  simp

/-! ## The claims, continued -/

/-- C11 fails on the code: a cone search whose storage query fails returns 0, the
very value a cone search returns when its query succeeds and no row comes back. -/
theorem coneWithHealpix_error_same_as_empty :
    (sampleTester none).taos_query (coneHealpixIds (sampleTester none) 10 20 1) = none
      ∧ (sampleTester (some [])).taos_query
          (coneHealpixIds (sampleTester (some [])) 10 20 1) = some []
      ∧ coneWithHealpix (sampleTester none) 10 20 1 = 0
      ∧ coneWithHealpix (sampleTester (some [])) 10 20 1 = 0 :=
  ⟨rfl, rfl, rfl, rfl⟩

/-- C12 fails on the code: a nearest-neighbour query whose storage query fails
returns -1, the very value a nearest-neighbour query returns when its query succeeds
and no row comes back. -/
theorem nearestWithHealpix_error_same_as_no_data :
    (sampleTester none).taos_query (nearestHealpixIds (sampleTester none) 10 20) = none
      ∧ (sampleTester (some [])).taos_query
          (nearestHealpixIds (sampleTester (some [])) 10 20) = some []
      ∧ nearestWithHealpix (sampleTester none) 10 20 = -1
      ∧ nearestWithHealpix (sampleTester (some [])) 10 20 = -1 :=
  ⟨rfl, rfl, rfl, rfl⟩

/-- C13, as stated, fails: with radius 0, centred on `(0, 0)`, over a result whose
only row is at `(0, 0)`, the cone search returns 0, because the filter is the strict
`separation < radius` and a separation is never negative. -/
theorem coneWithHealpix_radius_zero_misses_exact_match :
    ¬ (∀ (t : TDengineQueryTester) (ra dec : Rat) (rows : List (Option Rat × Option Rat)),
        t.libm.AcosInRange →
        t.taos_query (coneHealpixIds t ra dec 0) = some rows →
        (some ra, some dec) ∈ rows →
        1 ≤ coneWithHealpix t ra dec 0) := by
  intro h
  have h1 := h (sampleTester (some [(some 0, some 0)])) 0 0 [(some 0, some 0)]
    sampleLibm_acosInRange rfl (List.mem_singleton.mpr rfl)
  have h2 := coneWithHealpix_of_radius_nonpos (sampleTester (some [(some 0, some 0)])) 0 0 0
    [(some 0, some 0)] sampleLibm_acosInRange rfl (le_refl 0)
  rw [h2] at h1
  exact absurd h1 (by decide)

/-- C13, amended: when the storage query succeeds, a cone search with radius 0 (or
any radius at most 0) returns 0 whatever rows come back; a returned row is counted,
and the count is at least 1, as soon as its separation from the normalised query
position is strictly less than the radius. -/
theorem coneWithHealpix_counts_row_within_radius (t : TDengineQueryTester)
    (ra dec radius : Rat) (rows : List (Option Rat × Option Rat))
    (hacos : t.libm.AcosInRange)
    (hq : t.taos_query (coneHealpixIds t ra dec radius) = some rows) :
    (radius ≤ 0 → coneWithHealpix t ra dec radius = 0)
      ∧ (∀ q ∈ usableRows rows,
          SkyCoord.separation t.libm
            { ra := (normalizeQuery ra dec).1, dec := (normalizeQuery ra dec).2 } q < radius →
          1 ≤ coneWithHealpix t ra dec radius) := by
  refine ⟨coneWithHealpix_of_radius_nonpos t ra dec radius rows hacos hq, ?_⟩
  intro q hq1 hlt
  rw [coneWithHealpix_of_rows t ra dec radius rows hq]
  have hpos : 0 < (usableRows rows).countP (fun q =>
      decide (SkyCoord.separation t.libm
        { ra := (normalizeQuery ra dec).1, dec := (normalizeQuery ra dec).2 } q < radius)) := by
    rw [List.countP_pos_iff]
    exact ⟨q, hq1, by simpa using hlt⟩
  omega

/-- C13 amended, at the query position `(0, 0)` with one row on it and radius 0. -/
theorem coneWithHealpix_counts_row_within_radius_witness :
    (((0 : Rat) ≤ 0 → coneWithHealpix (sampleTester (some [(some 0, some 0)])) 0 0 0 = 0)
      ∧ (∀ q ∈ usableRows [(some 0, some 0)],
          SkyCoord.separation (sampleTester (some [(some 0, some 0)])).libm
            { ra := (normalizeQuery 0 0).1, dec := (normalizeQuery 0 0).2 } q < 0 →
          1 ≤ coneWithHealpix (sampleTester (some [(some 0, some 0)])) 0 0 0)) :=
  coneWithHealpix_counts_row_within_radius (sampleTester (some [(some 0, some 0)])) 0 0 0
    [(some 0, some 0)] sampleLibm_acosInRange rfl

/-- C14: when the storage query succeeds, `coneWithHealpix` returns the number of
returned rows with both columns non-null whose separation from the normalised query
position is strictly less than the radius. -/
theorem coneWithHealpix_counts_rows_within_radius (t : TDengineQueryTester)
    (ra dec radius : Rat) (rows : List (Option Rat × Option Rat))
    (hq : t.taos_query (coneHealpixIds t ra dec radius) = some rows) :
    coneWithHealpix t ra dec radius
      = ((usableRows rows).countP (fun q =>
          decide (SkyCoord.separation t.libm
            { ra := (normalizeQuery ra dec).1, dec := (normalizeQuery ra dec).2 } q
              < radius)) : Nat) :=
  coneWithHealpix_of_rows t ra dec radius rows hq

/-- C14 at a result of three rows, one of them with a null column. -/
theorem coneWithHealpix_counts_rows_within_radius_witness :
    coneWithHealpix (sampleTester (some [(some 0, some 0), (none, some 1), (some 1, some 1)]))
        0 0 1
      = ((usableRows [(some 0, some 0), (none, some 1), (some 1, some 1)]).countP (fun q =>
          decide (SkyCoord.separation
            (sampleTester (some [(some 0, some 0), (none, some 1), (some 1, some 1)])).libm
            { ra := (normalizeQuery 0 0).1, dec := (normalizeQuery 0 0).2 } q < 1)) : Nat) :=
  coneWithHealpix_counts_rows_within_radius
    (sampleTester (some [(some 0, some 0), (none, some 1), (some 1, some 1)])) 0 0 1
    [(some 0, some 0), (none, some 1), (some 1, some 1)] rfl

/-- C15: when the storage query succeeds (and `acos` returns angles in `[0, pi]`),
`nearestWithHealpix` returns the minimum, over the returned rows with both columns
non-null, of the separation between the normalised query position and the row, and
it returns -1 exactly when there is no such row. -/
theorem nearestWithHealpix_returns_minimum (t : TDengineQueryTester) (ra dec : Rat)
    (rows : List (Option Rat × Option Rat)) (hacos : t.libm.AcosInRange)
    (hq : t.taos_query (nearestHealpixIds t ra dec) = some rows) :
    (usableRows rows ≠ [] →
        (∃ q ∈ usableRows rows,
            nearestWithHealpix t ra dec
              = SkyCoord.separation t.libm
                  { ra := (normalizeQuery ra dec).1, dec := (normalizeQuery ra dec).2 } q)
          ∧ ∀ q ∈ usableRows rows,
              nearestWithHealpix t ra dec
                ≤ SkyCoord.separation t.libm
                    { ra := (normalizeQuery ra dec).1, dec := (normalizeQuery ra dec).2 } q)
      ∧ (nearestWithHealpix t ra dec = -1 ↔ usableRows rows = []) := by
  constructor
  · intro hsome
    rw [nearestWithHealpix_of_usable t ra dec rows hq hsome]
    exact nearestScan_min t.libm hacos _ rows hsome
  · constructor
    · intro h
      by_contra hsome
      have hnn := nearestWithHealpix_nonneg_of_usable t ra dec rows hacos hq hsome
      rw [h] at hnn
      norm_num at hnn
    · exact nearestWithHealpix_of_no_usable t ra dec rows hq

/-- C15 at a result of three rows, one of them with a null column. -/
theorem nearestWithHealpix_returns_minimum_witness :
    (usableRows [(some 0, some 0), (none, some 1), (some 1, some 1)] ≠ [] →
        (∃ q ∈ usableRows [(some 0, some 0), (none, some 1), (some 1, some 1)],
            nearestWithHealpix
                (sampleTester (some [(some 0, some 0), (none, some 1), (some 1, some 1)])) 0 0
              = SkyCoord.separation
                  (sampleTester
                    (some [(some 0, some 0), (none, some 1), (some 1, some 1)])).libm
                  { ra := (normalizeQuery 0 0).1, dec := (normalizeQuery 0 0).2 } q)
          ∧ ∀ q ∈ usableRows [(some 0, some 0), (none, some 1), (some 1, some 1)],
              nearestWithHealpix
                  (sampleTester (some [(some 0, some 0), (none, some 1), (some 1, some 1)])) 0 0
                ≤ SkyCoord.separation
                    (sampleTester
                      (some [(some 0, some 0), (none, some 1), (some 1, some 1)])).libm
                    { ra := (normalizeQuery 0 0).1, dec := (normalizeQuery 0 0).2 } q)
      ∧ (nearestWithHealpix
            (sampleTester (some [(some 0, some 0), (none, some 1), (some 1, some 1)])) 0 0 = -1
          ↔ usableRows [(some 0, some 0), (none, some 1), (some 1, some 1)] = []) :=
  nearestWithHealpix_returns_minimum
    (sampleTester (some [(some 0, some 0), (none, some 1), (some 1, some 1)])) 0 0
    [(some 0, some 0), (none, some 1), (some 1, some 1)] sampleLibm_acosInRange rfl

/-- C16: for every position and every radius, the list of cell ids `coneWithHealpix`
sends to storage is non-empty: it is the result of `query_disc` when that is
non-empty and otherwise the single cell of the normalised centre; the storage
engine is consulted on that list only. -/
theorem coneHealpixIds_nonempty (t : TDengineQueryTester) (ra dec radius : Rat) :
    coneHealpixIds t ra dec radius ≠ []
      ∧ coneHealpixIds t ra dec radius
          = (if t.healpix_map.query_disc (cleanPointing ra dec) (deg2rad radius) = []
              then [t.healpix_map.ang2pix (cleanPointing ra dec)]
              else t.healpix_map.query_disc (cleanPointing ra dec) (deg2rad radius))
      ∧ ∀ storage : List Int → Option (List (Option Rat × Option Rat)),
          coneWithHealpix { t with taos_query := storage } ra dec radius
            = match storage (coneHealpixIds t ra dec radius) with
              | none => 0
              | some rows =>
                coneScan t.libm
                  { ra := (normalizeQuery ra dec).1, dec := (normalizeQuery ra dec).2 }
                  radius rows := by
  have heq : coneHealpixIds t ra dec radius
      = (if t.healpix_map.query_disc (cleanPointing ra dec) (deg2rad radius) = []
          then [t.healpix_map.ang2pix (cleanPointing ra dec)]
          else t.healpix_map.query_disc (cleanPointing ra dec) (deg2rad radius)) := by
    show (if t.healpix_map.query_disc (cleanPointing ra dec) (deg2rad radius) = []
        then t.healpix_map.query_disc (cleanPointing ra dec) (deg2rad radius)
          ++ [t.healpix_map.ang2pix (cleanPointing ra dec)]
        else t.healpix_map.query_disc (cleanPointing ra dec) (deg2rad radius)) = _
    by_cases h : t.healpix_map.query_disc (cleanPointing ra dec) (deg2rad radius) = []
    · rw [if_pos h, if_pos h, h]
      rfl
    · rw [if_neg h, if_neg h]
  refine ⟨?_, heq, fun storage => rfl⟩
  rw [heq]
  by_cases h : t.healpix_map.query_disc (cleanPointing ra dec) (deg2rad radius) = []
  · rw [if_pos h]
    exact List.cons_ne_nil _ _
  · rw [if_neg h]
    exact h

/-- C18, as stated, fails: with threshold 0 the record at right ascension 100 gets
the composite id `(1 << 32) + 6`, while a nearest-neighbour query at its position
asks storage for the centre cell 1 and for cells below `Npix = 12` only. -/
theorem nearestHealpixIds_misses_composite_id :
    ¬ (∀ (imp : TDengineHealpixImporter) (t : TDengineQueryTester)
        (records : List AstronomicalRecord),
        t.healpix_map = imp.healpix_base →
        ∀ r ∈ loadAndProcessData imp records,
          r.healpix_id ∈ nearestHealpixIds t r.ra r.dec) := by
  intro h
  have hload : loadAndProcessData refiningImporter [sampleRecord3]
      = [{ sampleRecord3 with healpix_id := 4294967302 }] := by
    norm_num [loadAndProcessData, calculateAdaptiveHealpixId, countBaseCells, snapshotCount,
      mapModify, mapFind, mapInsert, mapAssign, refiningImporter, sampleRecord3,
      sampleHealpix, fmod, truncToZero, deg2rad, PI]
    decide
  have h1 := h refiningImporter (sampleTester none) [sampleRecord3] rfl
    { sampleRecord3 with healpix_id := 4294967302 } (by rw [hload]; exact List.mem_singleton.mpr rfl)
  rcases mem_nearestHealpixIds _ _ _ _ h1 with h2 | h2
  · have hc : (sampleTester none).healpix_map.ang2pix (cleanPointing 100 0) = 1 := by
      norm_num [sampleTester, sampleHealpix, cleanPointing, fmod, truncToZero, deg2rad, PI]
    rw [show ({ sampleRecord3 with healpix_id := 4294967302 } : AstronomicalRecord).ra = 100
      from rfl, show ({ sampleRecord3 with healpix_id := 4294967302 } : AstronomicalRecord).dec
      = 0 from rfl, hc] at h2
    exact absurd h2 (by decide)
  · exact absurd h2.2 (by decide)

/-- C18, amended: with the query resolution equal to the base resolution, a record
that the planner leaves on its plain base cell id is a candidate of the
nearest-neighbour query at its own position: its id is the first id asked for. A
record that the planner gives a composite id `(base << 32) + fine` with `base ≥ 1`
is not among the ids asked for when the tessellation has at most `2^32` cells. -/
theorem nearestHealpixIds_contains_plain_id (imp : TDengineHealpixImporter)
    (t : TDengineQueryTester) (records : List AstronomicalRecord) (r : AstronomicalRecord)
    (hres : t.healpix_map = imp.healpix_base) (hr : r ∈ loadAndProcessData imp records) :
    ((cellPopulation imp records (baseCell imp r) : Int) ≤ imp.count_threshold →
        (nearestHealpixIds t r.ra r.dec).head? = some r.healpix_id
          ∧ r.healpix_id ∈ nearestHealpixIds t r.ra r.dec)
      ∧ (imp.count_threshold < (cellPopulation imp records (baseCell imp r) : Int) →
          1 ≤ baseCell imp r → baseCell imp r < 2 ^ 31 →
          0 ≤ fineCell imp r → fineCell imp r < 2 ^ 32 →
          t.healpix_map.Npix ≤ 2 ^ 32 →
          r.healpix_id ∉ nearestHealpixIds t r.ra r.dec) := by
  have hid := mem_loadAndProcessData imp records r hr
  have hcentre : t.healpix_map.ang2pix (cleanPointing r.ra r.dec) = baseCell imp r := by
    rw [hres]
    rfl
  constructor
  · intro hle
    rw [if_neg (not_lt.mpr hle)] at hid
    have hhead : (nearestHealpixIds t r.ra r.dec).head? = some r.healpix_id := by
      rw [nearestHealpixIds_eq, hcentre, hid]
      rfl
    exact ⟨hhead, List.mem_of_mem_head? hhead⟩
  · intro hlt hb1 hb2 hf0 hf1 hn hmem
    rw [if_pos hlt, compositeId_of_small _ _ (by omega) hb2 hf0 hf1] at hid
    rcases mem_nearestHealpixIds t r.ra r.dec _ hmem with h | h
    · rw [hcentre, hid] at h
      omega
    · rw [hid] at h
      omega

/-- C18 amended, at a load of one record with threshold 1, queried at resolution 1. -/
theorem nearestHealpixIds_contains_plain_id_witness :
    ((cellPopulation sampleImporter [sampleRecord3]
          (baseCell sampleImporter { sampleRecord3 with healpix_id := 1 }) : Int)
        ≤ sampleImporter.count_threshold →
        (nearestHealpixIds (sampleTester none) (100 : Rat) (0 : Rat)).head? = some (1 : Int)
          ∧ (1 : Int) ∈ nearestHealpixIds (sampleTester none) (100 : Rat) (0 : Rat))
      ∧ (sampleImporter.count_threshold
            < (cellPopulation sampleImporter [sampleRecord3]
                (baseCell sampleImporter { sampleRecord3 with healpix_id := 1 }) : Int) →
          1 ≤ baseCell sampleImporter { sampleRecord3 with healpix_id := 1 } →
          baseCell sampleImporter { sampleRecord3 with healpix_id := 1 } < 2 ^ 31 →
          0 ≤ fineCell sampleImporter { sampleRecord3 with healpix_id := 1 } →
          fineCell sampleImporter { sampleRecord3 with healpix_id := 1 } < 2 ^ 32 →
          (sampleTester none).healpix_map.Npix ≤ 2 ^ 32 →
          (1 : Int) ∉ nearestHealpixIds (sampleTester none) (100 : Rat) (0 : Rat)) :=
  nearestHealpixIds_contains_plain_id sampleImporter (sampleTester none) [sampleRecord3]
    { sampleRecord3 with healpix_id := 1 } rfl
    (by
      have hload : loadAndProcessData sampleImporter [sampleRecord3]
          = [{ sampleRecord3 with healpix_id := 1 }] := by
        norm_num [loadAndProcessData, calculateAdaptiveHealpixId, countBaseCells,
          snapshotCount, mapModify, mapFind, mapInsert, mapAssign, sampleImporter,
          sampleRecord3, sampleHealpix, fmod, truncToZero, deg2rad, PI]
      rw [hload]
      exact List.mem_singleton.mpr rfl)

/-- C19: over exact arithmetic the normalisation as coded, in the importer and in
the query engine, is idempotent: normalising a normalised position returns it
unchanged. -/
theorem normalize_idempotent (ra dec : Rat) :
    normalizeImport (normalizeImport ra dec).1 (normalizeImport ra dec).2
        = normalizeImport ra dec
      ∧ normalizeQuery (normalizeQuery ra dec).1 (normalizeQuery ra dec).2
        = normalizeQuery ra dec :=
  ⟨normalizeImport_idempotent ra dec, normalizeImport_idempotent ra dec⟩

/-- C20: the normalisation coded in the partitioner and the one coded in the query
engine are the same function, and over exact arithmetic both equal the specified
formula `ra = ((ra mod 360) + 360) mod 360`, `dec = clamp(dec, -90, 90)`, for every
input, with `mod` read as the mathematical remainder or as C's `fmod`; the direction
the partitioner hands to the tessellation is built from that normalised position. -/
theorem normalize_same_everywhere (ra dec : Rat) :
    normalizeQuery ra dec = normalizeImport ra dec
      ∧ normalizeImport ra dec = specNormalize ra dec
      ∧ normalizeQuery ra dec = specNormalize ra dec
      ∧ normalizeImport ra dec = specNormalizeTrunc ra dec
      ∧ cleanPointing ra dec
          = { theta := deg2rad (90 - (specNormalize ra dec).2),
              phi := deg2rad (specNormalize ra dec).1 } := by
  refine ⟨rfl, normalizeImport_eq_specNormalize ra dec, normalizeImport_eq_specNormalize ra dec,
    normalizeImport_eq_specNormalizeTrunc ra dec, ?_⟩
  rw [← normalizeImport_eq_specNormalize]
  rfl


/-! ## Auxiliary lemmas: order, batches, pool, mapping, names -/

theorem mem_buildTaskQueue_records (records : List AstronomicalRecord) (t : ImportTask)
    (ht : t ∈ buildTaskQueue records) :
    t.records = records.filter (fun r => decide (r.key = t.key)) := by
  obtain ⟨e, he, rfl⟩ := List.mem_map.mp ht
  have hfind := mapFind_of_mem (groupRecords records) e.1 e.2
    (nodup_keys_groupRecords records) he
  rw [mapFind_groupRecords] at hfind
  by_cases hf : records.filter (fun r => decide ((r.healpix_id, r.source_id) = e.1)) = []
  · simp [hf] at hfind
  · simp only [hf, if_false, Option.some.injEq] at hfind
    exact hfind.symm

theorem mapFind_countBaseCells_of_mem (imp : TDengineHealpixImporter)
    (records : List AstronomicalRecord) (r : AstronomicalRecord) (hr : r ∈ records) :
    mapFind (countBaseCells imp records) (baseCell imp r)
      = some (cellPopulation imp records (baseCell imp r) : Int)
      ∧ 1 ≤ cellPopulation imp records (baseCell imp r) := by
  have hpos : 0 < cellPopulation imp records (baseCell imp r) := by
    unfold cellPopulation
    rw [List.countP_pos_iff]
    exact ⟨r, hr, by simp⟩
  have hcount := snapshotCount_countBaseCells imp records (baseCell imp r)
  have hcount2 : snapshotCount (countBaseCells imp records) (baseCell imp r)
      = (cellPopulation imp records (baseCell imp r) : Int) := hcount
  refine ⟨?_, hpos⟩
  unfold snapshotCount at hcount2
  cases hfind : mapFind (countBaseCells imp records) (baseCell imp r) with
  | none =>
    rw [hfind] at hcount2
    simp only at hcount2
    omega
  | some c =>
    rw [hfind] at hcount2
    simp only at hcount2
    rw [hcount2]

theorem processImportTask_pool_after (imp : TDengineHealpixImporter) (task : ImportTask)
    (out : StorageOutcome) (s s1 : ImportState) (conn : Nat) (rest : List Nat)
    (hpool : s.conn_pool.connections_ = conn :: rest)
    (hrun : processImportTask imp task out s = some s1) :
    s1.conn_pool = { s.conn_pool with connections_ := rest ++ [conn] } := by
  have hget : s.conn_pool.getConnection
      = some (conn, { s.conn_pool with connections_ := rest }) := by
    simp [TDengineConnectionPool.getConnection, hpool]
  unfold processImportTask at hrun
  rw [hget] at hrun
  cases hc : out.create_ok with
  | false =>
    simp only [hc, if_true, Option.some.injEq] at hrun
    rw [← hrun]
    rfl
  | true =>
    simp only [hc, Bool.true_eq_false, if_false] at hrun
    cases hloop : insertLoop imp.batch_size task out task.records.length 0
        (s.stats, s.issued ++ [(Statement.createTable task.healpix_id task.source_id, true)]) with
    | none =>
      rw [hloop] at hrun
      simp at hrun
    | some st =>
      rw [hloop] at hrun
      simp only [Option.some.injEq] at hrun
      rw [← hrun]
      rfl

theorem getConnections_all (conns : List Nat) (pool_size : Nat) :
    TDengineConnectionPool.getConnections conns.length
        { connections_ := conns, pool_size_ := pool_size }
      = some (conns, { connections_ := [], pool_size_ := pool_size }) := by
  induction conns with
  | nil => rfl
  | cons c rest ih =>
    simp [TDengineConnectionPool.getConnections, TDengineConnectionPool.getConnection, ih]

theorem getConnections_one_more (conns : List Nat) (pool_size : Nat) :
    TDengineConnectionPool.getConnections (conns.length + 1)
        { connections_ := conns, pool_size_ := pool_size } = none := by
  induction conns with
  | nil => rfl
  | cons c rest ih =>
    simp only [List.length_cons] at ih ⊢
    rw [TDengineConnectionPool.getConnections]
    simp [TDengineConnectionPool.getConnection, ih]

theorem PI_le_four : PI ≤ 4 := by
  norm_num [PI]


theorem flatten_batchRows_aux (bs : Nat) (records : List AstronomicalRecord)
    (hbs : 1 ≤ bs) (d : Nat) :
    ∀ j, j + d = batchCount bs records.length →
      ((List.range' j d).map (batchRows bs records)).flatten = records.drop (j * bs) := by
  induction d with
  | zero =>
    intro j hj
    have hge : ¬ j * bs < records.length := by
      rw [← lt_batchCount_iff bs _ j hbs]
      omega
    simp only [List.range'_zero, List.map_nil, List.flatten_nil]
    exact (List.drop_eq_nil_of_le (by omega)).symm
  | succ d ih =>
    intro j hj
    rw [List.range'_succ, List.map_cons, List.flatten_cons, ih (j + 1) (by omega)]
    unfold batchRows
    rw [Nat.succ_mul, ← List.drop_drop]
    exact List.take_append_drop bs _

theorem flatten_batchRows (bs : Nat) (records : List AstronomicalRecord) (hbs : 1 ≤ bs) :
    ((List.range (batchCount bs records.length)).map (batchRows bs records)).flatten
      = records := by
  rw [List.range_eq_range']
  have h := flatten_batchRows_aux bs records hbs (batchCount bs records.length) 0 (by omega)
  simpa using h

theorem batchCount_eq_ceil (bs n : Nat) (hbs : 1 ≤ bs) :
    batchCount bs n = Nat.ceil ((n : Rat) / (bs : Rat)) := by
  have hbpos : (0 : Rat) < (bs : Rat) := by exact_mod_cast hbs
  apply le_antisymm
  · by_contra hlt
    rw [not_le] at hlt
    have h1 : Nat.ceil ((n : Rat) / (bs : Rat)) * bs < n :=
      (lt_batchCount_iff bs n _ hbs).mp hlt
    have h2 : (n : Rat) / (bs : Rat) ≤ (Nat.ceil ((n : Rat) / (bs : Rat)) : Rat) :=
      Nat.le_ceil _
    rw [div_le_iff₀ hbpos] at h2
    have h3 : ((Nat.ceil ((n : Rat) / (bs : Rat)) * bs : Nat) : Rat) < (n : Rat) := by
      exact_mod_cast h1
    push_cast at h3
    linarith
  · rw [Nat.ceil_le, div_le_iff₀ hbpos]
    have h1 : ¬ batchCount bs n * bs < n := by
      rw [← lt_batchCount_iff bs n _ hbs]
      omega
    have h2 : n ≤ batchCount bs n * bs := by omega
    exact_mod_cast h2

theorem length_batchRows_bounds (bs : Nat) (records : List AstronomicalRecord) (hbs : 1 ≤ bs)
    (k : Nat) (hk : k < batchCount bs records.length) :
    1 ≤ (batchRows bs records k).length ∧ (batchRows bs records k).length ≤ bs
      ∧ (k + 1 < batchCount bs records.length → (batchRows bs records k).length = bs) := by
  have h1 := (lt_batchCount_iff bs records.length k hbs).mp hk
  rw [length_batchRows]
  refine ⟨by omega, by omega, ?_⟩
  intro hk1
  have h2 := (lt_batchCount_iff bs records.length (k + 1) hbs).mp hk1
  rw [Nat.succ_mul] at h2
  omega

theorem importGroupSingle_issued (bs : Nat) (storage : Int → Int → StorageOutcome)
    (healpix_id source_id : Int) (group_records : List AstronomicalRecord)
    (st : ThreadSafeStats × List (Statement × Bool)) (hbs : 1 ≤ bs)
    (hc : (storage healpix_id source_id).create_ok = true) :
    ∃ st1, importGroupSingle bs storage ((healpix_id, source_id), group_records) st = some st1
      ∧ st1.2 = st.2
          ++ (Statement.createTable healpix_id source_id, true)
            :: (List.range (batchCount bs group_records.length)).map (fun k =>
                (Statement.insertRows healpix_id source_id (batchRows bs group_records k),
                 (storage healpix_id source_id).write_ok (k * bs))) := by
  have hloop := insertLoop_eq_foldl bs
    { healpix_id := healpix_id, source_id := source_id, records := group_records }
    (storage healpix_id source_id) hbs
    (batchCount bs group_records.length) 0 group_records.length
    (st.1.incrementGroup,
      st.2 ++ [(Statement.createTable healpix_id source_id, true)])
    (Nat.zero_add _) (batchCount_le _ _ hbs)
  rw [Nat.zero_mul, ← List.range_eq_range'] at hloop
  have hrun : importGroupSingle bs storage ((healpix_id, source_id), group_records) st
      = some ((List.range (batchCount bs group_records.length)).foldl
          (batchStep bs
            { healpix_id := healpix_id, source_id := source_id, records := group_records }
            (storage healpix_id source_id))
          (st.1.incrementGroup,
            st.2 ++ [(Statement.createTable healpix_id source_id, true)])) := by
    unfold importGroupSingle
    simp only [hc, Bool.true_eq_false, if_false]
    exact hloop
  refine ⟨_, hrun, ?_⟩
  rw [foldl_batchStep_issued]
  simp

theorem processImportTask_create_failed (imp : TDengineHealpixImporter) (task : ImportTask)
    (out : StorageOutcome) (s : ImportState) (conn : Nat) (rest : List Nat)
    (hpool : s.conn_pool.connections_ = conn :: rest) (hc : out.create_ok = false) :
    processImportTask imp task out s = some
      { conn_pool := { s.conn_pool with connections_ := rest ++ [conn] }
        stats := s.stats.addError task.records.length
        issued := s.issued
          ++ [(Statement.createTable task.healpix_id task.source_id, false)] } := by
  have hget : s.conn_pool.getConnection
      = some (conn, { s.conn_pool with connections_ := rest }) := by
    simp [TDengineConnectionPool.getConnection, hpool]
  unfold processImportTask
  rw [hget]
  simp [hc, TDengineConnectionPool.returnConnection]

theorem mapFind_sourceHealpixMap_aux (records : List AstronomicalRecord)
    (m : List (Int × Int)) (sid : Int) :
    mapFind (records.foldl (fun (source_healpix_map : List (Int × Int))
          (record : AstronomicalRecord) =>
        match mapFind source_healpix_map record.source_id with
        | none =>
          mapModify longLt (0 : Int) (fun _ => record.healpix_id) source_healpix_map
            record.source_id
        | some _ => source_healpix_map) m) sid
      = match mapFind m sid with
        | some v => some v
        | none => (records.find? (fun r => decide (r.source_id = sid))).map
            (fun r => r.healpix_id) := by
  induction records generalizing m with
  | nil =>
    simp only [List.foldl_nil, List.find?_nil, Option.map_none']
    cases mapFind m sid <;> rfl
  | cons r rest ih =>
    rw [List.foldl_cons, ih]
    by_cases hs : r.source_id = sid
    · cases hm : mapFind m r.source_id with
      | none =>
        have hm2 : mapFind m sid = none := hs ▸ hm
        simp only [mapFind_mapModify, hs, if_true, hm2, Option.getD_none]
        simp [List.find?_cons, hs]
      | some v =>
        have hm2 : mapFind m sid = some v := hs ▸ hm
        simp only [hm2]
    · have hs2 : ¬ sid = r.source_id := fun h => hs h.symm
      cases hm : mapFind m r.source_id with
      | none =>
        simp only [mapFind_mapModify, if_neg hs2]
        cases mapFind m sid with
        | none => simp [List.find?_cons, hs]
        | some v => rfl
      | some v =>
        simp only
        cases mapFind m sid with
        | none => simp [List.find?_cons, hs]
        | some v => rfl

theorem mapFind_sourceHealpixMap (records : List AstronomicalRecord) (sid : Int) :
    mapFind (sourceHealpixMap records) sid
      = (records.find? (fun r => decide (r.source_id = sid))).map (fun r => r.healpix_id) :=
  mapFind_sourceHealpixMap_aux records [] sid

theorem nodup_keys_sourceHealpixMap_aux (records : List AstronomicalRecord)
    (m : List (Int × Int)) (hnd : (m.map Prod.fst).Nodup) :
    ((records.foldl (fun (source_healpix_map : List (Int × Int))
          (record : AstronomicalRecord) =>
        match mapFind source_healpix_map record.source_id with
        | none =>
          mapModify longLt (0 : Int) (fun _ => record.healpix_id) source_healpix_map
            record.source_id
        | some _ => source_healpix_map) m).map Prod.fst).Nodup := by
  induction records generalizing m with
  | nil => exact hnd
  | cons r rest ih =>
    rw [List.foldl_cons]
    apply ih
    cases hm : mapFind m r.source_id with
    | none => exact nodup_keys_mapModify _ _ _ _ _ hnd
    | some v => exact hnd

theorem nodup_keys_sourceHealpixMap (records : List AstronomicalRecord) :
    ((sourceHealpixMap records).map Prod.fst).Nodup :=
  nodup_keys_sourceHealpixMap_aux records [] List.nodup_nil

theorem mem_keys_sourceHealpixMap (records : List AstronomicalRecord) (sid : Int) :
    sid ∈ (sourceHealpixMap records).map Prod.fst ↔ ∃ r ∈ records, r.source_id = sid := by
  have hfind := mapFind_sourceHealpixMap records sid
  constructor
  · intro hmem
    by_contra hno
    have hnone : records.find? (fun r => decide (r.source_id = sid)) = none := by
      rw [List.find?_eq_none]
      intro r hr hrs
      exact hno ⟨r, hr, by simpa using hrs⟩
    rw [hnone] at hfind
    exact (mapFind_eq_none_iff _ _).mp hfind hmem
  · rintro ⟨r, hr, hrs⟩
    by_contra hmem
    have hnone := (mapFind_eq_none_iff _ _).mpr hmem
    rw [hnone] at hfind
    have hnone2 : records.find? (fun r => decide (r.source_id = sid)) = none := by
      cases hf : records.find? (fun r => decide (r.source_id = sid)) with
      | none => rfl
      | some x => rw [hf] at hfind; simp at hfind
    rw [List.find?_eq_none] at hnone2
    exact hnone2 r hr (by simpa using hrs)

theorem find?_loadAndProcessData (imp : TDengineHealpixImporter)
    (records : List AstronomicalRecord) (sid : Int) :
    (loadAndProcessData imp records).find? (fun r => decide (r.source_id = sid))
      = (records.find? (fun r => decide (r.source_id = sid))).map (fun record =>
          { record with
            healpix_id := calculateAdaptiveHealpixId imp record.ra record.dec
              record.source_id (countBaseCells imp records) }) := by
  unfold loadAndProcessData
  generalize countBaseCells imp records = base_counts
  induction records with
  | nil => rfl
  | cons r rest ih =>
    by_cases hs : r.source_id = sid
    · simp [List.find?_cons, hs]
    · simp only [List.map_cons, List.find?_cons, hs, decide_False]
      exact ih

theorem charDigit_digitChar (d : Nat) (hd : d < 10) : charDigit (digitChar d) = d := by
  interval_cases d <;> rfl

theorem decimalDigits_lt (n d : Nat) (hd : d ∈ decimalDigits n) : d < 10 := by
  unfold decimalDigits at hd
  by_cases hn : n = 0
  · simp only [hn, if_true, List.mem_singleton] at hd
    omega
  · simp only [hn, if_false] at hd
    exact Nat.digits_lt_base (by norm_num) hd

theorem ofDigits_decimalDigits (n : Nat) : Nat.ofDigits 10 (decimalDigits n) = n := by
  unfold decimalDigits
  by_cases hn : n = 0
  · simp [hn]
  · simp only [hn, if_false]
    exact Nat.ofDigits_digits 10 n

theorem decimalDigits_ne_nil (n : Nat) : decimalDigits n ≠ [] := by
  unfold decimalDigits
  by_cases hn : n = 0
  · simp [hn]
  · simp only [hn, if_false]
    exact Nat.digits_ne_nil_iff_ne_zero.mpr hn

theorem map_charDigit_digits (n : Nat) :
    ((decimalDigits n).reverse.map digitChar).map charDigit = (decimalDigits n).reverse := by
  rw [List.map_map]
  conv_rhs => rw [← List.map_id (decimalDigits n).reverse]
  apply List.map_congr_left
  intro d hd
  exact charDigit_digitChar d (decimalDigits_lt n d (List.mem_reverse.mp hd))

theorem digits_string_injective (a b : Nat)
    (h : (decimalDigits a).reverse.map digitChar = (decimalDigits b).reverse.map digitChar) :
    a = b := by
  have h1 := congrArg (List.map charDigit) h
  rw [map_charDigit_digits, map_charDigit_digits] at h1
  have h2 : decimalDigits a = decimalDigits b := List.reverse_injective h1
  rw [← ofDigits_decimalDigits a, ← ofDigits_decimalDigits b, h2]

theorem charDigit_of_mem_digits (n : Nat) (c : Char)
    (hc : c ∈ (decimalDigits n).reverse.map digitChar) : charDigit c < 10 := by
  obtain ⟨d, hd, rfl⟩ := List.mem_map.mp hc
  have hlt := decimalDigits_lt n d (List.mem_reverse.mp hd)
  rw [charDigit_digitChar d hlt]
  exact hlt

theorem to_string_injective (z w : Int) (h : to_string z = to_string w) : z = w := by
  unfold to_string at h
  by_cases hz : z < 0
  · by_cases hw : w < 0
    · simp only [hz, hw, if_true, List.cons.injEq, true_and] at h
      have := digits_string_injective _ _ h
      omega
    · simp only [hz, hw, if_true, if_false] at h
      have hmem : '-' ∈ (decimalDigits w.toNat).reverse.map digitChar := by
        rw [← h]
        exact List.mem_cons_self _ _
      have := charDigit_of_mem_digits _ _ hmem
      exact absurd this (by decide)
  · by_cases hw : w < 0
    · simp only [hz, hw, if_true, if_false] at h
      have hmem : '-' ∈ (decimalDigits z.toNat).reverse.map digitChar := by
        rw [h]
        exact List.mem_cons_self _ _
      have := charDigit_of_mem_digits _ _ hmem
      exact absurd this (by decide)
    · simp only [hz, hw, if_false] at h
      have := digits_string_injective _ _ h
      omega

theorem underscore_not_mem_to_string (z : Int) : '_' ∉ to_string z := by
  intro hmem
  unfold to_string at hmem
  by_cases hz : z < 0
  · simp only [hz, if_true, List.mem_cons] at hmem
    rcases hmem with h | h
    · exact absurd h (by decide)
    · exact absurd (charDigit_of_mem_digits _ _ h) (by decide)
  · simp only [hz, if_false] at hmem
    exact absurd (charDigit_of_mem_digits _ _ hmem) (by decide)

theorem append_separator_injective {α : Type} (x : α) :
    ∀ (a a' b b' : List α), x ∉ a → x ∉ a' → a ++ x :: b = a' ++ x :: b' →
      a = a' ∧ b = b'
  | [], [], b, b', _, _, h => by
    simp only [List.nil_append, List.cons.injEq, true_and] at h
    exact ⟨rfl, h⟩
  | [], y :: a', b, b', _, hx', h => by
    simp only [List.nil_append, List.cons_append, List.cons.injEq] at h
    exact absurd (List.mem_cons.mpr (Or.inl h.1)) hx'
  | y :: a, [], b, b', hx, _, h => by
    simp only [List.nil_append, List.cons_append, List.cons.injEq] at h
    exact absurd (List.mem_cons.mpr (Or.inl h.1.symm)) hx
  | y :: a, y' :: a', b, b', hx, hx', h => by
    simp only [List.cons_append, List.cons.injEq] at h
    have ih := append_separator_injective x a a' b b'
      (fun hm => hx (List.mem_cons_of_mem _ hm)) (fun hm => hx' (List.mem_cons_of_mem _ hm)) h.2
    exact ⟨by rw [h.1, ih.1], ih.2⟩

theorem table_name_full_injective (table_name : List Char)
    (healpix_id source_id healpix_id2 source_id2 : Int)
    (h : table_name_full table_name healpix_id source_id
      = table_name_full table_name healpix_id2 source_id2) :
    healpix_id = healpix_id2 ∧ source_id = source_id2 := by
  unfold table_name_full at h
  simp only [List.append_assoc, List.singleton_append, List.append_cancel_left_eq,
    List.cons_append, List.cons.injEq, true_and] at h
  have hsplit := append_separator_injective '_' _ _ _ _
    (underscore_not_mem_to_string healpix_id) (underscore_not_mem_to_string healpix_id2) h
  exact ⟨to_string_injective _ _ hsplit.1, to_string_injective _ _ hsplit.2⟩

theorem length_toList_le_one {α : Type} (o : Option α) : o.toList.length ≤ 1 := by
  cases o <;> simp

theorem cleanPointing_zero_phi (dec : Rat) : (cleanPointing 0 dec).phi = 0 := by
  norm_num [cleanPointing, fmod, truncToZero, deg2rad]

theorem neighbourCell_spec (t : TDengineQueryTester) (pt : pointing) (d_theta d_phi x : Int)
    (h : neighbourCell t pt d_theta d_phi = some x) :
    ¬ (d_theta = 0 ∧ d_phi = 0)
      ∧ 0 ≤ pt.theta + d_theta * PI / (2 * t.nside)
      ∧ pt.theta + d_theta * PI / (2 * t.nside) ≤ PI
      ∧ 0 ≤ pt.phi + d_phi * PI / (2 * t.nside)
      ∧ pt.phi + d_phi * PI / (2 * t.nside) < 2 * PI
      ∧ x = t.healpix_map.ang2pix
          { theta := pt.theta + d_theta * PI / (2 * t.nside),
            phi := pt.phi + d_phi * PI / (2 * t.nside) }
      ∧ 0 ≤ x ∧ x < t.healpix_map.Npix := by
  have hphi : (d_phi : Rat) * 2 * PI / (4 * (t.nside : Rat))
      = (d_phi : Rat) * PI / (2 * (t.nside : Rat)) := by
    by_cases hn : (t.nside : Rat) = 0
    · simp [hn]
    · field_simp
      ring
  unfold neighbourCell at h
  by_cases h0 : d_theta = (0 : Int) ∧ d_phi = (0 : Int)
  · simp only [if_pos h0] at h
    exact absurd h (by simp)
  · simp only [if_neg h0] at h
    by_cases h1 : pt.theta + d_theta * PI / (2 * t.nside) ≥ 0
        ∧ pt.theta + d_theta * PI / (2 * t.nside) ≤ PI
        ∧ pt.phi + d_phi * 2 * PI / (4 * t.nside) ≥ 0
        ∧ pt.phi + d_phi * 2 * PI / (4 * t.nside) < 2 * PI
    · simp only [if_pos h1] at h
      by_cases h2 : t.healpix_map.ang2pix
            { theta := pt.theta + d_theta * PI / (2 * t.nside),
              phi := pt.phi + d_phi * 2 * PI / (4 * t.nside) } ≥ 0
          ∧ t.healpix_map.ang2pix
            { theta := pt.theta + d_theta * PI / (2 * t.nside),
              phi := pt.phi + d_phi * 2 * PI / (4 * t.nside) } < t.healpix_map.Npix
      · simp only [if_pos h2, Option.some.injEq] at h
        rw [hphi] at h1 h2 h
        exact ⟨h0, h1.1, h1.2.1, h1.2.2.1, h1.2.2.2, h.symm, h ▸ h2.1, h ▸ h2.2⟩
      · simp only [if_neg h2] at h
        exact absurd h (by simp)
    · simp only [if_neg h1] at h
      exact absurd h (by simp)

theorem neighbourCell_phi_zero_left (t : TDengineQueryTester) (pt : pointing)
    (hn : 1 ≤ t.nside) (hphi : pt.phi = 0) (d_theta : Int) :
    neighbourCell t pt d_theta (-1) = none := by
  have hnq : (1 : Rat) ≤ (t.nside : Rat) := by exact_mod_cast hn
  have hneg : ¬ (pt.phi + ((-1 : Int) : Rat) * 2 * PI / (4 * (t.nside : Rat)) ≥ 0) := by
    rw [hphi, not_le]
    have hpos : 0 < 2 * PI / (4 * (t.nside : Rat)) :=
      div_pos (by linarith [PI_pos]) (by linarith)
    have heq : (0 : Rat) + ((-1 : Int) : Rat) * 2 * PI / (4 * (t.nside : Rat))
        = - (2 * PI / (4 * (t.nside : Rat))) := by
      push_cast
      ring
    rw [heq]
    linarith
  unfold neighbourCell
  have h0 : ¬ (d_theta = (0 : Int) ∧ (-1 : Int) = (0 : Int)) := by
    intro h
    exact absurd h.2 (by decide)
  simp only [if_neg h0]
  have h1 : ¬ (pt.theta + d_theta * PI / (2 * t.nside) ≥ 0
      ∧ pt.theta + d_theta * PI / (2 * t.nside) ≤ PI
      ∧ pt.phi + ((-1 : Int) : Rat) * 2 * PI / (4 * t.nside) ≥ 0
      ∧ pt.phi + ((-1 : Int) : Rat) * 2 * PI / (4 * t.nside) < 2 * PI) :=
    fun h => hneg h.2.2.1
  simp only [if_neg h1]

theorem length_candidates_phi_zero (t : TDengineQueryTester) (pt : pointing)
    (hn : 1 ≤ t.nside) (hphi : pt.phi = 0) :
    (neighbourOffsets.filterMap (fun d => neighbourCell t pt d.1 d.2)).length ≤ 5 := by
  have ha := neighbourCell_phi_zero_left t pt hn hphi (-1)
  have hb := neighbourCell_phi_zero_left t pt hn hphi 0
  have hc := neighbourCell_phi_zero_left t pt hn hphi 1
  have h1 := length_toList_le_one (neighbourCell t pt (-1) 0)
  have h2 := length_toList_le_one (neighbourCell t pt (-1) 1)
  have h3 := length_toList_le_one (neighbourCell t pt 0 1)
  have h4 := length_toList_le_one (neighbourCell t pt 1 0)
  have h5 := length_toList_le_one (neighbourCell t pt 1 1)
  simp only [neighbourOffsets, filterMap_cons_toList, List.filterMap_nil, List.length_append,
    List.length_nil, ha, hb, hc, Option.toList_none]
  omega

/-! ## Auxiliary lemmas: `double` arithmetic -/

theorem bitLengthAux_spec (fuel : Nat) :
    ∀ n : Nat, 0 < n → n ≤ fuel →
      ∃ b : Nat, bitLengthAux fuel n = b + 1 ∧ 2 ^ b ≤ n ∧ n < 2 ^ (b + 1) := by
  induction fuel with
  | zero =>
    intro n hn hle
    omega
  | succ fuel ih =>
    intro n hn hle
    have hne : n ≠ 0 := by omega
    by_cases h2 : n / 2 = 0
    · have h1 : n = 1 := by omega
      refine ⟨0, ?_, by omega, by omega⟩
      have hz : bitLengthAux fuel 0 = 0 := by
        cases fuel <;> simp [bitLengthAux]
      simp [bitLengthAux, hne, h2, hz]
    · obtain ⟨b, hb, hlo, hhi⟩ := ih (n / 2) (by omega) (by omega)
      refine ⟨b + 1, ?_, ?_, ?_⟩
      · simp [bitLengthAux, hne, hb]
      · rw [pow_succ]
        omega
      · rw [pow_succ]
        omega

theorem bitLength_spec (n : Nat) (hn : 0 < n) :
    ∃ b : Nat, bitLength n = b + 1 ∧ 2 ^ b ≤ n ∧ n < 2 ^ (b + 1) :=
  bitLengthAux_spec n n hn (le_refl n)

theorem floorLog2_spec (x : Rat) (hx : 0 < x) :
    (2 : Rat) ^ (floorLog2 x) ≤ x ∧ x < (2 : Rat) ^ (floorLog2 x + 1) := by
  have hnum : 0 < x.num := Rat.num_pos.mpr hx
  have hden : 0 < x.den := x.den_pos
  obtain ⟨bn, hbn, hnlo, hnhi⟩ := bitLength_spec x.num.natAbs (by omega)
  obtain ⟨bd, hbd, hdlo, hdhi⟩ := bitLength_spec x.den hden
  have hxeq : x = (x.num.natAbs : Rat) / (x.den : Rat) := by
    have h2 : (x.num.natAbs : Rat) = (x.num : Rat) := by
      rw [Nat.cast_natAbs, abs_of_pos hnum]
    rw [h2]
    exact (Rat.num_div_den x).symm
  have hdpos : (0 : Rat) < (x.den : Rat) := by exact_mod_cast hden
  have hk : ((bitLength x.num.natAbs : Int) - (bitLength x.den : Int)) = (bn : Int) - (bd : Int) := by
    rw [hbn, hbd]
    push_cast
    ring
  have hnloq : (2 : Rat) ^ bn ≤ (x.num.natAbs : Rat) := by exact_mod_cast hnlo
  have hnhiq : (x.num.natAbs : Rat) < (2 : Rat) ^ (bn + 1) := by exact_mod_cast hnhi
  have hdloq : (2 : Rat) ^ bd ≤ (x.den : Rat) := by exact_mod_cast hdlo
  have hdhiq : (x.den : Rat) < (2 : Rat) ^ (bd + 1) := by exact_mod_cast hdhi
  have h2pos : ∀ j : Nat, (0 : Rat) < (2 : Rat) ^ j := fun j => by positivity
  -- upper bound: x < 2 ^ (k + 1)
  have hup : x < (2 : Rat) ^ ((bn : Int) - (bd : Int) + 1) := by
    have he : (2 : Rat) ^ ((bn : Int) - (bd : Int) + 1) = (2 : Rat) ^ (bn + 1) / (2 : Rat) ^ bd := by
      have : ((bn : Int) - (bd : Int) + 1) = ((bn + 1 : Nat) : Int) - ((bd : Nat) : Int) := by
        push_cast
        ring
      rw [this, zpow_sub₀ (by norm_num : (2 : Rat) ≠ 0), zpow_natCast, zpow_natCast]
    rw [he, hxeq, div_lt_div_iff₀ hdpos (h2pos bd)]
    calc (x.num.natAbs : Rat) * (2 : Rat) ^ bd
        < (2 : Rat) ^ (bn + 1) * (2 : Rat) ^ bd :=
          mul_lt_mul_of_pos_right hnhiq (h2pos bd)
      _ ≤ (2 : Rat) ^ (bn + 1) * (x.den : Rat) :=
          mul_le_mul_of_nonneg_left hdloq (h2pos (bn + 1)).le
  -- lower bound: 2 ^ (k - 1) ≤ x
  have hlow : (2 : Rat) ^ ((bn : Int) - (bd : Int) - 1) ≤ x := by
    have he : (2 : Rat) ^ ((bn : Int) - (bd : Int) - 1) = (2 : Rat) ^ bn / (2 : Rat) ^ (bd + 1) := by
      have : ((bn : Int) - (bd : Int) - 1) = ((bn : Nat) : Int) - ((bd + 1 : Nat) : Int) := by
        push_cast
        ring
      rw [this, zpow_sub₀ (by norm_num : (2 : Rat) ≠ 0), zpow_natCast, zpow_natCast]
    rw [he, hxeq, div_le_div_iff₀ (h2pos (bd + 1)) hdpos]
    calc (2 : Rat) ^ bn * (x.den : Rat)
        ≤ (x.num.natAbs : Rat) * (x.den : Rat) :=
          mul_le_mul_of_nonneg_right hnloq hdpos.le
      _ ≤ (x.num.natAbs : Rat) * (2 : Rat) ^ (bd + 1) :=
          mul_le_mul_of_nonneg_left hdhiq.le (by positivity)
  unfold floorLog2
  simp only [hk]
  by_cases hc : (2 : Rat) ^ ((bn : Int) - (bd : Int)) ≤ x
  · rw [if_pos hc]
    exact ⟨hc, hup⟩
  · rw [if_neg hc]
    refine ⟨hlow, ?_⟩
    have : ((bn : Int) - (bd : Int) - 1 + 1) = (bn : Int) - (bd : Int) := by ring
    rw [this]
    exact not_le.mp hc

theorem roundHalfEven_intCast (z : Int) : roundHalfEven (z : Rat) = z := by
  unfold roundHalfEven
  simp

theorem floor_le_roundHalfEven (x : Rat) : Int.floor x ≤ roundHalfEven x := by
  unfold roundHalfEven
  simp only []
  split_ifs <;> omega

theorem roundHalfEven_le_floor_add_one (x : Rat) : roundHalfEven x ≤ Int.floor x + 1 := by
  unfold roundHalfEven
  simp only []
  split_ifs <;> omega

theorem roundHalfEven_mono (x y : Rat) (h : x ≤ y) : roundHalfEven x ≤ roundHalfEven y := by
  have hf : Int.floor x ≤ Int.floor y := Int.floor_mono h
  rcases lt_or_eq_of_le hf with hlt | heq
  · calc roundHalfEven x ≤ Int.floor x + 1 := roundHalfEven_le_floor_add_one x
      _ ≤ Int.floor y := by omega
      _ ≤ roundHalfEven y := floor_le_roundHalfEven y
  · unfold roundHalfEven
    simp only []
    rw [heq]
    have hxy : x - (Int.floor y : Rat) ≤ y - (Int.floor y : Rat) := by linarith
    split_ifs <;> first | omega | (exfalso; linarith)

theorem le_roundHalfEven_of_intCast_le (z : Int) (x : Rat) (h : (z : Rat) ≤ x) :
    z ≤ roundHalfEven x := by
  have := roundHalfEven_mono _ _ h
  rwa [roundHalfEven_intCast] at this

theorem roundHalfEven_le_of_le_intCast (z : Int) (x : Rat) (h : x ≤ (z : Rat)) :
    roundHalfEven x ≤ z := by
  have := roundHalfEven_mono _ _ h
  rwa [roundHalfEven_intCast] at this

theorem two_zpow_pos (e : Int) : (0 : Rat) < (2 : Rat) ^ e := by positivity

theorem two_zpow_add (a b : Int) : (2 : Rat) ^ (a + b) = (2 : Rat) ^ a * (2 : Rat) ^ b :=
  zpow_add₀ (by norm_num) a b

theorem scaled_bounds (x : Rat) (hx : 0 < x) :
    (2 : Rat) ^ (52 : Int) * (2 : Rat) ^ (floorLog2 x - 52) ≤ x
      ∧ x < (2 : Rat) ^ (53 : Int) * (2 : Rat) ^ (floorLog2 x - 52) := by
  have h := floorLog2_spec x hx
  have e1 : (2 : Rat) ^ (52 : Int) * (2 : Rat) ^ (floorLog2 x - 52) = (2 : Rat) ^ (floorLog2 x) := by
    rw [← two_zpow_add]
    congr 1
    ring
  have e2 : (2 : Rat) ^ (53 : Int) * (2 : Rat) ^ (floorLog2 x - 52)
      = (2 : Rat) ^ (floorLog2 x + 1) := by
    rw [← two_zpow_add]
    congr 1
    ring
  rw [e1, e2]
  exact h

theorem roundPositive_ge (x : Rat) (hx : 0 < x) :
    (2 : Rat) ^ (52 : Int) * (2 : Rat) ^ (floorLog2 x - 52) ≤ roundPositive x := by
  have hb := (scaled_bounds x hx).1
  have hpos := two_zpow_pos (floorLog2 x - 52)
  have h1 : (((2 : Int) ^ 52 : Int) : Rat) ≤ x / (2 : Rat) ^ (floorLog2 x - 52) := by
    rw [le_div_iff₀ hpos]
    have : (((2 : Int) ^ 52 : Int) : Rat) = (2 : Rat) ^ (52 : Int) := by norm_num
    rw [this]
    exact hb
  have h2 := le_roundHalfEven_of_intCast_le _ _ h1
  have h3 : (((2 : Int) ^ 52 : Int) : Rat)
      ≤ (roundHalfEven (x / (2 : Rat) ^ (floorLog2 x - 52)) : Rat) := by exact_mod_cast h2
  have h4 : (((2 : Int) ^ 52 : Int) : Rat) = (2 : Rat) ^ (52 : Int) := by norm_num
  rw [h4] at h3
  unfold roundPositive
  exact mul_le_mul_of_nonneg_right h3 hpos.le

theorem roundPositive_le (x : Rat) (hx : 0 < x) :
    roundPositive x ≤ (2 : Rat) ^ (53 : Int) * (2 : Rat) ^ (floorLog2 x - 52) := by
  have hb := (scaled_bounds x hx).2
  have hpos := two_zpow_pos (floorLog2 x - 52)
  have h1 : x / (2 : Rat) ^ (floorLog2 x - 52) ≤ (((2 : Int) ^ 53 : Int) : Rat) := by
    rw [div_le_iff₀ hpos]
    have : (((2 : Int) ^ 53 : Int) : Rat) = (2 : Rat) ^ (53 : Int) := by norm_num
    rw [this]
    exact hb.le
  have h2 := roundHalfEven_le_of_le_intCast _ _ h1
  have h3 : (roundHalfEven (x / (2 : Rat) ^ (floorLog2 x - 52)) : Rat)
      ≤ (((2 : Int) ^ 53 : Int) : Rat) := by exact_mod_cast h2
  have h4 : (((2 : Int) ^ 53 : Int) : Rat) = (2 : Rat) ^ (53 : Int) := by norm_num
  rw [h4] at h3
  unfold roundPositive
  exact mul_le_mul_of_nonneg_right h3 hpos.le

theorem roundPositive_pos (x : Rat) (hx : 0 < x) : 0 < roundPositive x :=
  lt_of_lt_of_le (mul_pos (two_zpow_pos 52) (two_zpow_pos _)) (roundPositive_ge x hx)

theorem floorLog2_mono (x y : Rat) (hx : 0 < x) (hxy : x ≤ y) :
    floorLog2 x ≤ floorLog2 y := by
  have h1 := (floorLog2_spec x hx).1
  have h2 := (floorLog2_spec y (lt_of_lt_of_le hx hxy)).2
  have h3 : (2 : Rat) ^ (floorLog2 x) < (2 : Rat) ^ (floorLog2 y + 1) :=
    lt_of_le_of_lt (le_trans h1 hxy) h2
  rw [zpow_lt_zpow_iff_right₀ (by norm_num : (1 : Rat) < 2)] at h3
  omega

theorem roundPositive_mono (x y : Rat) (hx : 0 < x) (hxy : x ≤ y) :
    roundPositive x ≤ roundPositive y := by
  have hy : 0 < y := lt_of_lt_of_le hx hxy
  rcases lt_or_eq_of_le (floorLog2_mono x y hx hxy) with hlt | heq
  · calc roundPositive x
        ≤ (2 : Rat) ^ (53 : Int) * (2 : Rat) ^ (floorLog2 x - 52) := roundPositive_le x hx
      _ = (2 : Rat) ^ (floorLog2 x + 1) := by
          rw [← two_zpow_add]
          congr 1
          ring
      _ ≤ (2 : Rat) ^ (floorLog2 y) :=
          zpow_le_zpow_right₀ (by norm_num) (by omega)
      _ = (2 : Rat) ^ (52 : Int) * (2 : Rat) ^ (floorLog2 y - 52) := by
          rw [← two_zpow_add]
          congr 1
          ring
      _ ≤ roundPositive y := roundPositive_ge y hy
  · unfold roundPositive
    simp only []
    rw [heq]
    have hpos := two_zpow_pos (floorLog2 y - 52)
    have hdiv : x / (2 : Rat) ^ (floorLog2 y - 52) ≤ y / (2 : Rat) ^ (floorLog2 y - 52) :=
      div_le_div_of_nonneg_right hxy hpos.le
    have hr := roundHalfEven_mono _ _ hdiv
    have hr2 : (roundHalfEven (x / (2 : Rat) ^ (floorLog2 y - 52)) : Rat)
        ≤ (roundHalfEven (y / (2 : Rat) ^ (floorLog2 y - 52)) : Rat) := by exact_mod_cast hr
    exact mul_le_mul_of_nonneg_right hr2 hpos.le

theorem roundPositive_fix (x : Rat) (hx : 0 < x) (m e : Int) (hm : |m| < 2 ^ 53)
    (hxm : x = (m : Rat) * (2 : Rat) ^ e) : roundPositive x = x := by
  have hlow := (scaled_bounds x hx).1
  have hmq : (m : Rat) < (2 : Rat) ^ (53 : Int) := by
    have h1 : m < 2 ^ 53 := lt_of_le_of_lt (le_abs_self m) hm
    have h2 : (m : Rat) < ((2 ^ 53 : Int) : Rat) := by exact_mod_cast h1
    have h3 : ((2 ^ 53 : Int) : Rat) = (2 : Rat) ^ (53 : Int) := by norm_num
    rw [h3] at h2
    exact h2
  have hxlt : x < (2 : Rat) ^ (53 : Int) * (2 : Rat) ^ e := by
    rw [hxm]
    exact mul_lt_mul_of_pos_right hmq (two_zpow_pos e)
  have hexp : floorLog2 x - 52 ≤ e := by
    have h1 : (2 : Rat) ^ (52 : Int) * (2 : Rat) ^ (floorLog2 x - 52)
        < (2 : Rat) ^ (53 : Int) * (2 : Rat) ^ e := lt_of_le_of_lt hlow hxlt
    rw [← two_zpow_add, ← two_zpow_add,
      zpow_lt_zpow_iff_right₀ (by norm_num : (1 : Rat) < 2)] at h1
    omega
  obtain ⟨j, hj⟩ : ∃ j : Nat, e = (floorLog2 x - 52) + (j : Int) :=
    ⟨(e - (floorLog2 x - 52)).toNat, by omega⟩
  have hpos := two_zpow_pos (floorLog2 x - 52)
  have hscaled : x / (2 : Rat) ^ (floorLog2 x - 52) = ((m * 2 ^ j : Int) : Rat) := by
    rw [div_eq_iff hpos.ne']
    conv_lhs => rw [hxm, hj, two_zpow_add, zpow_natCast]
    push_cast
    ring
  unfold roundPositive
  simp only []
  rw [hscaled, roundHalfEven_intCast]
  conv_rhs => rw [hxm, hj, two_zpow_add, zpow_natCast]
  push_cast
  ring

theorem roundDouble_of_pos (q : Rat) (hq : 0 < q) : roundDouble q = roundPositive q := by
  unfold roundDouble
  rw [if_neg hq.ne', if_neg (not_lt.mpr hq.le)]

theorem roundDouble_of_neg (q : Rat) (hq : q < 0) : roundDouble q = - roundPositive (-q) := by
  unfold roundDouble
  rw [if_neg hq.ne, if_pos hq]

theorem roundDouble_zero : roundDouble 0 = 0 := by
  unfold roundDouble
  rw [if_pos rfl]

theorem roundDouble_mono (x y : Rat) (hxy : x ≤ y) : roundDouble x ≤ roundDouble y := by
  rcases lt_trichotomy x 0 with hx | hx | hx
  · rw [roundDouble_of_neg x hx]
    have hxpos := roundPositive_pos (-x) (by linarith)
    rcases lt_trichotomy y 0 with hy | hy | hy
    · rw [roundDouble_of_neg y hy]
      have := roundPositive_mono (-y) (-x) (by linarith) (by linarith)
      linarith
    · rw [hy, roundDouble_zero]
      linarith
    · rw [roundDouble_of_pos y hy]
      have := roundPositive_pos y hy
      linarith
  · rw [hx, roundDouble_zero]
    rcases lt_or_eq_of_le (hx ▸ hxy) with hy | hy
    · rw [roundDouble_of_pos y hy]
      exact (roundPositive_pos y hy).le
    · rw [← hy, roundDouble_zero]
  · have hy : 0 < y := lt_of_lt_of_le hx hxy
    rw [roundDouble_of_pos x hx, roundDouble_of_pos y hy]
    exact roundPositive_mono x y hx hxy

theorem roundDouble_fix (x : Rat) (hx : isDouble x) : roundDouble x = x := by
  obtain ⟨m, e, hm, _, _, hxm⟩ := hx
  rcases lt_trichotomy x 0 with h | h | h
  · rw [roundDouble_of_neg x h]
    have hneg : -x = ((-m : Int) : Rat) * (2 : Rat) ^ e := by
      rw [hxm]
      push_cast
      ring
    rw [roundPositive_fix (-x) (by linarith) (-m) e (by rwa [abs_neg]) hneg]
    ring
  · rw [h, roundDouble_zero]
  · rw [roundDouble_of_pos x h]
    exact roundPositive_fix x h m e hm hxm

theorem binary64_faithful : binary64.Faithful :=
  ⟨roundDouble_mono, roundDouble_fix⟩

theorem exactArithmetic_faithful : exactArithmetic.Faithful :=
  ⟨fun _ _ h => h, fun _ _ => rfl⟩

theorem isDouble_intCast (z : Int) (hz : |z| < 2 ^ 53) : isDouble (z : Rat) :=
  ⟨z, 0, hz, by norm_num, by norm_num, by simp⟩

theorem rnd_intCast (fp : DoubleArithmetic) (hfp : fp.Faithful) (z : Int)
    (hz : |z| < 2 ^ 53) : fp.rnd (z : Rat) = z :=
  hfp.2 _ (isDouble_intCast z hz)

theorem rnd_zero (fp : DoubleArithmetic) (hfp : fp.Faithful) : fp.rnd 0 = 0 := by
  have h := rnd_intCast fp hfp 0 (by norm_num)
  simpa using h

theorem rnd_PI_ge (fp : DoubleArithmetic) (hfp : fp.Faithful) : 3 ≤ fp.rnd PI := by
  have h3 : fp.rnd ((3 : Int) : Rat) = ((3 : Int) : Rat) := rnd_intCast fp hfp 3 (by norm_num)
  have hmono := hfp.1 ((3 : Int) : Rat) PI (by norm_num [PI])
  rw [h3] at hmono
  exact_mod_cast hmono

theorem rnd_small_negative (fp : DoubleArithmetic) (hfp : fp.Faithful) (q : Rat)
    (hq : q ≤ -(1 / 2 ^ 31)) : fp.rnd q ≤ -(1 / 2 ^ 31) := by
  have hd : isDouble (-(1 / 2 ^ 31) : Rat) :=
    ⟨-1, -31, by norm_num, by norm_num, by norm_num, by norm_num⟩
  have h := hfp.1 q _ hq
  rwa [hfp.2 _ hd] at h

theorem cleanPointingDouble_zero_phi (fp : DoubleArithmetic) (hfp : fp.Faithful) (dec : Rat) :
    (cleanPointingDouble fp 0 dec).phi = 0 := by
  have h0 := rnd_zero fp hfp
  have hf : fmod 0 360 = 0 := by norm_num [fmod, truncToZero]
  show deg2radDouble fp (if fmod 0 360 < 0 then fp.rnd (fmod 0 360 + 360) else fmod 0 360) = 0
  rw [hf, if_neg (lt_irrefl 0)]
  unfold deg2radDouble
  rw [zero_mul, h0, zero_div, h0]

theorem neighbourCellDouble_eq_some_iff (fp : DoubleArithmetic) (t : TDengineQueryTester)
    (pt : pointing) (d_theta d_phi x : Int) :
    neighbourCellDouble fp t pt d_theta d_phi = some x
      ↔ ¬ (d_theta = 0 ∧ d_phi = 0)
        ∧ 0 ≤ fp.rnd (pt.theta
            + fp.rnd (fp.rnd ((d_theta : Rat) * fp.rnd PI) / fp.rnd (2 * (t.nside : Rat))))
        ∧ fp.rnd (pt.theta
            + fp.rnd (fp.rnd ((d_theta : Rat) * fp.rnd PI) / fp.rnd (2 * (t.nside : Rat))))
            ≤ fp.rnd PI
        ∧ 0 ≤ fp.rnd (pt.phi
            + fp.rnd (fp.rnd (fp.rnd ((d_phi : Rat) * 2) * fp.rnd PI)
                / fp.rnd (4 * (t.nside : Rat))))
        ∧ fp.rnd (pt.phi
            + fp.rnd (fp.rnd (fp.rnd ((d_phi : Rat) * 2) * fp.rnd PI)
                / fp.rnd (4 * (t.nside : Rat))))
            < fp.rnd (2 * fp.rnd PI)
        ∧ x = t.healpix_map.ang2pix
            { theta := fp.rnd (pt.theta
                + fp.rnd (fp.rnd ((d_theta : Rat) * fp.rnd PI) / fp.rnd (2 * (t.nside : Rat)))),
              phi := fp.rnd (pt.phi
                + fp.rnd (fp.rnd (fp.rnd ((d_phi : Rat) * 2) * fp.rnd PI)
                    / fp.rnd (4 * (t.nside : Rat)))) }
        ∧ 0 ≤ x ∧ x < t.healpix_map.Npix := by
  unfold neighbourCellDouble
  by_cases h0 : d_theta = (0 : Int) ∧ d_phi = (0 : Int)
  · simp only [if_pos h0]
    constructor
    · intro h
      exact absurd h (by simp)
    · intro h
      exact absurd h0 h.1
  · simp only [if_neg h0]
    by_cases h1 : fp.rnd (pt.theta
            + fp.rnd (fp.rnd ((d_theta : Rat) * fp.rnd PI) / fp.rnd (2 * (t.nside : Rat)))) ≥ 0
        ∧ fp.rnd (pt.theta
            + fp.rnd (fp.rnd ((d_theta : Rat) * fp.rnd PI) / fp.rnd (2 * (t.nside : Rat))))
            ≤ fp.rnd PI
        ∧ fp.rnd (pt.phi
            + fp.rnd (fp.rnd (fp.rnd ((d_phi : Rat) * 2) * fp.rnd PI)
                / fp.rnd (4 * (t.nside : Rat)))) ≥ 0
        ∧ fp.rnd (pt.phi
            + fp.rnd (fp.rnd (fp.rnd ((d_phi : Rat) * 2) * fp.rnd PI)
                / fp.rnd (4 * (t.nside : Rat))))
            < fp.rnd (2 * fp.rnd PI)
    · simp only [if_pos h1]
      by_cases h2 : t.healpix_map.ang2pix
            { theta := fp.rnd (pt.theta
                + fp.rnd (fp.rnd ((d_theta : Rat) * fp.rnd PI) / fp.rnd (2 * (t.nside : Rat)))),
              phi := fp.rnd (pt.phi
                + fp.rnd (fp.rnd (fp.rnd ((d_phi : Rat) * 2) * fp.rnd PI)
                    / fp.rnd (4 * (t.nside : Rat)))) } ≥ 0
          ∧ t.healpix_map.ang2pix
            { theta := fp.rnd (pt.theta
                + fp.rnd (fp.rnd ((d_theta : Rat) * fp.rnd PI) / fp.rnd (2 * (t.nside : Rat)))),
              phi := fp.rnd (pt.phi
                + fp.rnd (fp.rnd (fp.rnd ((d_phi : Rat) * 2) * fp.rnd PI)
                    / fp.rnd (4 * (t.nside : Rat)))) } < t.healpix_map.Npix
      · simp only [if_pos h2, Option.some.injEq]
        constructor
        · intro h
          exact ⟨h0, h1.1, h1.2.1, h1.2.2.1, h1.2.2.2, h.symm, h ▸ h2.1, h ▸ h2.2⟩
        · intro h
          exact h.2.2.2.2.2.1.symm
      · simp only [if_neg h2]
        constructor
        · intro h
          exact absurd h (by simp)
        · intro h
          exfalso
          apply h2
          rw [← h.2.2.2.2.2.1]
          exact ⟨h.2.2.2.2.2.2.1, h.2.2.2.2.2.2.2⟩
    · simp only [if_neg h1]
      constructor
      · intro h
        exact absurd h (by simp)
      · intro h
        exact absurd ⟨h.2.1, h.2.2.1, h.2.2.2.1, h.2.2.2.2.1⟩ h1

theorem neighbourCellDouble_phi_zero_left (fp : DoubleArithmetic) (hfp : fp.Faithful)
    (t : TDengineQueryTester) (pt : pointing) (hn : 1 ≤ t.nside) (hint : t.nside < 2 ^ 31)
    (hphi : pt.phi = 0) (d_theta : Int) :
    neighbourCellDouble fp t pt d_theta (-1) = none := by
  have hpi := rnd_PI_ge fp hfp
  have hm2 : fp.rnd (((-1 : Int) : Rat) * 2) = -2 := by
    have h := rnd_intCast fp hfp (-2) (by norm_num)
    have e : ((-1 : Int) : Rat) * 2 = ((-2 : Int) : Rat) := by norm_num
    rw [e, h]
    norm_num
  have hnum : fp.rnd (-2 * fp.rnd PI) ≤ -6 := by
    have h6 : fp.rnd ((-6 : Int) : Rat) = ((-6 : Int) : Rat) :=
      rnd_intCast fp hfp (-6) (by norm_num)
    have hmono := hfp.1 (-2 * fp.rnd PI) ((-6 : Int) : Rat) (by push_cast; linarith)
    rw [h6] at hmono
    exact_mod_cast hmono
  have hden : fp.rnd (4 * (t.nside : Rat)) = 4 * (t.nside : Rat) := by
    have h := rnd_intCast fp hfp (4 * t.nside) (by rw [abs_lt]; constructor <;> omega)
    push_cast at h
    exact h
  have hnq1 : (1 : Rat) ≤ (t.nside : Rat) := by exact_mod_cast hn
  have hnq2 : (t.nside : Rat) < 2 ^ 31 := by exact_mod_cast hint
  have hquot : fp.rnd (-2 * fp.rnd PI) / (4 * (t.nside : Rat)) ≤ -(1 / 2 ^ 31) := by
    rw [div_le_iff₀ (by linarith)]
    have : -(1 / 2 ^ 31 : Rat) * (4 * (t.nside : Rat)) ≥ -4 := by
      have h1 : (1 / 2 ^ 31 : Rat) * (4 * (t.nside : Rat)) ≤ 4 := by
        rw [one_div, inv_mul_le_iff₀ (by positivity)]
        nlinarith
      linarith
    linarith
  have hq := rnd_small_negative fp hfp _ hquot
  have hsum := rnd_small_negative fp hfp
    (pt.phi + fp.rnd (fp.rnd (-2 * fp.rnd PI) / (4 * (t.nside : Rat))))
    (by rw [hphi, zero_add]; exact hq)
  have hneg : ¬ (fp.rnd (pt.phi
      + fp.rnd (fp.rnd (fp.rnd (((-1 : Int) : Rat) * 2) * fp.rnd PI)
          / fp.rnd (4 * (t.nside : Rat)))) ≥ 0) := by
    rw [hm2, hden, not_le]
    have : (0 : Rat) < 1 / 2 ^ 31 := by positivity
    linarith
  cases hcell : neighbourCellDouble fp t pt d_theta (-1) with
  | none => rfl
  | some x =>
    have h := (neighbourCellDouble_eq_some_iff fp t pt d_theta (-1) x).mp hcell
    exact absurd h.2.2.2.1 hneg

theorem nearestHealpixIdsDouble_eq (fp : DoubleArithmetic) (t : TDengineQueryTester)
    (ra dec : Rat) :
    nearestHealpixIdsDouble fp t ra dec
      = t.healpix_map.ang2pix (cleanPointingDouble fp ra dec)
          :: ([(-1, -1), (-1, 0), (-1, 1), (0, -1), (0, 1), (1, -1), (1, 0), (1, 1)] :
                List (Int × Int)).filterMap (fun d =>
              neighbourCellDouble fp t (cleanPointingDouble fp ra dec) d.1 d.2) := by
  have hpush : ∀ (o : Option Int) (healpix_ids : List Int),
      (match o with
        | some neighbor_id => healpix_ids ++ [neighbor_id]
        | none => healpix_ids) = healpix_ids ++ o.toList := by
    intro o healpix_ids
    cases o <;> simp
  have h00 : neighbourCellDouble fp t (cleanPointingDouble fp ra dec) 0 0 = none := by
    simp [neighbourCellDouble]
  unfold nearestHealpixIdsDouble
  simp only [hpush]
  simp only [List.foldl, filterMap_cons_toList, List.filterMap_nil, h00, Option.toList,
    List.append_nil, List.append_assoc, List.singleton_append]
  rfl

theorem length_candidates_double_phi_zero (fp : DoubleArithmetic) (hfp : fp.Faithful)
    (t : TDengineQueryTester) (pt : pointing) (hn : 1 ≤ t.nside) (hint : t.nside < 2 ^ 31)
    (hphi : pt.phi = 0) :
    ((([(-1, -1), (-1, 0), (-1, 1), (0, -1), (0, 1), (1, -1), (1, 0), (1, 1)] :
        List (Int × Int)).filterMap (fun d =>
          neighbourCellDouble fp t pt d.1 d.2)).length) ≤ 5 := by
  have ha := neighbourCellDouble_phi_zero_left fp hfp t pt hn hint hphi (-1)
  have hb := neighbourCellDouble_phi_zero_left fp hfp t pt hn hint hphi 0
  have hc := neighbourCellDouble_phi_zero_left fp hfp t pt hn hint hphi 1
  have h1 := length_toList_le_one (neighbourCellDouble fp t pt (-1) 0)
  have h2 := length_toList_le_one (neighbourCellDouble fp t pt (-1) 1)
  have h3 := length_toList_le_one (neighbourCellDouble fp t pt 0 1)
  have h4 := length_toList_le_one (neighbourCellDouble fp t pt 1 0)
  have h5 := length_toList_le_one (neighbourCellDouble fp t pt 1 1)
  simp only [filterMap_cons_toList, List.filterMap_nil, List.length_append,
    List.length_nil, ha, hb, hc, Option.toList_none]
  omega

theorem neighbourCellDouble_exact (t : TDengineQueryTester) (pt : pointing)
    (d_theta d_phi : Int) :
    neighbourCellDouble exactArithmetic t pt d_theta d_phi = neighbourCell t pt d_theta d_phi := by
  unfold neighbourCellDouble neighbourCell exactArithmetic
  rfl

theorem nearestHealpixIdsDouble_exact (t : TDengineQueryTester) (ra dec : Rat) :
    nearestHealpixIdsDouble exactArithmetic t ra dec = nearestHealpixIds t ra dec := by
  rw [nearestHealpixIdsDouble_eq, nearestHealpixIds_eq]
  have hpt : cleanPointingDouble exactArithmetic ra dec = cleanPointing ra dec := rfl
  rw [hpt]
  simp only [neighbourCellDouble_exact]
  rfl

theorem nearestHealpixIdsDouble_at_boundary :
    nearestHealpixIdsDouble binary64 sampleTester32 (5715 / 16) 0
        = [199, 197, 199, 201, 197, 201, 197, 199, 201]
      ∧ nearestHealpixIds sampleTester32 (5715 / 16) 0 = [199, 197, 199, 197, 197, 199] := by
  constructor <;> decide!

/-! ## The claims, concluded -/

/-- C21: for every input, over exact arithmetic, the normalised position satisfies
`0 ≤ ra < 360` and `-90 ≤ dec ≤ 90`, so the direction handed to the tessellation has
colatitude `90 - dec` in `[0, 180]` degrees and longitude `ra` in `[0, 360)` degrees,
that is `theta` in `[0, PI]` and `phi` in `[0, 2 PI)`. -/
theorem normalized_position_in_range (ra dec : Rat) :
    (0 ≤ (normalizeImport ra dec).1 ∧ (normalizeImport ra dec).1 < 360)
      ∧ (-90 ≤ (normalizeImport ra dec).2 ∧ (normalizeImport ra dec).2 ≤ 90)
      ∧ (0 ≤ 90 - (normalizeImport ra dec).2 ∧ 90 - (normalizeImport ra dec).2 ≤ 180)
      ∧ cleanPointing ra dec
          = { theta := deg2rad (90 - (normalizeImport ra dec).2),
              phi := deg2rad (normalizeImport ra dec).1 }
      ∧ (0 ≤ (cleanPointing ra dec).theta ∧ (cleanPointing ra dec).theta ≤ PI)
      ∧ (0 ≤ (cleanPointing ra dec).phi ∧ (cleanPointing ra dec).phi < 2 * PI) := by
  have hra := normalizeImport_fst_range ra dec
  have hdec := normalizeImport_snd_range ra dec
  have hpi := PI_pos
  have hpt := cleanPointing_eq_normalizeImport ra dec
  refine ⟨hra, hdec, ⟨by linarith, by linarith⟩, hpt, ?_, ?_⟩
  · rw [hpt]
    simp only [deg2rad]
    constructor
    · exact div_nonneg (mul_nonneg (by linarith) hpi.le) (by norm_num)
    · rw [div_le_iff₀ (by norm_num)]
      nlinarith
  · rw [hpt]
    simp only [deg2rad]
    constructor
    · exact div_nonneg (mul_nonneg hra.1 hpi.le) (by norm_num)
    · rw [div_lt_iff₀ (by norm_num)]
      nlinarith

/-- C22: within every task produced by the grouping step, the records are the input
records of the task's key in their input order: the task's record list is a
sublist of the input list. -/
theorem task_records_keep_input_order (records : List AstronomicalRecord) (t : ImportTask)
    (ht : t ∈ buildTaskQueue records) :
    t.records = records.filter (fun r => decide (r.key = t.key))
      ∧ List.Sublist t.records records := by
  have h := mem_buildTaskQueue_records records t ht
  refine ⟨h, ?_⟩
  rw [h]
  exact List.filter_sublist records

/-- C22 at an input of three records in two shards. -/
theorem task_records_keep_input_order_witness :
    sampleTaskOfTwo.records
        = [sampleRecord, sampleRecord2, sampleRecord].filter (fun r =>
            decide (r.key = sampleTaskOfTwo.key))
      ∧ List.Sublist sampleTaskOfTwo.records [sampleRecord, sampleRecord2, sampleRecord] :=
  task_records_keep_input_order [sampleRecord, sampleRecord2, sampleRecord] sampleTaskOfTwo
    (by
      have hq : buildTaskQueue [sampleRecord, sampleRecord2, sampleRecord]
          = [sampleTaskOfTwo,
             { healpix_id := 4, source_id := 8, records := [sampleRecord2] }] := rfl
      rw [hq]
      exact List.mem_cons_self _ _)

/-- C23: for every task with `n` records and every `batch_size ≥ 1`, after a
successful shard creation `processImportTask` issues exactly `ceil(n / batch_size)`
writes, in order; the batches are the consecutive slices of `task.records` that start
at the multiples of `batch_size`; every batch holds between 1 and `batch_size`
records, every batch but the last exactly `batch_size`; and the concatenation of the
batches is `task.records`. The batch loop of the single-connection `importData`
issues the same writes. -/
theorem processImportTask_batches (imp : TDengineHealpixImporter)
    (task : ImportTask) (out : StorageOutcome) (s : ImportState)
    (hbs : 1 ≤ imp.batch_size) (hpool : s.conn_pool.connections_ ≠ [])
    (hcreate : out.create_ok = true) :
    (∃ s1, processImportTask imp task out s = some s1
        ∧ s1.issued = s.issued
            ++ (Statement.createTable task.healpix_id task.source_id, true)
              :: (List.range (batchCount imp.batch_size task.records.length)).map (fun k =>
                  (Statement.insertRows task.healpix_id task.source_id
                    (batchRows imp.batch_size task.records k),
                   out.write_ok (k * imp.batch_size))))
      ∧ batchCount imp.batch_size task.records.length
          = Nat.ceil ((task.records.length : Rat) / (imp.batch_size : Rat))
      ∧ (∀ k, k < batchCount imp.batch_size task.records.length →
          batchRows imp.batch_size task.records k
              = (task.records.drop (k * imp.batch_size)).take imp.batch_size
            ∧ 1 ≤ (batchRows imp.batch_size task.records k).length
            ∧ (batchRows imp.batch_size task.records k).length ≤ imp.batch_size
            ∧ (k + 1 < batchCount imp.batch_size task.records.length →
                (batchRows imp.batch_size task.records k).length = imp.batch_size))
      ∧ ((List.range (batchCount imp.batch_size task.records.length)).map
            (batchRows imp.batch_size task.records)).flatten = task.records
      ∧ (∀ (storage : Int → Int → StorageOutcome)
            (st : ThreadSafeStats × List (Statement × Bool)),
          (storage task.healpix_id task.source_id).create_ok = true →
          ∃ st1, importGroupSingle imp.batch_size storage
                ((task.healpix_id, task.source_id), task.records) st = some st1
            ∧ st1.2 = st.2
                ++ (Statement.createTable task.healpix_id task.source_id, true)
                  :: (List.range (batchCount imp.batch_size task.records.length)).map
                      (fun k =>
                        (Statement.insertRows task.healpix_id task.source_id
                          (batchRows imp.batch_size task.records k),
                         (storage task.healpix_id task.source_id).write_ok
                           (k * imp.batch_size)))) := by
  obtain ⟨conn, rest, hp⟩ := List.exists_cons_of_ne_nil hpool
  have heff := processImportTask_effect imp task out s conn rest hbs hp
  refine ⟨⟨_, heff, ?_⟩, batchCount_eq_ceil _ _ hbs, ?_, flatten_batchRows _ _ hbs, ?_⟩
  · simp [taskStatements, hcreate]
  · intro k hk
    have hb := length_batchRows_bounds imp.batch_size task.records hbs k hk
    exact ⟨rfl, hb.1, hb.2.1, hb.2.2⟩
  · intro storage st hc
    exact importGroupSingle_issued imp.batch_size storage task.healpix_id task.source_id
      task.records st hbs hc

/-- C23 at the sample task in batches of 2. -/
theorem processImportTask_batches_witness :
    (1 ≤ sampleImporter.batch_size ∧ sampleState.conn_pool.connections_ ≠ []
        ∧ acceptingOutcome.create_ok = true)
      ∧ ((List.range (batchCount sampleImporter.batch_size sampleTask.records.length)).map
            (batchRows sampleImporter.batch_size sampleTask.records)).flatten
          = sampleTask.records :=
  ⟨⟨by decide, by decide, rfl⟩,
    (processImportTask_batches sampleImporter sampleTask acceptingOutcome sampleState
      (by decide) (by decide) rfl).2.2.2.1⟩

/-- C24: on the pool's state, `getConnection` proceeds exactly when a handle is
available and then removes and returns the front handle; so on a pool holding `N`
handles `N` successive acquires all proceed, hand out the handles in queue order and
leave the pool empty, where an acquire has to wait, as has the `(N+1)`-th acquire;
and an acquire right after a `returnConnection` proceeds. -/
theorem getConnection_proceeds_iff_available (pool : TDengineConnectionPool) (conn : Nat) :
    (pool.getConnection.isSome = true ↔ pool.connections_ ≠ [])
      ∧ (∀ front rest, pool.connections_ = front :: rest →
          pool.getConnection = some (front, { pool with connections_ := rest }))
      ∧ pool.getConnections pool.connections_.length
          = some (pool.connections_, { pool with connections_ := [] })
      ∧ TDengineConnectionPool.getConnection { pool with connections_ := [] } = none
      ∧ pool.getConnections (pool.connections_.length + 1) = none
      ∧ (pool.returnConnection conn).getConnection.isSome = true
      ∧ (pool.connections_ = [] →
          (pool.returnConnection conn).getConnection = some (conn, pool)) := by
  obtain ⟨conns, pool_size⟩ := pool
  refine ⟨?_, ?_, getConnections_all conns pool_size, rfl,
    getConnections_one_more conns pool_size, ?_, ?_⟩
  · cases conns <;> simp [TDengineConnectionPool.getConnection]
  · intro front rest h
    simp only at h
    subst h
    rfl
  · cases conns <;>
      simp [TDengineConnectionPool.getConnection, TDengineConnectionPool.returnConnection]
  · intro h
    simp only at h
    subst h
    rfl

/-- C25: the source-to-partition mapping built by `loadAndProcessData` has exactly one
entry per distinct `source_id` of the input, and the partition stored for a source is
the `healpix_id` assigned to the first record, in input order, with that
`source_id`. -/
theorem sourceHealpixMap_first_record (imp : TDengineHealpixImporter)
    (records : List AstronomicalRecord) :
    ((sourceHealpixMap (loadAndProcessData imp records)).map Prod.fst).Nodup
      ∧ (∀ sid, sid ∈ (sourceHealpixMap (loadAndProcessData imp records)).map Prod.fst
          ↔ ∃ r ∈ records, r.source_id = sid)
      ∧ List.Perm ((sourceHealpixMap (loadAndProcessData imp records)).map Prod.fst)
          (records.map (fun r => r.source_id)).dedup
      ∧ (∀ sid, mapFind (sourceHealpixMap (loadAndProcessData imp records)) sid
          = ((loadAndProcessData imp records).find? (fun r => decide (r.source_id = sid))).map
              (fun r => r.healpix_id))
      ∧ (∀ sid, mapFind (sourceHealpixMap (loadAndProcessData imp records)) sid
          = (records.find? (fun r => decide (r.source_id = sid))).map (fun r =>
              calculateAdaptiveHealpixId imp r.ra r.dec r.source_id
                (countBaseCells imp records))) := by
  have hkeys : ∀ sid, sid ∈ (sourceHealpixMap (loadAndProcessData imp records)).map Prod.fst
      ↔ ∃ r ∈ records, r.source_id = sid := by
    intro sid
    rw [mem_keys_sourceHealpixMap]
    unfold loadAndProcessData
    constructor
    · rintro ⟨r, hr, hrs⟩
      obtain ⟨r0, hr0, rfl⟩ := List.mem_map.mp hr
      exact ⟨r0, hr0, hrs⟩
    · rintro ⟨r, hr, hrs⟩
      exact ⟨_, List.mem_map.mpr ⟨r, hr, rfl⟩, hrs⟩
  refine ⟨nodup_keys_sourceHealpixMap _, hkeys, ?_, mapFind_sourceHealpixMap _, ?_⟩
  · rw [List.perm_ext_iff_of_nodup (nodup_keys_sourceHealpixMap _) (List.nodup_dedup _)]
    intro sid
    rw [hkeys, List.mem_dedup, List.mem_map]
  · intro sid
    rw [mapFind_sourceHealpixMap, find?_loadAndProcessData]
    cases records.find? (fun r => decide (r.source_id = sid)) <;> rfl

/-- C27: for every record of the loaded input, the population pass and the assignment
pass compute the same base cell for it, so the lookup of
`calculateAdaptiveHealpixId` in the snapshot finds an entry, whose count is the
population of the cell and at least 1: the lookup never misses. -/
theorem snapshot_lookup_hits (imp : TDengineHealpixImporter)
    (records : List AstronomicalRecord) (r : AstronomicalRecord) (hr : r ∈ records) :
    (∀ before : List AstronomicalRecord,
        countBaseCells imp (before ++ [r])
          = mapModify longLt 0 (fun c => c + 1) (countBaseCells imp before) (baseCell imp r))
      ∧ (∀ base_counts : List (Int × Int),
          calculateAdaptiveHealpixId imp r.ra r.dec r.source_id base_counts
            = if imp.count_threshold < snapshotCount base_counts (baseCell imp r)
              then compositeId (baseCell imp r) (fineCell imp r)
              else baseCell imp r)
      ∧ (∃ c : Int, mapFind (countBaseCells imp records) (baseCell imp r) = some c
          ∧ 1 ≤ c
          ∧ c = (cellPopulation imp records (baseCell imp r) : Int)
          ∧ snapshotCount (countBaseCells imp records) (baseCell imp r) = c)
      ∧ mapFind (countBaseCells imp records) (baseCell imp r) ≠ none := by
  have h := mapFind_countBaseCells_of_mem imp records r hr
  refine ⟨?_, ?_, ⟨_, h.1, by exact_mod_cast h.2, rfl, ?_⟩, ?_⟩
  · intro before
    unfold countBaseCells
    rw [List.foldl_append]
    rfl
  · intro base_counts
    exact calculateAdaptiveHealpixId_eq imp r.ra r.dec r.source_id base_counts
  · unfold snapshotCount
    rw [h.1]
  · rw [h.1]
    exact Option.some_ne_none _

/-- C27 at a one-record input. -/
theorem snapshot_lookup_hits_witness :
    sampleRecord3 ∈ [sampleRecord3]
      ∧ mapFind (countBaseCells sampleImporter [sampleRecord3])
          (baseCell sampleImporter sampleRecord3) ≠ none :=
  ⟨List.mem_singleton.mpr rfl,
    (snapshot_lookup_hits sampleImporter [sampleRecord3] sampleRecord3
      (List.mem_singleton.mpr rfl)).2.2.2⟩

/-- C28: `processImportTask` returns the handle it acquired exactly once on every
path that returns: after the call the handle taken from the front of the queue is at
its back, so the pool holds the same handles, and as many, as before. The call
returns when the shard creation fails, and when `batch_size ≥ 1` whatever the
outcomes of the batches. -/
theorem processImportTask_returns_connection (imp : TDengineHealpixImporter)
    (task : ImportTask) (out : StorageOutcome) (s : ImportState) (conn : Nat)
    (rest : List Nat) (hpool : s.conn_pool.connections_ = conn :: rest) :
    (∀ s1, processImportTask imp task out s = some s1 →
        s1.conn_pool.connections_ = rest ++ [conn]
          ∧ s1.conn_pool.connections_.length = s.conn_pool.connections_.length
          ∧ List.Perm s1.conn_pool.connections_ s.conn_pool.connections_
          ∧ s1.conn_pool.pool_size_ = s.conn_pool.pool_size_)
      ∧ (out.create_ok = false → ∃ s1, processImportTask imp task out s = some s1)
      ∧ (1 ≤ imp.batch_size → ∃ s1, processImportTask imp task out s = some s1) := by
  refine ⟨?_, ?_, ?_⟩
  · intro s1 hrun
    have h := processImportTask_pool_after imp task out s s1 conn rest hpool hrun
    rw [h, hpool]
    refine ⟨rfl, by simp, ?_, rfl⟩
    exact List.perm_append_singleton conn rest
  · intro hc
    exact ⟨_, processImportTask_create_failed imp task out s conn rest hpool hc⟩
  · intro hbs
    exact ⟨_, processImportTask_effect imp task out s conn rest hbs hpool⟩

/-- C28 at a pool of two handles, for a task whose first batch fails. -/
theorem processImportTask_returns_connection_witness :
    sampleState.conn_pool.connections_ = 0 :: [1]
      ∧ ∃ s1, processImportTask sampleImporter sampleTask firstBatchFailsOutcome sampleState
          = some s1 :=
  ⟨rfl,
    (processImportTask_returns_connection sampleImporter sampleTask firstBatchFailsOutcome
      sampleState 0 [1] rfl).2.2 (by decide)⟩

/-- C30: the cache key `(healpix_id << 32) | source_id` of the optimized importer is
not injective over the planner's partition ids: the shift drops the base cell of a
composite id, so the composite id `(b << 32) + f` has the key of the plain id `f`.
On `sampleCatalog` the planner produces the shards `(16, 7)` and `(4294967312, 7)`,
both keys are equal, and the second task is handed the statement that was prepared
for the first shard. -/
theorem tableKey_drops_base_cell :
    (∀ b f source_id : Int, tableKey (b * 2 ^ 32 + f) source_id = tableKey f source_id)
      ∧ compositeId 1 16 = 4294967312
      ∧ loadAndProcessData wideImporter sampleCatalog = sampleCatalogLoaded
      ∧ buildTaskQueue sampleCatalogLoaded
          = [{ healpix_id := 16, source_id := 7, records := sampleCatalogLoaded.drop 2 },
             { healpix_id := 4294967312, source_id := 7,
               records := sampleCatalogLoaded.take 2 }]
      ∧ tableKey 4294967312 7 = tableKey 16 7
      ∧ (statementForTask
            (statementForTask []
              { healpix_id := 16, source_id := 7, records := sampleCatalogLoaded.drop 2 }).2
            { healpix_id := 4294967312, source_id := 7,
              records := sampleCatalogLoaded.take 2 }).1 = (16, 7) := by
  refine ⟨?_, by decide, ?_, rfl, by decide, by decide⟩
  · intro b f source_id
    unfold tableKey
    have h : (b * 2 ^ 32 + f) * 2 ^ 32 % 2 ^ 64 = f * 2 ^ 32 % 2 ^ 64 := by omega
    rw [h]
  · norm_num [loadAndProcessData, calculateAdaptiveHealpixId, countBaseCells, snapshotCount,
      mapModify, mapFind, mapInsert, mapAssign, wideImporter, sampleCatalog,
      sampleCatalogLoaded, sampleHealpix, fmod, truncToZero, deg2rad, PI, longLt]
    decide

/-- C26: the shard name
`table_name + "_" + to_string(healpix_id) + "_" + to_string(source_id)` is injective
in the key: two keys give the same name exactly when they are the same key. -/
theorem shard_name_injective (table_name : List Char)
    (healpix_id source_id healpix_id2 source_id2 : Int) :
    table_name_full table_name healpix_id source_id
        = table_name_full table_name healpix_id2 source_id2
      ↔ (healpix_id, source_id) = (healpix_id2, source_id2) := by
  constructor
  · intro h
    have hinj := table_name_full_injective table_name healpix_id source_id healpix_id2
      source_id2 h
    rw [hinj.1, hinj.2]
  · intro h
    rw [Prod.mk.injEq] at h
    rw [h.1, h.2]

/-- C29: `nearestWithHealpix` does not wrap neighbour offsets, in `double` arithmetic:
the candidate list is the centre cell followed, in loop order, by the cells of the
offsets other than `(0, 0)` that pass the tests, and an offset contributes a cell
exactly when the values the code computes for `theta + d_theta * PI / (2 * nside)` and
`phi + d_phi * 2 * PI / (4 * nside)` lie in `[0, PI]` and `[0, 2 * PI)` and the cell id
is valid. So, for every rounding that is monotone and exact on `double` values and
every resolution `1 ≤ nside < 2^31`, at `ra = 0` the three offsets with `d_phi = -1`
are dropped, the list holds at most 6 ids, and its first id is the centre cell. -/
theorem nearest_offsets_do_not_wrap (fp : DoubleArithmetic) (t : TDengineQueryTester)
    (dec : Rat) (hfp : fp.Faithful) (hn : 1 ≤ t.nside) (hint : t.nside < 2 ^ 31) :
    (∀ ra, cleanPointingDouble fp ra dec
        = { theta := fp.rnd (fp.rnd (fp.rnd (90 - max (-90) (min 90 dec)) * fp.rnd PI) / 180),
            phi := fp.rnd (fp.rnd
              ((if fmod ra 360 < 0 then fp.rnd (fmod ra 360 + 360) else fmod ra 360)
                * fp.rnd PI) / 180) })
      ∧ (∀ ra, nearestHealpixIdsDouble fp t ra dec
          = t.healpix_map.ang2pix (cleanPointingDouble fp ra dec)
              :: ([(-1, -1), (-1, 0), (-1, 1), (0, -1), (0, 1), (1, -1), (1, 0), (1, 1)] :
                    List (Int × Int)).filterMap (fun d =>
                  neighbourCellDouble fp t (cleanPointingDouble fp ra dec) d.1 d.2))
      ∧ (∀ (pt : pointing) (d_theta d_phi x : Int),
          neighbourCellDouble fp t pt d_theta d_phi = some x
            ↔ ¬ (d_theta = 0 ∧ d_phi = 0)
              ∧ 0 ≤ fp.rnd (pt.theta
                  + fp.rnd (fp.rnd ((d_theta : Rat) * fp.rnd PI)
                      / fp.rnd (2 * (t.nside : Rat))))
              ∧ fp.rnd (pt.theta
                  + fp.rnd (fp.rnd ((d_theta : Rat) * fp.rnd PI)
                      / fp.rnd (2 * (t.nside : Rat))))
                  ≤ fp.rnd PI
              ∧ 0 ≤ fp.rnd (pt.phi
                  + fp.rnd (fp.rnd (fp.rnd ((d_phi : Rat) * 2) * fp.rnd PI)
                      / fp.rnd (4 * (t.nside : Rat))))
              ∧ fp.rnd (pt.phi
                  + fp.rnd (fp.rnd (fp.rnd ((d_phi : Rat) * 2) * fp.rnd PI)
                      / fp.rnd (4 * (t.nside : Rat))))
                  < fp.rnd (2 * fp.rnd PI)
              ∧ x = t.healpix_map.ang2pix
                  { theta := fp.rnd (pt.theta
                      + fp.rnd (fp.rnd ((d_theta : Rat) * fp.rnd PI)
                          / fp.rnd (2 * (t.nside : Rat)))),
                    phi := fp.rnd (pt.phi
                      + fp.rnd (fp.rnd (fp.rnd ((d_phi : Rat) * 2) * fp.rnd PI)
                          / fp.rnd (4 * (t.nside : Rat)))) }
              ∧ 0 ≤ x ∧ x < t.healpix_map.Npix)
      ∧ (∀ d_theta : Int,
          neighbourCellDouble fp t (cleanPointingDouble fp 0 dec) d_theta (-1) = none)
      ∧ (nearestHealpixIdsDouble fp t 0 dec).length ≤ 6
      ∧ (nearestHealpixIdsDouble fp t 0 dec).head?
          = some (t.healpix_map.ang2pix (cleanPointingDouble fp 0 dec)) := by
  have hphi := cleanPointingDouble_zero_phi fp hfp dec
  refine ⟨fun ra => rfl, fun ra => nearestHealpixIdsDouble_eq fp t ra dec,
    neighbourCellDouble_eq_some_iff fp t,
    neighbourCellDouble_phi_zero_left fp hfp t _ hn hint hphi, ?_, ?_⟩
  · rw [nearestHealpixIdsDouble_eq, List.length_cons]
    have h := length_candidates_double_phi_zero fp hfp t (cleanPointingDouble fp 0 dec)
      hn hint hphi
    omega
  · rw [nearestHealpixIdsDouble_eq]
    rfl

/-- C29 in binary64 arithmetic at resolution 32, on the equator. -/
theorem nearest_offsets_do_not_wrap_witness :
    (binary64.Faithful ∧ (1 : Int) ≤ sampleTester32.nside ∧ sampleTester32.nside < 2 ^ 31)
      ∧ (nearestHealpixIdsDouble binary64 sampleTester32 0 0).length ≤ 6 :=
  ⟨⟨binary64_faithful, by decide, by decide⟩,
    (nearest_offsets_do_not_wrap binary64 sampleTester32 0 binary64_faithful
      (by decide) (by decide)).2.2.2.2.1⟩

end LightcurveDb
